import Mathlib

/-!
# The execution core of luna (VM.cpp, State.h)

A shallow embedding of the register machine of `VM.cpp`.

* A `Value *` into the stack is an `Int` index; the stack is a total map from
  indices to cells together with the `top_` index, so pointer arithmetic is
  integer arithmetic.
* Objects owned by the collector (prototypes, closures, upvalues, tables) live
  in stores indexed by `Nat` pointers; allocation hands out the next pointer.
* A C++ exception is the outcome `throw e s`, carrying the state at the moment
  of the throw.  A failed `assert`, a null or dangling dereference and a read of
  an inactive union member are the outcome `undefined`.
* `Number` payloads are rationals; rounding, infinities and NaN of the 64-bit
  float are not modelled.  `pow`, `fmod` and the `%g` rendering come from the
  C library and are parameters (`Host`).
* `State::CheckRunGC` preserves the identity and content of every reachable
  object and is modelled as doing nothing.
-/

namespace luna

/-! ## Values -/

/-- The tag of a value cell (`ValueT`). -/
inductive ValueT where
  | Nil | Bool | Number | String | Table | Closure | CFunction | Upvalue
  deriving DecidableEq, Repr

/-- A tagged value cell (`Value`): the tag together with the active member of
the payload union.  Pointers to collected objects are `Nat`. -/
inductive Value where
  | nil
  | bool (bvalue_ : Bool)
  | number (num_ : ℚ)
  | string (str_ : String)
  | table (table_ : Nat)
  | closure (closure_ : Nat)
  | cfunction (cfunc_ : Nat)
  | upvalue (upvalue_ : Nat)
  deriving DecidableEq

/-- The field `type_` of a cell. -/
def Value.type_ : Value → ValueT
  | .nil => .Nil
  | .bool _ => .Bool
  | .number _ => .Number
  | .string _ => .String
  | .table _ => .Table
  | .closure _ => .Closure
  | .cfunction _ => .CFunction
  | .upvalue _ => .Upvalue

/-- Modelled from the spec: `Value::IsFalse` (Value.h is not among the
sources); `Nil` and `Bool(false)` are false, everything else is true. -/
def Value.IsFalse : Value → Bool
  | .nil => true
  | .bool b => !b
  | _ => false

/-- Modelled from the spec: `Value::TypeName` (Value.h is not among the
sources); only the tag matters for the messages built here. -/
def Value.TypeName (v : Value) : ValueT := v.type_

/-- Modelled from the spec: `EXP_VALUE_COUNT_ANY` (Runtime.h is not among the
sources).  `Call` compares `B - 1` and `C - 1` with it and the sentinel of `B`
and `C` is 0, so the constant is -1. -/
def EXP_VALUE_COUNT_ANY : Int := -1

/-! ## Instructions and prototypes -/

/-- The opcodes handled by the switch of `ExecuteFrame`; `Other` stands for
every opcode that reaches `default`. -/
inductive OpType where
  | LoadNil | LoadBool | LoadInt | LoadConst | Move | Call
  | GetUpvalue | SetUpvalue | GetGlobal | SetGlobal | Closure | VarArg | Ret
  | JmpFalse | JmpTrue | JmpNil | Jmp | Neg | Not | Len
  | Add | Sub | Mul | Div | Pow | Mod | Concat
  | Less | Greater | Equal | UnEqual | LessEqual | GreaterEqual
  | NewTable | SetTable | GetTable | ForInit | ForStep | Other
  deriving DecidableEq, Repr

/-- Modelled from the spec: the instruction word and its decoders (OpCode.h is
not among the sources).  `opcode_` is the raw word, the other fields are what
`Instruction::GetOpCode`, `GetParamA`, `GetParamB`, `GetParamC`, `GetParamBx`
and `GetParamsBx` return for it. -/
structure Instruction where
  opcode_ : Int
  GetOpCode : OpType
  GetParamA : Nat
  GetParamB : Nat
  GetParamC : Nat
  GetParamBx : Nat
  GetParamsBx : Int

/-- An upvalue descriptor of a prototype (`UpvalueInfo`). -/
structure UpvalueInfo where
  name_ : String
  parent_local_ : Bool
  register_index_ : Nat

/-- Modelled from the spec: the prototype `Function` (Function.h is not among
the sources), as the pure readers of section 4.3.  `GetChildFunction` returns
a pointer into the store of prototypes. -/
structure Function where
  opcodes_ : List Instruction
  GetConstValue : Nat → Value
  GetChildFunction : Nat → Nat
  upvalues_ : List UpvalueInfo
  FixedArgCount : Int
  HasVararg : Bool
  GetInstructionLine : Int → Int
  SearchLocalVar : Nat → Int → Option String

/-- The number of opcodes, `Function::OpCodeSize`. -/
def Function.OpCodeSize (p : Function) : Int := p.opcodes_.length

/-- The opcode at index `pc` from `GetOpCodes()`; `none` outside the vector. -/
def Function.opcodeAt (p : Function) (pc : Int) : Option Instruction :=
  if 0 ≤ pc then p.opcodes_.get? pc.toNat else none

/-- The number of descriptors, `Function::GetUpvalueCount`. -/
def Function.GetUpvalueCount (p : Function) : Nat := p.upvalues_.length

/-- The descriptor at an index, `Function::GetUpvalue`. -/
def Function.GetUpvalue (p : Function) (i : Nat) : Option UpvalueInfo :=
  p.upvalues_.get? i

/-! ## Collected objects -/

/-- A closure object: the prototype pointer (null until `SetPrototype`) and the
upvalue pointers in the order `AddUpvalue` appended them. -/
structure Closure where
  prototype_ : Option Nat
  upvalues_ : List Nat

/-- The upvalue at an index, `Closure::GetUpvalue`. -/
def Closure.GetUpvalue (c : Closure) (i : Nat) : Option Nat := c.upvalues_.get? i

/-- Modelled from the spec: `Table` (Table.h is not among the sources); an
array part indexed from 1 and a hash part; a missing key reads as `Nil`,
storing `Nil` in the hash part removes the key. -/
structure Table where
  array_ : List Value
  hash_ : List (Value × Value)

/-- The position in the array part that a key addresses, if any. -/
def Table.arrayIndex (t : Table) (key : Value) : Option Nat :=
  match key with
  | .number q =>
    if q.den = 1 ∧ 1 ≤ q.num ∧ q.num ≤ (t.array_.length : Int) then some (q.num.toNat - 1)
    else none
  | _ => none

/-- Modelled from the spec: `Table::GetValue`. -/
def Table.GetValue (t : Table) (key : Value) : Value :=
  match t.arrayIndex key with
  | some k => t.array_.getD k .nil
  | none =>
    match t.hash_.find? (fun kv => decide (kv.1 = key)) with
    | some kv => kv.2
    | none => .nil

/-- Modelled from the spec: `Table::SetValue`. -/
def Table.SetValue (t : Table) (key value : Value) : Table :=
  match t.arrayIndex key with
  | some k => { t with array_ := t.array_.set k value }
  | none =>
    if key = .number ((t.array_.length : ℚ) + 1) ∧ value ≠ .nil then
      { t with array_ := t.array_ ++ [value] }
    else
      let rest := t.hash_.filter (fun kv => decide (kv.1 ≠ key))
      { t with hash_ := if value = .nil then rest else (key, value) :: rest }

/-- Modelled from the spec: `Table::ArraySize`, the length of the array part. -/
def Table.ArraySize (t : Table) : Nat := t.array_.length

/-- The objects owned by the collector (`GC`), by kind.  `NewClosure`,
`NewUpvalue` and `NewTable` return the next unused pointer of their kind. -/
structure GC where
  functions_ : Nat → Function
  closures_ : Nat → Closure
  upvalues_ : Nat → Value
  tables_ : Nat → Table
  closure_count_ : Nat
  upvalue_count_ : Nat
  table_count_ : Nat

/-! ## The state (State.h) -/

/-- Error type reported by a called C function. -/
inductive CFuntionErrorType where
  | CFuntionErrorType_NoError
  | CFuntionErrorType_ArgCount
  | CFuntionErrorType_ArgType
  deriving DecidableEq, Repr

/-- Error reported by a called C function. -/
structure CFunctionError where
  type_ : CFuntionErrorType
  expect_arg_count_ : Int
  arg_index_ : Int
  expect_type_ : ValueT

/-- The value stack: the cells and the `top_` pointer. -/
structure Stack where
  stack_ : Int → Value
  top_ : Int

/-- Modelled from the spec: `Stack::SetNewTop` (Runtime.h is not among the
sources); section 4.1: it repositions `top_` and clears no cell. -/
def Stack.SetNewTop (st : Stack) (top : Int) : Stack := { st with top_ := top }

/-- An activation frame (`CallInfo`).  `instruction_` and `end_` are indices
from `GetOpCodes()` of the prototype of the frame; `func_` is nullable. -/
structure CallInfo where
  register_ : Int
  func_ : Option Int
  instruction_ : Int
  end_ : Int
  expect_result : Int

/-- The members of `State` the machine uses.  The back of `calls_` is the head
of the list. -/
structure State where
  gc_ : GC
  cfunc_error_ : CFunctionError
  stack_ : Stack
  calls_ : List CallInfo
  global_ : Value

/-- The cell a stack pointer addresses. -/
def State.cell (s : State) (p : Int) : Value := s.stack_.stack_ p

/-- Store a cell through a stack pointer. -/
def State.setCell (s : State) (p : Int) (v : Value) : State :=
  { s with stack_ := { s.stack_ with stack_ := fun j => if j = p then v else s.stack_.stack_ j } }

/-- The cell of an upvalue object, `Upvalue::GetValue`. -/
def State.upvalueCell (s : State) (u : Nat) : Value := s.gc_.upvalues_ u

/-- Store into the cell of an upvalue object. -/
def State.setUpvalueCell (s : State) (u : Nat) (v : Value) : State :=
  { s with gc_ := { s.gc_ with upvalues_ := fun j => if j = u then v else s.gc_.upvalues_ j } }

/-- `State::ClearCFunctionError`. -/
def State.ClearCFunctionError (s : State) : State :=
  { s with cfunc_error_ := { s.cfunc_error_ with type_ := .CFuntionErrorType_NoError } }

/-- Where a `Value *` can point: a stack cell or the cell of an upvalue. -/
inductive ValuePtr where
  | stack (p : Int)
  | upvalue (u : Nat)
  deriving DecidableEq

/-- The macro `GET_REAL_VALUE`: the upvalue cell behind a promoted register,
the register itself otherwise. -/
def GET_REAL_VALUE (s : State) (a : Int) : ValuePtr :=
  match s.cell a with
  | .upvalue u => .upvalue u
  | _ => .stack a

/-- Read through a `Value *`. -/
def State.read (s : State) : ValuePtr → Value
  | .stack p => s.cell p
  | .upvalue u => s.upvalueCell u

/-- Write through a `Value *`. -/
def State.write (s : State) (ptr : ValuePtr) (v : Value) : State :=
  match ptr with
  | .stack p => s.setCell p v
  | .upvalue u => s.setUpvalueCell u v

/-! ## Outcomes -/

/-- The text `CheckCFuntionError` formats into its buffer, by the arguments of
the format: `expect %d arguments`, or
`argument #%d is a %s value, expect a %s value`. -/
inductive CFunctionErrorText where
  | expectArguments (expect_arg_count : Int)
  | argumentType (position : Int) (actual expected : ValueT)
  deriving DecidableEq

/-- Modelled from the spec: `RuntimeException` (Exception.h is not among the
sources), one constructor for each of the four argument lists `VM.cpp` throws
with; the rendering of the message is not modelled. -/
inductive RuntimeException where
  | message (buffer : CFunctionErrorText) (line : Int)
  | operand (v : Value) (v_name v_scope op : String) (line : Int)
  | operands (v1 v2 : Value) (op : String) (line : Int)
  | expected (v : Value) (v_name expect_type : String) (line : Int)
  deriving DecidableEq

/-- What running a piece of the machine leads to: a normal return with a
result, a thrown `RuntimeException`, no defined behaviour (failed assertion,
invalid pointer, inactive union member), or the fuel of the model ran out. -/
inductive Outcome (α : Type) where
  | ok (r : α) (s : State)
  | throw (e : RuntimeException) (s : State)
  | undefined
  | outOfFuel

/-- What the machine takes from its host: the callable behind each `CFunction`
pointer (it returns the state it leaves and its result count), and `pow`,
`fmod` and the `%g` rendering of the C library. -/
structure Host where
  cfunc : Nat → State → State × Int
  pow : ℚ → ℚ → ℚ
  fmod : ℚ → ℚ → ℚ
  fmt_g : ℚ → String

/-! ## Helpers of VM.cpp -/

/-- Modelled from the spec: `String::GetCStr` (String.h is not among the
sources).  It returns a `const char *`: `GetOperandNameAndScope` returns its
result in a pair of `const char *`, and `Concat` adds it to a `std::string`.
The bytes a `const char *` denotes end at the first NUL. -/
def GetCStr (str : String) : String :=
  String.mk (str.data.takeWhile (fun ch => decide (ch ≠ Char.ofNat 0)))

/-- `NumberToStr`: `%lld` of the number converted to `long long` when it equals
its floor, `%g` otherwise; `none` when the assertion on the tag fails.  The
conversion `static_cast<long long>` is defined only for a value within the
range of `long long`, from `-2^63` to `2^63 - 1`; outside it the behaviour is
undefined, here `none`. -/
def NumberToStr (host : Host) (num : Value) : Option String :=
  match num with
  | .number q =>
    if ((Int.floor q : Int) : ℚ) = q then
      if -(2 : Int) ^ 63 ≤ Int.floor q ∧ Int.floor q < (2 : Int) ^ 63 then
        some (toString (Int.floor q))
      else none
    else some (host.fmt_g q)
  | _ => none

/-- The loop `for (i = 0; i < n; ++i) *dst++ = *src++` on the cells of the
stack. -/
def copyValues (cells : Int → Value) : Nat → Int → Int → (Int → Value)
  | 0, _, _ => cells
  | n + 1, dst, src =>
    copyValues (fun j => if j = dst then cells src else cells j) n (dst + 1) (src + 1)

/-- The loop `for (i = 0; i < n; ++i, ++dst) dst->SetNil()` on the cells of
the stack. -/
def fillNil (cells : Int → Value) : Nat → Int → (Int → Value)
  | 0, _ => cells
  | n + 1, dst => fillNil (fun j => if j = dst then .nil else cells j) n (dst + 1)

/-- Replace the cells of the stack, as a loop over them does. -/
def State.setCells (s : State) (cells : Int → Value) : State :=
  { s with stack_ := { s.stack_ with stack_ := cells } }

/-- Replace the instruction cursor of the back frame. -/
def State.setInstruction (s : State) (pc : Int) : State :=
  match s.calls_ with
  | [] => s
  | call :: rest => { s with calls_ := { call with instruction_ := pc } :: rest }

/-- The macro `GET_CALLINFO_AND_PROTO`: the back frame, the closure in its
function slot and the prototype of that closure; `none` when an assertion of
the macro fails or the prototype pointer is null. -/
def GET_CALLINFO_AND_PROTO (s : State) : Option (CallInfo × Nat × Function) :=
  match s.calls_ with
  | [] => none
  | call :: _ =>
    match call.func_ with
    | none => none
    | some f =>
      match s.cell f with
      | .closure cl =>
        match (s.gc_.closures_ cl).prototype_ with
        | some p => some (call, cl, s.gc_.functions_ p)
        | none => none
      | _ => none

/-- `VM::GetCurrentInstructionLine`. -/
def GetCurrentInstructionLine (s : State) : Option Int :=
  match GET_CALLINFO_AND_PROTO s with
  | some (call, _, proto) => some (proto.GetInstructionLine (call.instruction_ - 1))
  | none => none

/-- The backward scan of `VM::GetOperandNameAndScope`: `k` instructions remain
below the scan position, the next one examined has index `k - 1`. -/
def GetOperandNameAndScope.search (s : State) (call : CallInfo) (proto : Function)
    (reg pc : Int) : Nat → Option (String × String)
  | 0 => some ("?", "")
  | k + 1 =>
    match proto.opcodes_.get? k with
    | none => none
    | some ins =>
      match ins.GetOpCode with
      | .GetGlobal =>
        if reg = (ins.GetParamA : Int) then
          match proto.GetConstValue ins.GetParamBx with
          | .string str => some (GetCStr str, "global")
          | _ => some ("?", "")
        else GetOperandNameAndScope.search s call proto reg pc k
      | .Move =>
        if reg = (ins.GetParamA : Int) then
          match proto.SearchLocalVar ins.GetParamB pc with
          | some name => some (GetCStr name, "local")
          | none => some ("?", "")
        else GetOperandNameAndScope.search s call proto reg pc k
      | .GetUpvalue =>
        if reg = (ins.GetParamA : Int) then
          match proto.GetUpvalue ins.GetParamB with
          | some upvalue_info => some (GetCStr upvalue_info.name_, "upvalue")
          | none => none
        else GetOperandNameAndScope.search s call proto reg pc k
      | .GetTable =>
        if reg = (ins.GetParamC : Int) then
          match s.cell (call.register_ + ins.GetParamB) with
          | .string str => some (GetCStr str, "table member")
          | _ => some ("?", "table member")
        else GetOperandNameAndScope.search s call proto reg pc k
      | _ => GetOperandNameAndScope.search s call proto reg pc k

/-- `VM::GetOperandNameAndScope` for the register a stack pointer addresses. -/
def GetOperandNameAndScope (s : State) (a : Int) : Option (String × String) :=
  match GET_CALLINFO_AND_PROTO s with
  | none => none
  | some (call, _, proto) =>
    let reg := a - call.register_
    let pc := call.instruction_ - 1
    GetOperandNameAndScope.search s call proto reg pc pc.toNat

/-- `VM::ReportTypeError`: always throws (or has no defined behaviour). -/
def ReportTypeError {α : Type} (s : State) (v : Int) (op : String) : Outcome α :=
  match GetOperandNameAndScope s v, GetCurrentInstructionLine s with
  | some ns, some line => .throw (.operand (s.cell v) ns.1 ns.2 op line) s
  | _, _ => .undefined

/-- `VM::CheckType`. -/
def CheckType (s : State) (v : Int) (type : ValueT) (op : String) : Outcome Unit :=
  if (s.cell v).type_ ≠ type then ReportTypeError s v op else .ok () s

/-- `VM::CheckArithType`. -/
def CheckArithType (s : State) (v1 v2 : Int) (op : String) : Outcome Unit :=
  if (s.cell v1).type_ ≠ .Number ∨ (s.cell v2).type_ ≠ .Number then
    match GetCurrentInstructionLine s with
    | some line => .throw (.operands (s.cell v1) (s.cell v2) op line) s
    | none => .undefined
  else .ok () s

/-- `VM::CheckInequalityType`. -/
def CheckInequalityType (s : State) (v1 v2 : Int) (op : String) : Outcome Unit :=
  if (s.cell v1).type_ ≠ (s.cell v2).type_ ∨
      ((s.cell v1).type_ ≠ .Number ∧ (s.cell v1).type_ ≠ .String) then
    match GetCurrentInstructionLine s with
    | some line => .throw (.operands (s.cell v1) (s.cell v2) op line) s
    | none => .undefined
  else .ok () s

/-- `VM::CheckTableType`. -/
def CheckTableType (s : State) (t k : Int) (op desc : String) : Outcome Unit :=
  if (s.cell t).type_ ≠ .Table then
    match GetOperandNameAndScope s t, GetCurrentInstructionLine s with
    | some ns, some line =>
      let key_name := match s.cell k with
        | .string str => GetCStr str
        | _ => "?"
      let op_desc := op ++ " table key " ++ String.singleton (Char.ofNat 39) ++ key_name ++
        String.singleton (Char.ofNat 39) ++ " " ++ desc
      .throw (.operand (s.cell t) ns.1 ns.2 op_desc line) s
    | _, _ => .undefined
  else .ok () s

/-- `VM::CheckCFuntionError`, run with the host frame at the back. -/
def CheckCFuntionError (s : State) : Outcome Unit :=
  let error := s.cfunc_error_
  match error.type_ with
  | .CFuntionErrorType_NoError => .ok () s
  | .CFuntionErrorType_ArgCount =>
    let s1 := { s with calls_ := s.calls_.tail }
    match s.calls_, GetCurrentInstructionLine s1 with
    | _ :: _, some line => .throw (.message (.expectArguments error.expect_arg_count_) line) s1
    | _, _ => .undefined
  | .CFuntionErrorType_ArgType =>
    let s1 := { s with calls_ := s.calls_.tail }
    match s.calls_, GetCurrentInstructionLine s1 with
    | call :: _, some line =>
      let arg := call.register_ + error.arg_index_
      .throw (.message (.argumentType (error.arg_index_ + 1) (s.cell arg).TypeName
        error.expect_type_) line) s1
    | _, _ => .undefined

/-! ## The calling convention -/

/-- `VM::Return`.  A frame without function slot makes `dst` the null pointer;
that has no defined behaviour here. -/
def Return (s : State) (a : Int) (i : Instruction) : Outcome Unit :=
  let ret_value_count := i.GetParamsBx
  let s1 : State :=
    if ret_value_count ≠ EXP_VALUE_COUNT_ANY then
      { s with stack_ := { s.stack_ with top_ := a + ret_value_count } }
    else s
  match s1.calls_ with
  | [] => .undefined
  | call :: rest =>
    match call.func_ with
    | none => .undefined
    | some dst =>
      let src := a
      let expect_result := call.expect_result
      let result_count := s1.stack_.top_ - src
      if expect_result = EXP_VALUE_COUNT_ANY then
        let n := result_count.toNat
        let s2 := s1.setCells (copyValues s1.stack_.stack_ n dst src)
        .ok () { s2 with stack_ := s2.stack_.SetNewTop (dst + n), calls_ := rest }
      else
        let count := min expect_result result_count
        let n := count.toNat
        let s2 := s1.setCells (copyValues s1.stack_.stack_ n dst src)
        let m := (expect_result - n).toNat
        let s3 := s2.setCells (fillNil s2.stack_.stack_ m (dst + n))
        .ok () { s3 with stack_ := s3.stack_.SetNewTop (dst + n + m), calls_ := rest }

/-- `VM::CallClosure`; `a` must hold a closure whose prototype is set. -/
def CallClosure (s : State) (a : Int) (expect_result : Int) : Outcome Unit :=
  match s.cell a with
  | .closure cl =>
    match (s.gc_.closures_ cl).prototype_ with
    | none => .undefined
    | some p =>
      let callee_proto := s.gc_.functions_ p
      let arg := a + 1
      let fixed_args := callee_proto.FixedArgCount
      if callee_proto.HasVararg then
        let top := s.stack_.top_
        let count := top - arg
        let s1 := s.setCells (copyValues s.stack_.stack_ (min count fixed_args).toNat top arg)
        let callee : CallInfo :=
          { register_ := top, func_ := some a, instruction_ := 0,
            end_ := callee_proto.OpCodeSize, expect_result := expect_result }
        .ok () { s1 with stack_ := s1.stack_.SetNewTop (callee.register_ + fixed_args),
                         calls_ := callee :: s1.calls_ }
      else
        let callee : CallInfo :=
          { register_ := arg, func_ := some a, instruction_ := 0,
            end_ := callee_proto.OpCodeSize, expect_result := expect_result }
        .ok () { s with stack_ := s.stack_.SetNewTop (callee.register_ + fixed_args),
                        calls_ := callee :: s.calls_ }
  | _ => .undefined

/-- `VM::CallCFunction`; `a` must hold a C function.  The cursor fields of the
host frame are never read and are set to 0. -/
def CallCFunction (host : Host) (s : State) (a : Int) (expect_result : Int) : Outcome Unit :=
  match s.cell a with
  | .cfunction cfunc =>
    let callee : CallInfo :=
      { register_ := a + 1, func_ := some a, instruction_ := 0, end_ := 0,
        expect_result := expect_result }
    let s1 : State := { s with calls_ := callee :: s.calls_ }
    let r := host.cfunc cfunc s1.ClearCFunctionError
    let res_count := r.2
    match CheckCFuntionError r.1 with
    | .ok _ s2 =>
      let src := s2.stack_.top_ - res_count
      let dst := a
      match s2.calls_ with
      | [] => .undefined
      | _ :: rest =>
        if expect_result = EXP_VALUE_COUNT_ANY then
          let n := res_count.toNat
          let s3 := s2.setCells (copyValues s2.stack_.stack_ n dst src)
          .ok () { s3 with stack_ := s3.stack_.SetNewTop (dst + n), calls_ := rest }
        else
          let n := (min expect_result res_count).toNat
          let s3 := s2.setCells (copyValues s2.stack_.stack_ n dst src)
          let m := (expect_result - res_count).toNat
          let s4 := s3.setCells (fillNil s3.stack_.stack_ m (dst + n))
          .ok () { s4 with stack_ := s4.stack_.SetNewTop (dst + n + m), calls_ := rest }
    | .throw e s2 => .throw e s2
    | .undefined => .undefined
    | .outOfFuel => .outOfFuel
  | _ => .undefined

/-- `VM::Call`; the result says whether `ExecuteFrame` returns. -/
def Call (host : Host) (s : State) (a : Int) (i : Instruction) : Outcome Bool :=
  let arg_count : Int := (i.GetParamB : Int) - 1
  let s1 : State :=
    if arg_count ≠ EXP_VALUE_COUNT_ANY then
      { s with stack_ := { s.stack_ with top_ := a + 1 + arg_count } }
    else s
  let expect_result : Int := (i.GetParamC : Int) - 1
  if (s1.cell a).type_ = .Closure then
    match CallClosure s1 a expect_result with
    | .ok _ s2 => .ok true s2
    | .throw e s2 => .throw e s2
    | .undefined => .undefined
    | .outOfFuel => .outOfFuel
  else if (s1.cell a).type_ = .CFunction then
    match CallCFunction host s1 a expect_result with
    | .ok _ s2 => .ok false s2
    | .throw e s2 => .throw e s2
    | .undefined => .undefined
    | .outOfFuel => .outOfFuel
  else
    ReportTypeError s1 a "call"

/-! ## Closures and varargs -/

/-- `State::NewClosure`: a closure with no prototype and no upvalue at the
next unused pointer. -/
def State.NewClosure (s : State) : Nat × State :=
  (s.gc_.closure_count_,
   { s with gc_ := { s.gc_ with
      closures_ := fun j => if j = s.gc_.closure_count_ then { prototype_ := none, upvalues_ := [] }
                             else s.gc_.closures_ j,
      closure_count_ := s.gc_.closure_count_ + 1 } })

/-- `State::NewUpvalue`: an upvalue holding `Nil` at the next unused pointer. -/
def State.NewUpvalue (s : State) : Nat × State :=
  (s.gc_.upvalue_count_,
   { s with gc_ := { s.gc_ with
      upvalues_ := fun j => if j = s.gc_.upvalue_count_ then .nil else s.gc_.upvalues_ j,
      upvalue_count_ := s.gc_.upvalue_count_ + 1 } })

/-- `State::NewTable`: an empty table at the next unused pointer. -/
def State.NewTable (s : State) : Nat × State :=
  (s.gc_.table_count_,
   { s with gc_ := { s.gc_ with
      tables_ := fun j => if j = s.gc_.table_count_ then { array_ := [], hash_ := [] }
                           else s.gc_.tables_ j,
      table_count_ := s.gc_.table_count_ + 1 } })

/-- Replace the table object a pointer addresses. -/
def State.setTable (s : State) (t : Nat) (tbl : Table) : State :=
  { s with gc_ := { s.gc_ with tables_ := fun j => if j = t then tbl else s.gc_.tables_ j } }

/-- `Closure::SetPrototype` on the object a pointer addresses. -/
def State.SetPrototype (s : State) (cl : Nat) (p : Nat) : State :=
  { s with gc_ := { s.gc_ with
      closures_ := fun j => if j = cl then { s.gc_.closures_ cl with prototype_ := some p }
                             else s.gc_.closures_ j } }

/-- `Closure::AddUpvalue` on the object a pointer addresses. -/
def State.AddUpvalue (s : State) (cl : Nat) (u : Nat) : State :=
  { s with gc_ := { s.gc_ with
      closures_ := fun j =>
        if j = cl then { s.gc_.closures_ cl with upvalues_ := (s.gc_.closures_ cl).upvalues_ ++ [u] }
        else s.gc_.closures_ j } }

/-- The body of the loop of `VM::GenerateClosure` for one descriptor. -/
def GenerateClosure.capture (call : CallInfo) (closure new_closure : Nat) (s : State)
    (upvalue_info : UpvalueInfo) : Option State :=
  if upvalue_info.parent_local_ then
    let reg := call.register_ + upvalue_info.register_index_
    match s.cell reg with
    | .upvalue u => some (s.AddUpvalue new_closure u)
    | v =>
      let r := s.NewUpvalue
      let s1 := r.2.setUpvalueCell r.1 v
      let s2 := s1.setCell reg (.upvalue r.1)
      some (s2.AddUpvalue new_closure r.1)
  else
    match (s.gc_.closures_ closure).GetUpvalue upvalue_info.register_index_ with
    | some upvalue => some (s.AddUpvalue new_closure upvalue)
    | none => none

/-- The loop of `VM::GenerateClosure` over the descriptors in order. -/
def GenerateClosure.prepare (call : CallInfo) (closure new_closure : Nat) :
    List UpvalueInfo → State → Option State
  | [], s => some s
  | upvalue_info :: infos, s =>
    match GenerateClosure.capture call closure new_closure s upvalue_info with
    | some s1 => GenerateClosure.prepare call closure new_closure infos s1
    | none => none

/-- `VM::GenerateClosure`. -/
def GenerateClosure (s : State) (a : Int) (i : Instruction) : Outcome Unit :=
  match GET_CALLINFO_AND_PROTO s with
  | none => .undefined
  | some (call, _, proto) =>
    let a_proto := proto.GetChildFunction i.GetParamBx
    let r := s.NewClosure
    let new_closure := r.1
    let s1 := (r.2.setCell a (.closure new_closure)).SetPrototype new_closure a_proto
    match call.func_ with
    | none => .undefined
    | some f =>
      match s1.cell f with
      | .closure closure =>
        match GenerateClosure.prepare call closure new_closure
            (s.gc_.functions_ a_proto).upvalues_ s1 with
        | some s2 => .ok () s2
        | none => .undefined
      | _ => .undefined

/-- `VM::CopyVarArg`. -/
def CopyVarArg (s : State) (a : Int) (i : Instruction) : Outcome Unit :=
  match GET_CALLINFO_AND_PROTO s with
  | none => .undefined
  | some (call, _, proto) =>
    match call.func_ with
    | none => .undefined
    | some f =>
      let arg := f + 1
      let total_args := call.register_ - arg
      let vararg_count := total_args - proto.FixedArgCount
      let arg := arg + proto.FixedArgCount
      let expect_count := i.GetParamsBx
      if expect_count = EXP_VALUE_COUNT_ANY then
        let n := vararg_count.toNat
        let s1 := s.setCells (copyValues s.stack_.stack_ n a arg)
        .ok () { s1 with stack_ := s1.stack_.SetNewTop (a + n) }
      else
        let n := (min vararg_count expect_count).toNat
        let s1 := s.setCells (copyValues s.stack_.stack_ n a arg)
        let m := (expect_count - n).toNat
        .ok () (s1.setCells (fillNil s1.stack_.stack_ m (a + n)))

/-! ## Concat and the numeric for -/

/-- `VM::Concat`. -/
def Concat (host : Host) (s : State) (dst op1 op2 : Int) : Outcome Unit :=
  match s.cell op1, s.cell op2 with
  | .string x, .string y => .ok () (s.setCell dst (.string (x ++ GetCStr y)))
  | .string x, .number q =>
    match NumberToStr host (.number q) with
    | some t => .ok () (s.setCell dst (.string (GetCStr x ++ t)))
    | none => .undefined
  | .number q, .string y =>
    match NumberToStr host (.number q) with
    | some t => .ok () (s.setCell dst (.string (t ++ GetCStr y)))
    | none => .undefined
  | v1, v2 =>
    match GetCurrentInstructionLine s with
    | some line => .throw (.operands v1 v2 "concat" line) s
    | none => .undefined

/-- `VM::ForInit`. -/
def ForInit (s : State) (var limit step : Int) : Outcome Unit :=
  let q := String.singleton (Char.ofNat 39)
  if (s.cell var).type_ ≠ .Number then
    match GetCurrentInstructionLine s with
    | some line => .throw (.expected (s.cell var) (q ++ "for" ++ q ++ " init") "number" line) s
    | none => .undefined
  else if (s.cell limit).type_ ≠ .Number then
    match GetCurrentInstructionLine s with
    | some line => .throw (.expected (s.cell limit) (q ++ "for" ++ q ++ " limit") "number" line) s
    | none => .undefined
  else if (s.cell step).type_ ≠ .Number then
    match GetCurrentInstructionLine s with
    | some line => .throw (.expected (s.cell step) (q ++ "for" ++ q ++ " step") "number" line) s
    | none => .undefined
  else .ok () s

/-! ## The dispatcher -/

/-- The macro `GET_REGISTER_A`. -/
def GET_REGISTER_A (call : CallInfo) (i : Instruction) : Int := call.register_ + i.GetParamA

/-- The macro `GET_REGISTER_B`. -/
def GET_REGISTER_B (call : CallInfo) (i : Instruction) : Int := call.register_ + i.GetParamB

/-- The macro `GET_REGISTER_C`. -/
def GET_REGISTER_C (call : CallInfo) (i : Instruction) : Int := call.register_ + i.GetParamC

/-- The macro `GET_UPVALUE_B` on the closure `ExecuteFrame` cached. -/
def GET_UPVALUE_B (s : State) (cl : Option Nat) (i : Instruction) : Option Nat :=
  match cl with
  | some c => (s.gc_.closures_ c).GetUpvalue i.GetParamB
  | none => none

/-- Turn the outcome of a helper into the outcome of a case of the switch that
ends in `break`. -/
def Outcome.thenBreak : Outcome Unit → Outcome Bool
  | .ok _ s => .ok false s
  | .throw e s => .throw e s
  | .undefined => .undefined
  | .outOfFuel => .outOfFuel

/-- The cases `OpType_Add` .. `OpType_Mod`: check, then a raw store of the
number into `a`. -/
def arith (s : State) (call : CallInfo) (i : Instruction) (op : String) (f : ℚ → ℚ → ℚ) :
    Outcome Bool :=
  let a := GET_REGISTER_A call i
  let b := GET_REGISTER_B call i
  let c := GET_REGISTER_C call i
  match CheckArithType s b c op with
  | .ok _ s1 =>
    match s1.cell b, s1.cell c with
    | .number x, .number y => .ok false (s1.setCell a (.number (f x y)))
    | _, _ => .undefined
  | .throw e s1 => .throw e s1
  | .undefined => .undefined
  | .outOfFuel => .outOfFuel

/-- The cases `OpType_Less`, `OpType_Greater`, `OpType_LessEqual` and
`OpType_GreaterEqual`. -/
def compare (s : State) (call : CallInfo) (i : Instruction) (op : String)
    (onNum : ℚ → ℚ → Bool) (onStr : String → String → Bool) : Outcome Bool :=
  let a := GET_REGISTER_A call i
  let b := GET_REGISTER_B call i
  let c := GET_REGISTER_C call i
  match CheckInequalityType s b c op with
  | .ok _ s1 =>
    match s1.cell b, s1.cell c with
    | .number x, .number y => .ok false (s1.setCell a (.bool (onNum x y)))
    | .string x, .string y => .ok false (s1.setCell a (.bool (onStr x y)))
    | _, _ => .undefined
  | .throw e s1 => .throw e s1
  | .undefined => .undefined
  | .outOfFuel => .outOfFuel

/-- The jump `call->instruction_ += -1 + GetParamsBx(i)`. -/
def jump (s : State) (call : CallInfo) (i : Instruction) : State :=
  s.setInstruction (call.instruction_ + (-1 + i.GetParamsBx))

/-- One pass through the switch of `VM::ExecuteFrame`, entered after the
instruction `i` has been fetched and the cursor advanced.  `cl` and `proto` are
the closure and prototype cached when `ExecuteFrame` was entered.  The result
is `true` when `ExecuteFrame` returns instead of going round the loop. -/
def dispatch (host : Host) (cl : Option Nat) (proto : Function) (s : State) (i : Instruction) :
    Outcome Bool :=
  match s.calls_ with
  | [] => .undefined
  | call :: _ =>
    let a := GET_REGISTER_A call i
    let b := GET_REGISTER_B call i
    let c := GET_REGISTER_C call i
    match i.GetOpCode with
    | .LoadNil => .ok false (s.write (GET_REAL_VALUE s a) .nil)
    | .LoadBool =>
      .ok false (s.write (GET_REAL_VALUE s a) (.bool (if i.GetParamB ≠ 0 then true else false)))
    | .LoadInt =>
      if call.instruction_ < call.end_ then
        match proto.opcodeAt call.instruction_ with
        | some w =>
          .ok false ((s.setInstruction (call.instruction_ + 1)).setCell a (.number (w.opcode_ : ℚ)))
        | none => .undefined
      else .undefined
    | .LoadConst =>
      .ok false (s.write (GET_REAL_VALUE s a) (proto.GetConstValue i.GetParamBx))
    | .Move => .ok false (s.write (GET_REAL_VALUE s a) (s.read (GET_REAL_VALUE s b)))
    | .Call => Call host s a i
    | .GetUpvalue =>
      match GET_UPVALUE_B s cl i with
      | some u => .ok false (s.write (GET_REAL_VALUE s a) (s.upvalueCell u))
      | none => .undefined
    | .SetUpvalue =>
      match GET_UPVALUE_B s cl i with
      | some u => .ok false (s.setUpvalueCell u (s.cell a))
      | none => .undefined
    | .GetGlobal =>
      match s.global_ with
      | .table t =>
        .ok false (s.write (GET_REAL_VALUE s a)
          ((s.gc_.tables_ t).GetValue (proto.GetConstValue i.GetParamBx)))
      | _ => .undefined
    | .SetGlobal =>
      match s.global_ with
      | .table t =>
        .ok false (s.setTable t
          ((s.gc_.tables_ t).SetValue (proto.GetConstValue i.GetParamBx) (s.cell a)))
      | _ => .undefined
    | .Closure => (GenerateClosure s a i).thenBreak
    | .VarArg => (CopyVarArg s a i).thenBreak
    | .Ret =>
      match Return s a i with
      | .ok _ s1 => .ok true s1
      | .throw e s1 => .throw e s1
      | .undefined => .undefined
      | .outOfFuel => .outOfFuel
    | .JmpFalse =>
      if (s.read (GET_REAL_VALUE s a)).IsFalse then .ok false (jump s call i) else .ok false s
    | .JmpTrue =>
      if !(s.read (GET_REAL_VALUE s a)).IsFalse then .ok false (jump s call i) else .ok false s
    | .JmpNil =>
      if (s.cell a).type_ = .Nil then .ok false (jump s call i) else .ok false s
    | .Jmp => .ok false (jump s call i)
    | .Neg =>
      match CheckType s a .Number "neg" with
      | .ok _ s1 =>
        match s1.cell a with
        | .number x => .ok false (s1.setCell a (.number (-x)))
        | _ => .undefined
      | .throw e s1 => .throw e s1
      | .undefined => .undefined
      | .outOfFuel => .outOfFuel
    | .Not => .ok false (s.setCell a (.bool (if (s.cell a).IsFalse then true else false)))
    | .Len =>
      match s.cell a with
      | .table t => .ok false (s.setCell a (.number ((s.gc_.tables_ t).ArraySize : ℚ)))
      | .string str => .ok false (s.setCell a (.number (str.length : ℚ)))
      | _ => ReportTypeError s a "length of"
    | .Add => arith s call i "add" (fun x y => x + y)
    | .Sub => arith s call i "sub" (fun x y => x - y)
    | .Mul => arith s call i "multiply" (fun x y => x * y)
    | .Div => arith s call i "div" (fun x y => x / y)
    | .Pow => arith s call i "power" host.pow
    | .Mod => arith s call i "mod" host.fmod
    | .Concat => (Concat host s a b c).thenBreak
    | .Less =>
      compare s call i "compare(<)" (fun x y => decide (x < y)) (fun x y => decide (x < y))
    | .Greater =>
      compare s call i "compare(>)" (fun x y => decide (x > y)) (fun x y => decide (x > y))
    | .Equal => .ok false (s.setCell a (.bool (decide (s.cell b = s.cell c))))
    | .UnEqual => .ok false (s.setCell a (.bool (decide (s.cell b ≠ s.cell c))))
    | .LessEqual =>
      compare s call i "compare(<=)" (fun x y => decide (x ≤ y)) (fun x y => decide (x ≤ y))
    | .GreaterEqual =>
      compare s call i "compare(>=)" (fun x y => decide (x ≥ y)) (fun x y => decide (x ≥ y))
    | .NewTable =>
      let r := s.NewTable
      .ok false (r.2.setCell a (.table r.1))
    | .SetTable =>
      match CheckTableType s a b "set" "to" with
      | .ok _ s1 =>
        match s1.cell a with
        | .table t =>
          .ok false (s1.setTable t ((s1.gc_.tables_ t).SetValue (s1.cell b) (s1.cell c)))
        | _ => .undefined
      | .throw e s1 => .throw e s1
      | .undefined => .undefined
      | .outOfFuel => .outOfFuel
    | .GetTable =>
      match CheckTableType s a b "get" "from" with
      | .ok _ s1 =>
        match s1.cell a with
        | .table t => .ok false (s1.setCell c ((s1.gc_.tables_ t).GetValue (s1.cell b)))
        | _ => .undefined
      | .throw e s1 => .throw e s1
      | .undefined => .undefined
      | .outOfFuel => .outOfFuel
    | .ForInit => (ForInit s a b c).thenBreak
    | .ForStep =>
      match proto.opcodeAt call.instruction_ with
      | some w =>
        let s1 := s.setInstruction (call.instruction_ + 1)
        match s.cell a, s.cell b, s.cell c with
        | .number x, .number y, .number z =>
          if (z > 0 ∧ x > y) ∨ (z ≤ 0 ∧ x < y) then
            .ok false (s1.setInstruction (call.instruction_ + 1 + (-1 + w.GetParamsBx)))
          else .ok false s1
        | _, _, _ => .undefined
      | none => .undefined
    | .Other => .ok false s

/-- The loop of `VM::ExecuteFrame` with the cached `cl` and `proto`, followed
by the epilogue that runs when the cursor reaches `end_`.  Each round takes one
unit of fuel.  The frame `call` points to is read as the back of `calls_` in
every round: no case of the switch that goes round the loop leaves another
frame at the back, as long as a host callable leaves the call stack as it found
it. -/
def ExecuteFrame.loop (host : Host) (cl : Option Nat) (proto : Option Function) :
    Nat → State → Outcome Unit
  | 0, _ => .outOfFuel
  | fuel + 1, s =>
    match s.calls_ with
    | [] => .undefined
    | call :: rest =>
      if call.instruction_ < call.end_ then
        match proto with
        | none => .undefined
        | some p =>
          match p.opcodeAt call.instruction_ with
          | none => .undefined
          | some i =>
            match dispatch host cl p (s.setInstruction (call.instruction_ + 1)) i with
            | .ok true s1 => .ok () s1
            | .ok false s1 => ExecuteFrame.loop host cl proto fuel s1
            | .throw e s1 => .throw e s1
            | .undefined => .undefined
            | .outOfFuel => .outOfFuel
      else
        let new_top := match call.func_ with
          | some f => f
          | none => call.register_
        let st := s.stack_.SetNewTop new_top
        let st := if call.expect_result ≠ EXP_VALUE_COUNT_ANY then
            st.SetNewTop (new_top + call.expect_result) else st
        .ok () { s with stack_ := st, calls_ := rest }

/-- `VM::ExecuteFrame`: cache the closure and the prototype of the back frame,
then run the loop. -/
def ExecuteFrame (host : Host) (fuel : Nat) (s : State) : Outcome Unit :=
  match s.calls_ with
  | [] => .undefined
  | call :: _ =>
    match call.func_ with
    | none => ExecuteFrame.loop host none none fuel s
    | some f =>
      match s.cell f with
      | .closure cl =>
        ExecuteFrame.loop host (some cl)
          (((s.gc_.closures_ cl).prototype_).map s.gc_.functions_) fuel s
      | _ => .undefined

/-- The loop `while (!state_->calls_.empty()) ExecuteFrame()`; every frame run
gets the whole fuel and takes one unit from the loop. -/
def Execute.loop (host : Host) : Nat → State → Outcome Unit
  | 0, _ => .outOfFuel
  | fuel + 1, s =>
    match s.calls_ with
    | [] => .ok () s
    | _ :: _ =>
      match ExecuteFrame host (fuel + 1) s with
      | .ok _ s1 => Execute.loop host fuel s1
      | .throw e s1 => .throw e s1
      | .undefined => .undefined
      | .outOfFuel => .outOfFuel

/-- `VM::Execute`. -/
def Execute (host : Host) (fuel : Nat) (s : State) : Outcome Unit :=
  match s.calls_ with
  | [] => .undefined
  | _ :: _ => Execute.loop host fuel s

/-! ## Named quantities and sample inputs -/

/-- The stack top `Return` works with: `a + sBx` unless `sBx` is the sentinel. -/
def Return.top (s : State) (a : Int) (i : Instruction) : Int :=
  if i.GetParamsBx ≠ EXP_VALUE_COUNT_ANY then a + i.GetParamsBx else s.stack_.top_

/-- A prototype with no opcode, no descriptor and no fixed argument. -/
def Sample.emptyProto : Function :=
  { opcodes_ := [], GetConstValue := fun _ => .nil, GetChildFunction := fun _ => 0,
    upvalues_ := [], FixedArgCount := 0, HasVararg := false,
    GetInstructionLine := fun pc => pc + 1, SearchLocalVar := fun _ _ => none }

/-- A store in which every closure pointer addresses a closure of prototype 0
without upvalues, and every prototype pointer the prototype given. -/
def Sample.gc (proto : Function) : GC :=
  { functions_ := fun _ => proto,
    closures_ := fun _ => { prototype_ := some 0, upvalues_ := [] },
    upvalues_ := fun _ => .nil,
    tables_ := fun _ => { array_ := [], hash_ := [] },
    closure_count_ := 1, upvalue_count_ := 0, table_count_ := 0 }

/-- The record of a host function that reported nothing. -/
def Sample.noError : CFunctionError :=
  { type_ := .CFuntionErrorType_NoError, expect_arg_count_ := 0, arg_index_ := 0,
    expect_type_ := .Nil }

/-- A host whose callables push nothing and return no result. -/
def Sample.host : Host :=
  { cfunc := fun _ s => (s, 0), pow := fun x _ => x, fmod := fun x _ => x, fmt_g := fun _ => "" }

/-- An instruction with the given opcode, `A` and `sBx`, the other views 0. -/
def Sample.insAsBx (op : OpType) (A : Nat) (sBx : Int) : Instruction :=
  { opcode_ := 0, GetOpCode := op, GetParamA := A, GetParamB := 0, GetParamC := 0,
    GetParamBx := 0, GetParamsBx := sBx }

/-- An instruction with the given opcode, `A`, `B` and `C`, the other views 0. -/
def Sample.insABC (op : OpType) (A B C : Nat) : Instruction :=
  { opcode_ := 0, GetOpCode := op, GetParamA := A, GetParamB := B, GetParamC := C,
    GetParamBx := 0, GetParamsBx := 0 }

/-- A frame with function slot 0 and registers from slot 1 that expects three
results. -/
def Sample.retFrame : CallInfo :=
  { register_ := 1, func_ := some 0, instruction_ := 1, end_ := 1, expect_result := 3 }

/-- The frame `Sample.retFrame` over a stack that holds a closure in slot 0 and
the numbers 10 and 20 in the registers 0 and 1. -/
def Sample.retState : State :=
  { gc_ := Sample.gc Sample.emptyProto, cfunc_error_ := Sample.noError,
    stack_ := { stack_ := fun p => if p = 0 then .closure 0 else if p = 1 then .number 10
                  else if p = 2 then .number 20 else .bool true,
                top_ := 4 },
    calls_ := [Sample.retFrame],
    global_ := .table 0 }

/-- The state `Call` hands to the callee: the top is `a + B` unless `B` is 0. -/
def Call.adjust (s : State) (a : Int) (i : Instruction) : State :=
  if (i.GetParamB : Int) - 1 ≠ EXP_VALUE_COUNT_ANY then
    { s with stack_ := { s.stack_ with top_ := a + 1 + ((i.GetParamB : Int) - 1) } }
  else s

/-- The prototype of `function f(...) return ... end`: varargs, no fixed
argument, the body `VarArg 0 ANY; Ret 0 ANY`. -/
def Sample.passProto : Function :=
  { Sample.emptyProto with
    opcodes_ := [Sample.insAsBx .VarArg 0 EXP_VALUE_COUNT_ANY,
                 Sample.insAsBx .Ret 0 EXP_VALUE_COUNT_ANY],
    HasVararg := true }

/-- The frame of a caller with function slot 0 and registers from slot 1. -/
def Sample.callerFrame : CallInfo :=
  { register_ := 1, func_ := some 0, instruction_ := 1, end_ := 5, expect_result := 0 }

/-- The caller frame over a stack with a closure of `Sample.passProto` in
register 0 (slot 1) and the arguments 10 and 20 in slots 2 and 3. -/
def Sample.passState : State :=
  { gc_ := Sample.gc Sample.passProto, cfunc_error_ := Sample.noError,
    stack_ := { stack_ := fun p => if p = 0 then .closure 0 else if p = 1 then .closure 0
                  else if p = 2 then .number 10 else if p = 3 then .number 20 else .nil,
                top_ := 9 },
    calls_ := [Sample.callerFrame],
    global_ := .table 0 }

/-- The frame `CallCFunction` pushes for the host function in slot `a`. -/
def CallCFunction.frame (a : Int) (expect_result : Int) : CallInfo :=
  { register_ := a + 1, func_ := some a, instruction_ := 0, end_ := 0,
    expect_result := expect_result }

/-- The state the host callable is entered with: host frame pushed, error
record cleared. -/
def CallCFunction.entry (s : State) (a : Int) (expect_result : Int) : State :=
  State.ClearCFunctionError { s with calls_ := CallCFunction.frame a expect_result :: s.calls_ }

/-- A host whose callables push the numbers 7 and 8 and return 2. -/
def Sample.pushHost : Host :=
  { Sample.host with
    cfunc := fun _ s =>
      ({ s with stack_ :=
          { stack_ := fun p => if p = s.stack_.top_ then .number 7
              else if p = s.stack_.top_ + 1 then .number 8 else s.stack_.stack_ p,
            top_ := s.stack_.top_ + 2 } }, 2) }

/-- The caller frame over a stack with a host function in register 0 (slot 1)
and one argument in slot 2; the top is after the argument. -/
def Sample.hostCallState : State :=
  { gc_ := Sample.gc Sample.emptyProto, cfunc_error_ := Sample.noError,
    stack_ := { stack_ := fun p => if p = 0 then .closure 0 else if p = 1 then .cfunction 0
                  else if p = 2 then .number 10 else .bool true,
                top_ := 3 },
    calls_ := [Sample.callerFrame],
    global_ := .table 0 }

/-- The caller frame over a stack with the numbers 1 and 2 in the registers 0
and 1 (slots 1 and 2). -/
def Sample.concatState : State :=
  { gc_ := Sample.gc Sample.emptyProto, cfunc_error_ := Sample.noError,
    stack_ := { stack_ := fun p => if p = 0 then .closure 0 else if p = 1 then .number 1
                  else if p = 2 then .number 2 else .nil,
                top_ := 4 },
    calls_ := [Sample.callerFrame],
    global_ := .table 0 }

/-- The stack top at the time of the call: `a + B` unless `B` is 0. -/
def Call.top (s : State) (a : Int) (i : Instruction) : Int :=
  if i.GetParamB = 0 then s.stack_.top_ else a + i.GetParamB

/-- A prototype with two fixed arguments, no varargs and three opcodes. -/
def Sample.fixedProto : Function :=
  { Sample.emptyProto with
    opcodes_ := [Sample.insABC .Add 0 0 1, Sample.insABC .Add 0 0 1,
                 Sample.insAsBx .Ret 0 1],
    FixedArgCount := 2 }

/-- The caller frame over a stack with a closure of `Sample.fixedProto` in
register 0 (slot 1) and three arguments in slots 2 to 4. -/
def Sample.fixedCallState : State :=
  { gc_ := Sample.gc Sample.fixedProto, cfunc_error_ := Sample.noError,
    stack_ := { stack_ := fun p => if p = 0 then .closure 0 else if p = 1 then .closure 0
                  else if p = 2 then .number 10 else if p = 3 then .number 20
                  else if p = 4 then .number 30 else .nil,
                top_ := 9 },
    calls_ := [Sample.callerFrame],
    global_ := .table 0 }

/-- A prototype with one fixed argument and varargs. -/
def Sample.varProto : Function :=
  { Sample.emptyProto with
    opcodes_ := [Sample.insAsBx .VarArg 1 EXP_VALUE_COUNT_ANY, Sample.insAsBx .Ret 0 1],
    FixedArgCount := 1, HasVararg := true }

/-- The state `Sample.fixedCallState` with `Sample.varProto` as the prototype
of the closure. -/
def Sample.varCallState : State :=
  { Sample.fixedCallState with gc_ := Sample.gc Sample.varProto }

/-- The number of varargs `CopyVarArg` computes for a frame with function slot
`f`: the arguments between the function slot and the registers, less the fixed
ones. -/
def CopyVarArg.vararg_count (call : CallInfo) (f : Int) (proto : Function) : Int :=
  call.register_ - (f + 1) - proto.FixedArgCount

/-- A prototype with two fixed arguments and varargs. -/
def Sample.var2Proto : Function :=
  { Sample.emptyProto with
    opcodes_ := [Sample.insAsBx .VarArg 2 EXP_VALUE_COUNT_ANY, Sample.insAsBx .Ret 2 1],
    FixedArgCount := 2, HasVararg := true }

/-- The caller frame over a stack with a closure of `Sample.var2Proto` in
register 0 (slot 1) and the single argument 10 in slot 2. -/
def Sample.underCallState : State :=
  { gc_ := Sample.gc Sample.var2Proto, cfunc_error_ := Sample.noError,
    stack_ := { stack_ := fun p => if p = 0 then .closure 0 else if p = 1 then .closure 0
                  else if p = 2 then .number 10 else .nil,
                top_ := 9 },
    calls_ := [Sample.callerFrame],
    global_ := .table 0 }

/-- The frame `Call 0 2 0` builds on `Sample.underCallState`. -/
def Sample.underFrame : CallInfo :=
  { register_ := 3, func_ := some 1, instruction_ := 0, end_ := 2, expect_result := -1 }

/-- The operation name the switch passes to `CheckArithType` for each of the
cases `OpType_Add` .. `OpType_Mod`. -/
def arithName : OpType → Option String
  | .Add => some "add"
  | .Sub => some "sub"
  | .Mul => some "multiply"
  | .Div => some "div"
  | .Pow => some "power"
  | .Mod => some "mod"
  | _ => none

/-- The caller frame over a stack with the number 1 in register 0 and the
string `a` in register 1 (slots 1 and 2): the operands of `1 + "a"`. -/
def Sample.addState : State :=
  { gc_ := Sample.gc Sample.emptyProto, cfunc_error_ := Sample.noError,
    stack_ := { stack_ := fun p => if p = 0 then .closure 0 else if p = 1 then .number 1
                  else if p = 2 then .string "a" else .nil,
                top_ := 4 },
    calls_ := [Sample.callerFrame],
    global_ := .table 0 }

/-- The child prototype a `Closure` instruction names when it runs in a frame
whose closure has the prototype pointer `p`. -/
def childProto (s : State) (p : Nat) (i : Instruction) : Function :=
  s.gc_.functions_ ((s.gc_.functions_ p).GetChildFunction i.GetParamBx)

/-- A prototype whose single descriptor captures the parent local in register
0; every child of it is the prototype itself in `Sample.gc`. -/
def Sample.captureProto : Function :=
  { Sample.emptyProto with
    upvalues_ := [{ name_ := "x", parent_local_ := true, register_index_ := 0 }] }

/-- The caller frame over a stack with the number 5 in register 0 (slot 1). -/
def Sample.captureState : State :=
  { gc_ := Sample.gc Sample.captureProto, cfunc_error_ := Sample.noError,
    stack_ := { stack_ := fun p => if p = 0 then .closure 0 else if p = 1 then .number 5
                  else .nil,
                top_ := 4 },
    calls_ := [Sample.callerFrame],
    global_ := .table 0 }

/-- The state `Closure 1` leaves when it runs on `Sample.captureState`. -/
def Sample.capturedState : State :=
  match dispatch Sample.host (some 0) Sample.captureProto Sample.captureState
      (Sample.insAsBx .Closure 1 0) with
  | .ok _ s => s
  | _ => Sample.captureState

/-- The frame `Call 0 4 2` builds on `Sample.varCallState`: function slot 1,
registers from slot 5. -/
def Sample.varFrame : CallInfo :=
  { register_ := 5, func_ := some 1, instruction_ := 1, end_ := 2, expect_result := 1 }

/-- The state `Sample.varCallState` with `Sample.varFrame` pushed: the
arguments 10, 20, 30 are in slots 2 to 4, so the varargs are 20 and 30. -/
def Sample.varFrameState : State :=
  { Sample.varCallState with calls_ := [Sample.varFrame, Sample.callerFrame] }

/-- A host whose callables report a wrong argument count and return 0. -/
def Sample.failHost : Host :=
  { Sample.host with
    cfunc := fun _ s =>
      ({ s with cfunc_error_ :=
          { s.cfunc_error_ with type_ := .CFuntionErrorType_ArgCount, expect_arg_count_ := 2 } },
       0) }

/-- Whether the backward scan of `GetOperandNameAndScope` stops at an
instruction when it looks for the register `reg`: a `GetGlobal`, `Move` or
`GetUpvalue` with `A = reg`, or a `GetTable` with `C = reg`. -/
def namesRegister (reg : Int) (ins : Instruction) : Bool :=
  match ins.GetOpCode with
  | .GetGlobal => decide (reg = (ins.GetParamA : Int))
  | .Move => decide (reg = (ins.GetParamA : Int))
  | .GetUpvalue => decide (reg = (ins.GetParamA : Int))
  | .GetTable => decide (reg = (ins.GetParamC : Int))
  | _ => false

/-- An instruction with the given opcode, `A` and `Bx`, the other views 0. -/
def Sample.insABx (op : OpType) (A Bx : Nat) : Instruction :=
  { opcode_ := 0, GetOpCode := op, GetParamA := A, GetParamB := 0, GetParamC := 0,
    GetParamBx := Bx, GetParamsBx := 0 }

/-- The body `GetGlobal 0 K0; LoadNil 0; Neg 0` with the constant `x`: register
0 is named by the global `x` and then overwritten with `Nil`. -/
def Sample.nameProto : Function :=
  { Sample.emptyProto with
    opcodes_ := [Sample.insABx .GetGlobal 0 0, Sample.insABx .LoadNil 0 0,
                 Sample.insABx .Neg 0 0],
    GetConstValue := fun _ => .string "x" }

/-- The caller frame with its cursor past the instruction at index 2. -/
def Sample.nameFrame : CallInfo := { Sample.callerFrame with instruction_ := 3 }

/-- A frame of a closure of `Sample.nameProto` whose cursor is past the `Neg`
at index 2; register 0 (slot 1) holds `Nil`. -/
def Sample.nameState : State :=
  { gc_ := Sample.gc Sample.nameProto, cfunc_error_ := Sample.noError,
    stack_ := { stack_ := fun p => if p = 0 then .closure 0 else .nil, top_ := 4 },
    calls_ := [Sample.nameFrame],
    global_ := .table 0 }

/-- The exit test of the case `OpType_ForStep` on the numbers of `a` (loop
variable), `b` (limit) and `c` (step). -/
def ForStep.exits (a b c : ℚ) : Bool :=
  decide ((c > 0 ∧ a > b) ∨ (c ≤ 0 ∧ a < b))

/-- A prototype whose four opcodes are a `ForStep 0 1 2`, its inline word with
the delta 7, and two more words. -/
def Sample.forProto : Function :=
  { Sample.emptyProto with
    opcodes_ := [Sample.insABC .ForStep 0 1 2, Sample.insAsBx .Jmp 0 7,
                 Sample.insAsBx .Jmp 0 0, Sample.insAsBx .Ret 0 0] }

/-- The caller frame, its cursor past the `ForStep` at index 0, over a stack
with the loop variable 3, the limit 3 and the step 0 in registers 0 to 2. -/
def Sample.forState : State :=
  { gc_ := Sample.gc Sample.forProto, cfunc_error_ := Sample.noError,
    stack_ := { stack_ := fun p => if p = 0 then .closure 0 else if p = 1 then .number 3
                  else if p = 2 then .number 3 else if p = 3 then .number 0 else .nil,
                top_ := 4 },
    calls_ := [Sample.callerFrame],
    global_ := .table 0 }

/-- A prototype with a `Call 0 4 2` at index 1. -/
def Sample.callProto : Function :=
  { Sample.emptyProto with
    opcodes_ := [Sample.insAsBx .LoadNil 5 0, Sample.insABC .Call 0 4 2,
                 Sample.insAsBx .Ret 0 0] }

/-- Modelled from the spec: the layout of the loop `for i = a, b, s`, which the
compiler (not among the sources) emits.  `ForStep` is the head of the loop: it
tests the loop variable, at entry and again after each advance by the step,
and leaves the loop when `ForStep.exits` holds; otherwise the body runs, the
loop variable is advanced by the step and control is back at `ForStep`.
`forLoop b s fuel i` lists the values of the loop variable in the successive
runs of the body when `ForStep` is reached with the value `i`; it is `none`
when the fuel does not suffice. -/
def forLoop (b s : ℚ) : Nat → ℚ → Option (List ℚ)
  | 0, _ => none
  | fuel + 1, i =>
    if ForStep.exits i b s then some []
    else (forLoop b s fuel (i + s)).map (List.cons i)

/-- The count of iterations the spec gives for `for i = a, b, s`. -/
def forCount (a b s : ℚ) : Int := max 0 (⌊(b - a) / s⌋ + 1)

/-- The values `a, a + s, ..., a + (n - 1) s`. -/
def forValues (a s : ℚ) (n : Nat) : List ℚ := (List.range n).map fun (k : Nat) => a + (k : ℚ) * s

/-- The state of `VM::GenerateClosure` when its loop over the descriptors
starts: the new closure allocated, stored raw in `a` and given the prototype
`a_proto`. -/
def GenerateClosure.start (s : State) (a : Int) (a_proto : Nat) : State :=
  (s.NewClosure.2.setCell a (.closure s.NewClosure.1)).SetPrototype s.NewClosure.1 a_proto

/-- The branch of the loop body of `VM::GenerateClosure` for a register that is
not an upvalue yet: a new upvalue gets the value of the register, the register
becomes a reference to it, and it is appended to the new closure. -/
def GenerateClosure.promote (s : State) (reg : Int) (new_closure : Nat) : State :=
  (((s.NewUpvalue.2.setUpvalueCell s.NewUpvalue.1 (s.cell reg)).setCell reg
    (.upvalue s.NewUpvalue.1)).AddUpvalue new_closure s.NewUpvalue.1)

/-- The value an instruction of the load and move family stores, as the table of
the opcode contracts lists it: `Nil`, `Bool(B != 0)`, `K(Bx)`, `real(b)`,
`U(B).get()` and `GlobalTable[K(Bx)]`; `none` for every other opcode, and when
the upvalue `B` or the table of globals is missing. -/
def loadResult (cl : Option Nat) (proto : Function) (s : State) (call : CallInfo)
    (i : Instruction) : Option Value :=
  match i.GetOpCode with
  | .LoadNil => some .nil
  | .LoadBool => some (.bool (decide (i.GetParamB ≠ 0)))
  | .LoadConst => some (proto.GetConstValue i.GetParamBx)
  | .Move => some (s.read (GET_REAL_VALUE s (GET_REGISTER_B call i)))
  | .GetUpvalue => (GET_UPVALUE_B s cl i).map s.upvalueCell
  | .GetGlobal =>
    match s.global_ with
    | .table t => some ((s.gc_.tables_ t).GetValue (proto.GetConstValue i.GetParamBx))
    | _ => none
  | _ => none

/-- The caller frame over a stack whose register 0 (slot 1) is promoted to the
upvalue 0, which holds the number 5 and is the upvalue 0 of the closure 1; the
registers 1 and 2 hold the numbers 1 and 2. -/
def Sample.promotedState : State :=
  { gc_ :=
      { functions_ := fun _ => Sample.emptyProto,
        closures_ := fun j => if j = 1 then { prototype_ := some 0, upvalues_ := [0] }
                              else { prototype_ := some 0, upvalues_ := [] },
        upvalues_ := fun j => if j = 0 then .number 5 else .nil,
        tables_ := fun _ => { array_ := [], hash_ := [] },
        closure_count_ := 2, upvalue_count_ := 1, table_count_ := 0 },
    cfunc_error_ := Sample.noError,
    stack_ := { stack_ := fun p => if p = 0 then .closure 0 else if p = 1 then .upvalue 0
                  else if p = 2 then .number 1 else if p = 3 then .number 2 else .nil,
                top_ := 4 },
    calls_ := [Sample.callerFrame],
    global_ := .table 0 }

/-- The caller frame over a stack with the empty string in register 0 and the
numbers 1, 2, 3 in the registers 1 to 3 (slots 1 to 4). -/
def Sample.digitsState : State :=
  { gc_ := Sample.gc Sample.emptyProto, cfunc_error_ := Sample.noError,
    stack_ := { stack_ := fun p => if p = 0 then .closure 0 else if p = 1 then .string ""
                  else if p = 2 then .number 1 else if p = 3 then .number 2
                  else if p = 4 then .number 3 else .nil,
                top_ := 5 },
    calls_ := [Sample.callerFrame],
    global_ := .table 0 }

/-- The caller frame over a stack with the three-byte string `a`, NUL, `b` in
register 0 and the number 1 in register 1 (slots 1 and 2). -/
def Sample.nulState : State :=
  { gc_ := Sample.gc Sample.emptyProto, cfunc_error_ := Sample.noError,
    stack_ := { stack_ := fun p => if p = 0 then .closure 0
                  else if p = 1 then .string (String.mk ['a', Char.ofNat 0, 'b'])
                  else if p = 2 then .number 1 else .nil,
                top_ := 4 },
    calls_ := [Sample.callerFrame],
    global_ := .table 0 }

/-- The body `GetTable 1 0 2; Neg 2`: the register 2 gets the member of the
table in register 1 under the key in register 0. -/
def Sample.nulKeyProto : Function :=
  { Sample.emptyProto with
    opcodes_ := [Sample.insABC .GetTable 1 0 2, Sample.insABx .Neg 2 0] }

/-- A frame of a closure of `Sample.nulKeyProto` whose cursor is past the `Neg`
at index 1; the key register 0 (slot 1) holds the three-byte string `x`, NUL,
`y`, and the register 2 (slot 3) holds `Nil`. -/
def Sample.nulKeyState : State :=
  { gc_ := Sample.gc Sample.nulKeyProto, cfunc_error_ := Sample.noError,
    stack_ := { stack_ := fun p => if p = 0 then .closure 0
                  else if p = 1 then .string (String.mk ['x', Char.ofNat 0, 'y'])
                  else .nil,
                top_ := 5 },
    calls_ := [{ Sample.callerFrame with instruction_ := 2 }],
    global_ := .table 0 }

/-- The statements of `VM::ExecuteFrame` after its loop, with `Stack::SetNewTop`,
which is not among the sources, as the parameter `setNewTop`. -/
def ExecuteFrame.epilogue (setNewTop : Stack → Int → Stack) (s : State) : Outcome Unit :=
  match s.calls_ with
  | [] => .undefined
  | call :: rest =>
    let new_top := match call.func_ with
      | some f => f
      | none => call.register_
    let st := setNewTop s.stack_ new_top
    let st := if call.expect_result ≠ EXP_VALUE_COUNT_ANY then
        setNewTop st (new_top + call.expect_result) else st
    .ok () { s with stack_ := st, calls_ := rest }

/-- The frame of `Sample.promotedState`, whose register 0 is promoted to the
upvalue 0, with `Sample.captureProto` as every prototype: a `Closure 0` there
captures its own destination register. -/
def Sample.selfPromotedState : State :=
  { Sample.promotedState with
    gc_ := { Sample.promotedState.gc_ with functions_ := fun _ => Sample.captureProto } }

/-! # Theorems -/

/-! ## Facts about the copy and fill loops -/

theorem setCell_cell (s : State) (p : Int) (v : Value) (j : Int) :
    (s.setCell p v).cell j = if j = p then v else s.cell j := rfl

/-- Cells outside the destination range are untouched by the copy loop. -/
theorem copyValues_outside (cells : Int → Value) (n : Nat) (dst src p : Int)
    (h : p < dst ∨ dst + n ≤ p) : copyValues cells n dst src p = cells p := by
  induction n generalizing cells dst src with
  | zero => rfl
  | succ n ih =>
    simp only [copyValues]
    rw [ih _ (dst + 1) (src + 1) (by push_cast at h; omega)]
    rw [if_neg (by push_cast at h; omega)]

/-- The copy loop moves the block when the destination starts at or below the
source, or at or above the end of the source. -/
theorem copyValues_inside (cells : Int → Value) (n : Nat) (dst src : Int)
    (h : dst ≤ src ∨ src + n ≤ dst) (j : Nat) (hj : j < n) :
    copyValues cells n dst src (dst + j) = cells (src + j) := by
  induction n generalizing cells dst src j with
  | zero => omega
  | succ n ih =>
    simp only [copyValues]
    cases j with
    | zero =>
      rw [copyValues_outside _ _ _ _ _ (by left; omega)]
      simp
    | succ j =>
      have e1 : dst + ((j + 1 : Nat) : Int) = (dst + 1) + (j : Int) := by push_cast; ring
      have e2 : src + ((j + 1 : Nat) : Int) = (src + 1) + (j : Int) := by push_cast; ring
      rw [e1, e2, ih _ (dst + 1) (src + 1) (by push_cast at h; omega) j (by omega)]
      rw [if_neg (by push_cast at h; omega)]

/-- Cells outside the filled range are untouched by the fill loop. -/
theorem fillNil_outside (cells : Int → Value) (n : Nat) (dst p : Int)
    (h : p < dst ∨ dst + n ≤ p) : fillNil cells n dst p = cells p := by
  induction n generalizing cells dst with
  | zero => rfl
  | succ n ih =>
    simp only [fillNil]
    rw [ih _ (dst + 1) (by push_cast at h; omega)]
    rw [if_neg (by push_cast at h; omega)]

/-- Every cell of the filled range is `Nil` after the fill loop. -/
theorem fillNil_inside (cells : Int → Value) (n : Nat) (dst p : Int)
    (h : dst ≤ p ∧ p < dst + n) : fillNil cells n dst p = .nil := by
  induction n generalizing cells dst with
  | zero => simp at h; omega
  | succ n ih =>
    simp only [fillNil]
    by_cases hp : p = dst
    · rw [fillNil_outside _ _ _ _ (by left; omega), if_pos hp]
    · exact ih _ _ (by push_cast at h; omega)

/-! ## Ret -/

/-- `Return` to a frame that expects a fixed number of results, as one state
update. -/
theorem Return_fixed_eq (s : State) (call : CallInfo) (rest : List CallInfo) (a : Int)
    (i : Instruction) (f : Int)
    (hcalls : s.calls_ = call :: rest) (hfunc : call.func_ = some f)
    (hexp : call.expect_result ≠ EXP_VALUE_COUNT_ANY) :
    Return s a i = .ok ()
      { s with
        stack_ :=
          { stack_ := fillNil
              (copyValues s.stack_.stack_
                (min call.expect_result (Return.top s a i - a)).toNat f a)
              (call.expect_result - (min call.expect_result (Return.top s a i - a)).toNat).toNat
              (f + (min call.expect_result (Return.top s a i - a)).toNat),
            top_ := f + (min call.expect_result (Return.top s a i - a)).toNat +
              (call.expect_result - (min call.expect_result (Return.top s a i - a)).toNat).toNat },
        calls_ := rest } := by
  by_cases h : i.GetParamsBx ≠ EXP_VALUE_COUNT_ANY
  · simp only [Return, if_pos h, hcalls, hfunc, if_neg hexp, Return.top, State.setCells,
      Stack.SetNewTop]
  · simp only [Return, if_neg h, hcalls, hfunc, if_neg hexp, Return.top, State.setCells,
      Stack.SetNewTop]

/-- `Return` to a frame that takes every result, as one state update. -/
theorem Return_any_eq (s : State) (call : CallInfo) (rest : List CallInfo) (a : Int)
    (i : Instruction) (f : Int)
    (hcalls : s.calls_ = call :: rest) (hfunc : call.func_ = some f)
    (hexp : call.expect_result = EXP_VALUE_COUNT_ANY) :
    Return s a i = .ok ()
      { s with
        stack_ :=
          { stack_ := copyValues s.stack_.stack_ (Return.top s a i - a).toNat f a,
            top_ := f + (Return.top s a i - a).toNat },
        calls_ := rest } := by
  by_cases h : i.GetParamsBx ≠ EXP_VALUE_COUNT_ANY
  · simp only [Return, if_pos h, hcalls, hfunc, hexp, if_true, Return.top, State.setCells,
      Stack.SetNewTop]
  · simp only [Return, if_neg h, hcalls, hfunc, hexp, if_true, Return.top, State.setCells,
      Stack.SetNewTop]

/-- C1: `Ret A sBx` in a frame that expects `n` results (a count, not the
sentinel) and whose function slot `f` lies below its registers: with
`k = top - a ≥ 0` results, the cells `f + j` for `j < min n k` get the values
that were at `a + j`, the cells `f + j` for `min n k ≤ j < n` are `Nil`, the
stack top is `f + n`, the frame is popped and `ExecuteFrame` returns. -/
theorem Ret_expect_fixed (host : Host) (cl : Option Nat) (proto : Function) (s : State)
    (call : CallInfo) (rest : List CallInfo) (i : Instruction) (f n : Int)
    (hop : i.GetOpCode = .Ret)
    (hcalls : s.calls_ = call :: rest) (hfunc : call.func_ = some f)
    (hreg : f < call.register_) (hexp : call.expect_result = n) (hn : 0 ≤ n)
    (hk : 0 ≤ Return.top s (GET_REGISTER_A call i) i - GET_REGISTER_A call i) :
    ∃ s1, dispatch host cl proto s i = .ok true s1 ∧
      (∀ j : Int, 0 ≤ j →
        j < min n (Return.top s (GET_REGISTER_A call i) i - GET_REGISTER_A call i) →
        s1.cell (f + j) = s.cell (GET_REGISTER_A call i + j)) ∧
      (∀ j : Int,
        min n (Return.top s (GET_REGISTER_A call i) i - GET_REGISTER_A call i) ≤ j → j < n →
        s1.cell (f + j) = .nil) ∧
      s1.stack_.top_ = f + n ∧ s1.calls_ = rest := by
  have hfa : f ≤ GET_REGISTER_A call i := by unfold GET_REGISTER_A; omega
  have hne : call.expect_result ≠ EXP_VALUE_COUNT_ANY := by
    rw [hexp]; unfold EXP_VALUE_COUNT_ANY; omega
  have hR := Return_fixed_eq s call rest (GET_REGISTER_A call i) i f hcalls hfunc hne
  rw [hexp] at hR
  set a := GET_REGISTER_A call i with ha
  set k := Return.top s a i - a with hkdef
  have hD : dispatch host cl proto s i = (match Return s a i with
      | .ok _ s1 => .ok true s1
      | .throw e s1 => .throw e s1
      | .undefined => .undefined
      | .outOfFuel => .outOfFuel) := by
    simp only [dispatch, hcalls, hop, ← ha]
  rw [hR] at hD
  refine ⟨_, hD, ?_, ?_, ?_, rfl⟩
  · intro j hj0 hj
    show fillNil _ _ _ (f + j) = _
    rw [fillNil_outside _ _ _ _ (by left; omega)]
    obtain ⟨jn, rfl⟩ := Int.eq_ofNat_of_zero_le hj0
    rw [copyValues_inside _ _ _ _ (Or.inl hfa) jn (by omega)]
    rfl
  · intro j hj1 hj2
    show fillNil _ _ _ (f + j) = _
    exact fillNil_inside _ _ _ _ (by omega)
  · show f + _ + _ = f + n
    omega

/-- C1 at a sample: two results at slots 1 and 2 returned to a frame with
function slot 0 that expects three; source and destination overlap. -/
theorem Ret_expect_fixed_witness :
    ∃ s1, dispatch Sample.host none Sample.emptyProto Sample.retState
        (Sample.insAsBx .Ret 0 2) = .ok true s1 ∧
      s1.cell 0 = .number 10 ∧ s1.cell 1 = .number 20 ∧ s1.cell 2 = .nil ∧
      s1.stack_.top_ = 3 ∧ s1.calls_ = [] := by
  obtain ⟨s1, h1, h2, h3, h4, h5⟩ := Ret_expect_fixed Sample.host none Sample.emptyProto
    Sample.retState Sample.retFrame [] (Sample.insAsBx .Ret 0 2) 0 3 rfl rfl rfl (by decide) rfl
    (by decide) (by decide)
  have e : min (3 : Int) (Return.top Sample.retState (GET_REGISTER_A Sample.retFrame
      (Sample.insAsBx .Ret 0 2)) (Sample.insAsBx .Ret 0 2) - GET_REGISTER_A Sample.retFrame
      (Sample.insAsBx .Ret 0 2)) = 2 := by decide
  rw [e] at h2 h3
  refine ⟨s1, h1, ?_, ?_, ?_, h4, h5⟩
  · have := h2 0 (by decide) (by decide)
    simpa using this
  · have := h2 1 (by decide) (by decide)
    simpa using this
  · have := h3 2 (by decide) (by decide)
    simpa using this

/-! ## Frames of closures -/

theorem GET_CALLINFO_AND_PROTO_eq (s : State) (call : CallInfo) (rest : List CallInfo)
    (f : Int) (c p : Nat) (hcalls : s.calls_ = call :: rest) (hfunc : call.func_ = some f)
    (hcl : s.cell f = .closure c) (hp : (s.gc_.closures_ c).prototype_ = some p) :
    GET_CALLINFO_AND_PROTO s = some (call, c, s.gc_.functions_ p) := by
  simp only [GET_CALLINFO_AND_PROTO, hcalls, hfunc, hcl, hp]

theorem Call.adjust_cell (s : State) (a : Int) (i : Instruction) (q : Int) :
    (Call.adjust s a i).cell q = s.cell q := by
  unfold Call.adjust; split <;> rfl

theorem Call.adjust_cells (s : State) (a : Int) (i : Instruction) :
    (Call.adjust s a i).stack_.stack_ = s.stack_.stack_ := by
  unfold Call.adjust; split <;> rfl

theorem Call.adjust_calls (s : State) (a : Int) (i : Instruction) :
    (Call.adjust s a i).calls_ = s.calls_ := by
  unfold Call.adjust; split <;> rfl

theorem Call.adjust_gc (s : State) (a : Int) (i : Instruction) :
    (Call.adjust s a i).gc_ = s.gc_ := by
  unfold Call.adjust; split <;> rfl

theorem Call.adjust_top (s : State) (a : Int) (i : Instruction) :
    (Call.adjust s a i).stack_.top_ =
      if i.GetParamB = 0 then s.stack_.top_ else a + i.GetParamB := by
  unfold Call.adjust EXP_VALUE_COUNT_ANY
  by_cases h : i.GetParamB = 0
  · simp [h]
  · have : ¬ ((i.GetParamB : Int) - 1 = -1) := by omega
    simp [h, this]

/-- `Call` on a closure: the top adjustment followed by `CallClosure`. -/
theorem Call_closure (host : Host) (s : State) (a : Int) (i : Instruction) (c : Nat)
    (hcl : s.cell a = .closure c) :
    Call host s a i =
      match CallClosure (Call.adjust s a i) a ((i.GetParamC : Int) - 1) with
      | .ok _ s2 => .ok true s2
      | .throw e s2 => .throw e s2
      | .undefined => .undefined
      | .outOfFuel => .outOfFuel := by
  have h : ((Call.adjust s a i).cell a).type_ = .Closure := by
    rw [Call.adjust_cell, hcl]; rfl
  unfold Call.adjust at h ⊢
  simp only [Call, h, if_true]

/-- `CallClosure` on a closure of a vararg prototype, as one state update. -/
theorem CallClosure_vararg (s : State) (a e : Int) (c p : Nat)
    (hcl : s.cell a = .closure c) (hp : (s.gc_.closures_ c).prototype_ = some p)
    (hva : (s.gc_.functions_ p).HasVararg = true) :
    CallClosure s a e = .ok ()
      { s with
        stack_ :=
          { stack_ := copyValues s.stack_.stack_
              (min (s.stack_.top_ - (a + 1)) (s.gc_.functions_ p).FixedArgCount).toNat
              s.stack_.top_ (a + 1),
            top_ := s.stack_.top_ + (s.gc_.functions_ p).FixedArgCount },
        calls_ := { register_ := s.stack_.top_, func_ := some a, instruction_ := 0,
                    end_ := (s.gc_.functions_ p).OpCodeSize, expect_result := e } :: s.calls_ } := by
  simp only [CallClosure, hcl, hp, hva, if_true, State.setCells, Stack.SetNewTop]

/-- `CallClosure` on a closure of a prototype without varargs, as one state
update. -/
theorem CallClosure_fixed (s : State) (a e : Int) (c p : Nat)
    (hcl : s.cell a = .closure c) (hp : (s.gc_.closures_ c).prototype_ = some p)
    (hva : (s.gc_.functions_ p).HasVararg = false) :
    CallClosure s a e = .ok ()
      { s with
        stack_ := { s.stack_ with top_ := a + 1 + (s.gc_.functions_ p).FixedArgCount },
        calls_ := { register_ := a + 1, func_ := some a, instruction_ := 0,
                    end_ := (s.gc_.functions_ p).OpCodeSize, expect_result := e } :: s.calls_ } := by
  simp [CallClosure, hcl, hp, hva, Stack.SetNewTop]

/-- `CopyVarArg` with the sentinel as count, as one state update. -/
theorem CopyVarArg_any (s : State) (call : CallInfo) (rest : List CallInfo) (f a : Int)
    (c p : Nat) (i : Instruction)
    (hcalls : s.calls_ = call :: rest) (hfunc : call.func_ = some f)
    (hcl : s.cell f = .closure c) (hp : (s.gc_.closures_ c).prototype_ = some p)
    (hany : i.GetParamsBx = EXP_VALUE_COUNT_ANY) :
    CopyVarArg s a i = .ok ()
      { s with
        stack_ :=
          { stack_ := copyValues s.stack_.stack_
              (call.register_ - (f + 1) - (s.gc_.functions_ p).FixedArgCount).toNat a
              (f + 1 + (s.gc_.functions_ p).FixedArgCount),
            top_ := a +
              (call.register_ - (f + 1) - (s.gc_.functions_ p).FixedArgCount).toNat } } := by
  simp only [CopyVarArg, GET_CALLINFO_AND_PROTO_eq s call rest f c p hcalls hfunc hcl hp, hfunc,
    hany, if_true, State.setCells, Stack.SetNewTop]

/-- One round of the loop of `ExecuteFrame` when the cursor is before `end_`. -/
theorem ExecuteFrame.loop_step (host : Host) (cl : Option Nat) (p : Function) (fuel : Nat)
    (s : State) (call : CallInfo) (rest : List CallInfo) (i : Instruction)
    (hcalls : s.calls_ = call :: rest) (hlt : call.instruction_ < call.end_)
    (hfetch : p.opcodeAt call.instruction_ = some i) :
    ExecuteFrame.loop host cl (some p) (fuel + 1) s =
      match dispatch host cl p (s.setInstruction (call.instruction_ + 1)) i with
      | .ok true s1 => .ok () s1
      | .ok false s1 => ExecuteFrame.loop host cl (some p) fuel s1
      | .throw e s1 => .throw e s1
      | .undefined => .undefined
      | .outOfFuel => .outOfFuel := by
  rw [ExecuteFrame.loop]
  simp only [hcalls, if_pos hlt, hfetch]

theorem setInstruction_eq (s : State) (call : CallInfo) (rest : List CallInfo) (pc : Int)
    (hcalls : s.calls_ = call :: rest) :
    s.setInstruction pc = { s with calls_ := { call with instruction_ := pc } :: rest } := by
  simp only [State.setInstruction, hcalls]

/-- Running the body `VarArg 0 ANY; Ret 0 ANY` in a frame that takes every
result: the values between the fixed arguments and the registers end up from
the function slot on, and the frame is popped. -/
theorem ExecuteFrame_vararg_body (host : Host) (u : State) (callee : CallInfo)
    (rest : List CallInfo) (f : Int) (c p fuel : Nat) (va ret : Instruction)
    (hcalls : u.calls_ = callee :: rest) (hfunc : callee.func_ = some f)
    (hpc : callee.instruction_ = 0) (hend : callee.end_ = 2)
    (hexp : callee.expect_result = EXP_VALUE_COUNT_ANY)
    (hcl : u.cell f = .closure c) (hp : (u.gc_.closures_ c).prototype_ = some p)
    (hbody : (u.gc_.functions_ p).opcodes_ = [va, ret])
    (hva1 : va.GetOpCode = .VarArg) (hva2 : va.GetParamA = 0)
    (hva3 : va.GetParamsBx = EXP_VALUE_COUNT_ANY)
    (hret1 : ret.GetOpCode = .Ret) (hret2 : ret.GetParamA = 0)
    (hret3 : ret.GetParamsBx = EXP_VALUE_COUNT_ANY) :
    ExecuteFrame host (fuel + 2) u = .ok ()
      { u with
        stack_ :=
          { stack_ := copyValues (copyValues u.stack_.stack_
                (callee.register_ - (f + 1) - (u.gc_.functions_ p).FixedArgCount).toNat
                callee.register_ (f + 1 + (u.gc_.functions_ p).FixedArgCount))
              (callee.register_ - (f + 1) - (u.gc_.functions_ p).FixedArgCount).toNat f
              callee.register_,
            top_ := f +
              (callee.register_ - (f + 1) - (u.gc_.functions_ p).FixedArgCount).toNat },
        calls_ := rest } := by
  set nv := (callee.register_ - (f + 1) - (u.gc_.functions_ p).FixedArgCount).toNat with hnv
  have h0 : (u.gc_.functions_ p).opcodeAt callee.instruction_ = some va := by
    simp [Function.opcodeAt, hbody, hpc]
  have h1 : (u.gc_.functions_ p).opcodeAt 1 = some ret := by
    simp [Function.opcodeAt, hbody]
  have hE : ExecuteFrame host (fuel + 2) u =
      ExecuteFrame.loop host (some c) (some (u.gc_.functions_ p)) (fuel + 2) u := by
    simp only [ExecuteFrame, hcalls, hfunc, hcl, hp, Option.map]
  -- the first instruction
  rw [hE, ExecuteFrame.loop_step host (some c) (u.gc_.functions_ p) (fuel + 1) u callee rest va
    hcalls (by rw [hpc, hend]; decide) h0, hpc, setInstruction_eq u callee rest _ hcalls]
  have hV := CopyVarArg_any { u with calls_ := { callee with instruction_ := 0 + 1 } :: rest }
    { callee with instruction_ := 0 + 1 } rest f
    (callee.register_ + (0 : Nat)) c p va rfl hfunc hcl hp hva3
  have hD1 : dispatch host (some c) (u.gc_.functions_ p)
      { u with calls_ := { callee with instruction_ := 0 + 1 } :: rest } va =
      (CopyVarArg { u with calls_ := { callee with instruction_ := 0 + 1 } :: rest }
        (callee.register_ + (0 : Nat)) va).thenBreak := by
    simp only [dispatch, hva1, GET_REGISTER_A, hva2]
  rw [hD1, hV]
  simp only [Outcome.thenBreak]
  -- the second instruction
  rw [ExecuteFrame.loop_step host (some c) (u.gc_.functions_ p) fuel _
    { callee with instruction_ := 0 + 1 } rest ret rfl (by simp [hend]) (by simpa using h1)]
  rw [setInstruction_eq _ { callee with instruction_ := 0 + 1 } rest _ rfl]
  have hD2 : ∀ w : State, w.calls_ = { callee with instruction_ := 0 + 1 + 1 } :: rest →
      dispatch host (some c) (u.gc_.functions_ p) w ret =
      (match Return w (callee.register_ + (0 : Nat)) ret with
        | .ok _ s1 => .ok true s1
        | .throw e s1 => .throw e s1
        | .undefined => .undefined
        | .outOfFuel => .outOfFuel) := by
    intro w hw
    simp only [dispatch, hw, hret1, GET_REGISTER_A, hret2]
  rw [hD2 _ rfl, Return_any_eq _ { callee with instruction_ := 0 + 1 + 1 } rest _ ret f rfl hfunc
    hexp]
  have htop : ∀ t : Int, (t + (nv : Int) - t).toNat = nv := by intro t; omega
  simp [Return.top, hret3, ← hnv, htop]

/-- C2: vararg pass-through.  A `Call` with `C = 0` on a closure whose
prototype has varargs, no fixed argument and the body `VarArg 0 ANY; Ret 0 ANY`,
with `n` arguments at `a + 1 .. a + n`, pushes one frame and makes
`ExecuteFrame` return; running the callee frame (two units of fuel suffice)
leaves the `n` arguments in order at `a .. a + n - 1`, the stack top at `a + n`
and the call stack as it was before the call. -/
theorem vararg_pass_through (host : Host) (cl0 : Option Nat) (proto0 : Function) (s : State)
    (caller : CallInfo) (rest : List CallInfo) (i va ret : Instruction) (n c p fuel : Nat)
    (hop : i.GetOpCode = .Call) (hC : i.GetParamC = 0)
    (hcalls : s.calls_ = caller :: rest)
    (hB : i.GetParamB = n + 1 ∨
      (i.GetParamB = 0 ∧ s.stack_.top_ = GET_REGISTER_A caller i + 1 + n))
    (hcl : s.cell (GET_REGISTER_A caller i) = .closure c)
    (hp : (s.gc_.closures_ c).prototype_ = some p)
    (hva : (s.gc_.functions_ p).HasVararg = true)
    (hfix : (s.gc_.functions_ p).FixedArgCount = 0)
    (hbody : (s.gc_.functions_ p).opcodes_ = [va, ret])
    (hva1 : va.GetOpCode = .VarArg) (hva2 : va.GetParamA = 0)
    (hva3 : va.GetParamsBx = EXP_VALUE_COUNT_ANY)
    (hret1 : ret.GetOpCode = .Ret) (hret2 : ret.GetParamA = 0)
    (hret3 : ret.GetParamsBx = EXP_VALUE_COUNT_ANY) :
    ∃ s1 s2, dispatch host cl0 proto0 s i = .ok true s1 ∧
      s1.calls_.length = s.calls_.length + 1 ∧
      ExecuteFrame host (fuel + 2) s1 = .ok () s2 ∧
      (∀ j : Nat, j < n → s2.cell (GET_REGISTER_A caller i + j) =
        s.cell (GET_REGISTER_A caller i + 1 + j)) ∧
      s2.stack_.top_ = GET_REGISTER_A caller i + n ∧ s2.calls_ = s.calls_ := by
  set a := GET_REGISTER_A caller i with ha
  set t := Call.adjust s a i with ht
  have htop : t.stack_.top_ = a + 1 + n := by
    rw [ht, Call.adjust_top]
    rcases hB with hB | ⟨hB, h⟩
    · rw [if_neg (by omega), hB]; push_cast; ring
    · rw [if_pos hB, h]
  have htcl : t.cell a = .closure c := by rw [ht, Call.adjust_cell]; exact hcl
  have htgc : t.gc_ = s.gc_ := Call.adjust_gc s a i
  have htcalls : t.calls_ = s.calls_ := Call.adjust_calls s a i
  have htcells : t.stack_.stack_ = s.stack_.stack_ := Call.adjust_cells s a i
  have hD : dispatch host cl0 proto0 s i = Call host s a i := by
    simp only [dispatch, hcalls, hop, ha]
  have hCC := CallClosure_vararg t a ((i.GetParamC : Int) - 1) c p htcl
    (by rw [htgc]; exact hp) (by rw [htgc]; exact hva)
  rw [Call_closure host s a i c hcl, ← ht, hCC] at hD
  have hcount : (min (t.stack_.top_ - (a + 1)) (t.gc_.functions_ p).FixedArgCount).toNat = 0 := by
    rw [htgc, hfix]
    have : min (t.stack_.top_ - (a + 1)) 0 ≤ 0 := min_le_right _ _
    omega
  rw [hcount] at hD
  simp only [copyValues] at hD
  have hE := ExecuteFrame_vararg_body host
    { t with
      stack_ := { stack_ := t.stack_.stack_,
                  top_ := t.stack_.top_ + (t.gc_.functions_ p).FixedArgCount },
      calls_ := { register_ := t.stack_.top_, func_ := some a, instruction_ := 0,
                  end_ := (t.gc_.functions_ p).OpCodeSize,
                  expect_result := (i.GetParamC : Int) - 1 } :: t.calls_ }
    { register_ := t.stack_.top_, func_ := some a, instruction_ := 0,
      end_ := (t.gc_.functions_ p).OpCodeSize, expect_result := (i.GetParamC : Int) - 1 }
    t.calls_ a c p fuel va ret rfl rfl rfl
    (by simp [Function.OpCodeSize, htgc, hbody])
    (by simp [hC, EXP_VALUE_COUNT_ANY])
    htcl (by rw [htgc]; exact hp) (by rw [htgc]; exact hbody) hva1 hva2 hva3 hret1 hret2 hret3
  have hnv : (t.stack_.top_ - (a + 1) - (t.gc_.functions_ p).FixedArgCount).toNat = n := by
    rw [htgc, hfix, htop]; omega
  simp only [hnv] at hE
  refine ⟨_, _, hD, by simp [htcalls], hE, ?_, rfl, htcalls⟩
  intro j hj
  show copyValues _ _ _ _ (a + j) = s.stack_.stack_ (a + 1 + j)
  rw [copyValues_inside _ _ _ _ (Or.inl (by rw [htop]; omega)) j hj, htop,
    copyValues_inside _ _ _ _ (Or.inr (by rw [htgc, hfix]; omega)) j hj, htgc, hfix, htcells]
  congr 1
  ring

/-- C2 at a sample: the arguments 10 and 20 passed through
`function f(...) return ... end` called with `B = 3`, `C = 0`. -/
theorem vararg_pass_through_witness :
    ∃ s1 s2, dispatch Sample.host none Sample.emptyProto Sample.passState
        (Sample.insABC .Call 0 3 0) = .ok true s1 ∧
      ExecuteFrame Sample.host 2 s1 = .ok () s2 ∧
      s2.cell 1 = .number 10 ∧ s2.cell 2 = .number 20 ∧ s2.stack_.top_ = 3 ∧
      s2.calls_ = [Sample.callerFrame] := by
  obtain ⟨s1, s2, h1, _, h3, h4, h5, h6⟩ := vararg_pass_through Sample.host none
    Sample.emptyProto Sample.passState Sample.callerFrame [] (Sample.insABC .Call 0 3 0)
    (Sample.insAsBx .VarArg 0 EXP_VALUE_COUNT_ANY) (Sample.insAsBx .Ret 0 EXP_VALUE_COUNT_ANY)
    2 0 0 0 rfl rfl rfl (Or.inl rfl) rfl rfl rfl rfl rfl rfl rfl rfl rfl rfl rfl
  refine ⟨s1, s2, h1, h3, ?_, ?_, h5, h6⟩
  · have := h4 0 (by decide)
    simpa [GET_REGISTER_A, Sample.callerFrame, Sample.insABC, Sample.passState, State.cell]
      using this
  · have := h4 1 (by decide)
    simpa [GET_REGISTER_A, Sample.callerFrame, Sample.insABC, Sample.passState, State.cell]
      using this

/-! ## Host calls -/

/-- `CallCFunction` when the host reports no error and leaves the host frame at
the back, as one state update for each kind of `expect_result`. -/
theorem CallCFunction_eq (host : Host) (s s2 : State) (a e r : Int) (cf : Nat)
    (top : CallInfo) (rest : List CallInfo)
    (hcf : s.cell a = .cfunction cf)
    (hhost : host.cfunc cf (CallCFunction.entry s a e) = (s2, r))
    (herr : s2.cfunc_error_.type_ = .CFuntionErrorType_NoError)
    (hcalls : s2.calls_ = top :: rest) :
    CallCFunction host s a e =
      if e = EXP_VALUE_COUNT_ANY then
        .ok () { s2 with
          stack_ := { stack_ := copyValues s2.stack_.stack_ r.toNat a (s2.stack_.top_ - r),
                      top_ := a + r.toNat },
          calls_ := rest }
      else
        .ok () { s2 with
          stack_ :=
            { stack_ := fillNil
                (copyValues s2.stack_.stack_ (min e r).toNat a (s2.stack_.top_ - r))
                (e - r).toNat (a + (min e r).toNat),
              top_ := a + (min e r).toNat + (e - r).toNat },
          calls_ := rest } := by
  have hh : host.cfunc cf (State.ClearCFunctionError
      { s with calls_ := { register_ := a + 1, func_ := some a, instruction_ := 0, end_ := 0,
                           expect_result := e } :: s.calls_ }) = (s2, r) := hhost
  simp only [CallCFunction, hcf, hh, CheckCFuntionError, herr, hcalls, State.setCells,
    Stack.SetNewTop]

/-- C3: marshalling of the results of a host call.  The host callable, entered
with the host frame pushed, returns `r ≥ 0` results at `[top - r, top)` at or
above the slot `a` of the function, reports no error and leaves the call stack
as it found it.  If `expect` is the sentinel, the cells `a .. a + r - 1` get the
results in order and the top is `a + r`; if `expect` is a count, the cells
`a + j` for `j < min expect r` get the first results, the cells `a + j` for
`min expect r ≤ j < expect` are `Nil` and the top is `a + expect`.  In both
cases the host frame is popped. -/
theorem CallCFunction_marshal (host : Host) (s s2 : State) (a e r : Int) (cf : Nat)
    (hcf : s.cell a = .cfunction cf)
    (hhost : host.cfunc cf (CallCFunction.entry s a e) = (s2, r))
    (herr : s2.cfunc_error_.type_ = .CFuntionErrorType_NoError)
    (hcalls : s2.calls_ = CallCFunction.frame a e :: s.calls_)
    (hr : 0 ≤ r) (hsrc : a ≤ s2.stack_.top_ - r)
    (he : e = EXP_VALUE_COUNT_ANY ∨ 0 ≤ e) :
    ∃ s3, CallCFunction host s a e = .ok () s3 ∧
      (e = EXP_VALUE_COUNT_ANY →
        (∀ j : Int, 0 ≤ j → j < r → s3.cell (a + j) = s2.cell (s2.stack_.top_ - r + j)) ∧
        s3.stack_.top_ = a + r) ∧
      (0 ≤ e →
        (∀ j : Int, 0 ≤ j → j < min e r →
          s3.cell (a + j) = s2.cell (s2.stack_.top_ - r + j)) ∧
        (∀ j : Int, min e r ≤ j → j < e → s3.cell (a + j) = .nil) ∧
        s3.stack_.top_ = a + e) ∧
      s3.calls_ = s.calls_ ∧ s3.calls_.length = s.calls_.length := by
  have hE := CallCFunction_eq host s s2 a e r cf _ _ hcf hhost herr hcalls
  by_cases hany : e = EXP_VALUE_COUNT_ANY
  · rw [if_pos hany] at hE
    refine ⟨_, hE, ?_, ?_, rfl, rfl⟩
    · intro _
      refine ⟨?_, ?_⟩
      · intro j hj0 hj
        obtain ⟨jn, rfl⟩ := Int.eq_ofNat_of_zero_le hj0
        show copyValues _ _ _ _ (a + jn) = _
        rw [copyValues_inside _ _ _ _ (Or.inl hsrc) jn (by omega)]
        rfl
      · show a + _ = a + r
        omega
    · intro h0
      rw [hany] at h0
      unfold EXP_VALUE_COUNT_ANY at h0
      omega
  · rw [if_neg hany] at hE
    have h0 : 0 ≤ e := by
      rcases he with he | he
      · exact absurd he hany
      · exact he
    refine ⟨_, hE, fun h => absurd h hany, ?_, rfl, rfl⟩
    intro _
    refine ⟨?_, ?_, ?_⟩
    · intro j hj0 hj
      obtain ⟨jn, rfl⟩ := Int.eq_ofNat_of_zero_le hj0
      show fillNil _ _ _ (a + jn) = _
      rw [fillNil_outside _ _ _ _ (by left; omega),
        copyValues_inside _ _ _ _ (Or.inl hsrc) jn (by omega)]
      rfl
    · intro j hj1 hj2
      show fillNil _ _ _ (a + j) = _
      exact fillNil_inside _ _ _ _ (by omega)
    · show a + _ + _ = a + e
      omega

/-- C3 at a sample: a host function that pushes 7 and 8, called with three
expected results, leaves 7, 8, `Nil` from its slot on. -/
theorem CallCFunction_marshal_witness :
    ∃ s3, CallCFunction Sample.pushHost Sample.hostCallState 1 3 = .ok () s3 ∧
      s3.cell 1 = .number 7 ∧ s3.cell 2 = .number 8 ∧ s3.cell 3 = .nil ∧
      s3.stack_.top_ = 4 ∧ s3.calls_ = [Sample.callerFrame] := by
  obtain ⟨s3, h1, _, h3, h4, _⟩ := CallCFunction_marshal Sample.pushHost Sample.hostCallState
    (Sample.pushHost.cfunc 0 (CallCFunction.entry Sample.hostCallState 1 3)).1 1 3 2 0
    rfl rfl rfl rfl (by decide) (by decide) (Or.inr (by decide))
  obtain ⟨h5, h6, h7⟩ := h3 (by decide)
  refine ⟨s3, h1, ?_, ?_, ?_, h7, h4⟩
  · have := h5 0 (by decide) (by decide)
    simpa [Sample.pushHost, CallCFunction.entry, State.ClearCFunctionError,
      Sample.hostCallState, State.cell] using this
  · have := h5 1 (by decide) (by decide)
    simpa [Sample.pushHost, CallCFunction.entry, State.ClearCFunctionError,
      Sample.hostCallState, State.cell] using this
  · have := h6 2 (by decide) (by decide)
    simpa using this

/-! ## Concat -/

/-- `Concat` on two numbers takes the last branch and throws. -/
theorem Concat_number_number (host : Host) (s : State) (dst op1 op2 : Int) (x y : ℚ)
    (line : Int) (h1 : s.cell op1 = .number x) (h2 : s.cell op2 = .number y)
    (hline : GetCurrentInstructionLine s = some line) :
    Concat host s dst op1 op2 = .throw (.operands (.number x) (.number y) "concat" line) s := by
  simp only [Concat, h1, h2, hline]

/-- C4, the code at the failing input: `Concat 2 0 1` with the numbers 1 and 2
in the registers 0 and 1 throws the `concat` error at the line of the
instruction and stores nothing. -/
theorem Concat_number_number_throws :
    dispatch Sample.host (some 0) Sample.emptyProto Sample.concatState
        (Sample.insABC .Concat 2 0 1) =
      .throw (.operands (.number 1) (.number 2) "concat" 1) Sample.concatState := by
  have h := Concat_number_number Sample.host Sample.concatState 3 1 2 1 2 1 rfl rfl rfl
  have hD : dispatch Sample.host (some 0) Sample.emptyProto Sample.concatState
      (Sample.insABC .Concat 2 0 1) = (Concat Sample.host Sample.concatState 3 1 2).thenBreak := by
    rfl
  rw [hD, h]
  rfl

/-! ## Frame build -/

/-- C8: `Call A B C` on a closure whose prototype has no varargs pushes exactly
the frame with function slot `a`, registers from `a + 1`, the cursor at the
first opcode, `end_` at the opcode count and `expect_result = C - 1` (the
sentinel when `C = 0`), and leaves the stack top at `a + 1 + fixed`, for every
`B` and every stack top. -/
theorem Call_closure_fixed_frame (host : Host) (cl : Option Nat) (proto : Function) (s : State)
    (call : CallInfo) (rest : List CallInfo) (i : Instruction) (c p : Nat)
    (hop : i.GetOpCode = .Call) (hcalls : s.calls_ = call :: rest)
    (hcl : s.cell (GET_REGISTER_A call i) = .closure c)
    (hp : (s.gc_.closures_ c).prototype_ = some p)
    (hva : (s.gc_.functions_ p).HasVararg = false) :
    ∃ s1, dispatch host cl proto s i = .ok true s1 ∧
      s1.calls_ =
        { register_ := GET_REGISTER_A call i + 1, func_ := some (GET_REGISTER_A call i),
          instruction_ := 0, end_ := (s.gc_.functions_ p).OpCodeSize,
          expect_result := (i.GetParamC : Int) - 1 } :: s.calls_ ∧
      (i.GetParamC = 0 → (i.GetParamC : Int) - 1 = EXP_VALUE_COUNT_ANY) ∧
      s1.stack_.top_ = GET_REGISTER_A call i + 1 + (s.gc_.functions_ p).FixedArgCount := by
  set a := GET_REGISTER_A call i with ha
  have hD : dispatch host cl proto s i = Call host s a i := by
    simp only [dispatch, hcalls, hop, ha]
  have hCC := CallClosure_fixed (Call.adjust s a i) a ((i.GetParamC : Int) - 1) c p
    (by rw [Call.adjust_cell]; exact hcl) (by rw [Call.adjust_gc]; exact hp)
    (by rw [Call.adjust_gc]; exact hva)
  rw [Call_closure host s a i c hcl, hCC] at hD
  refine ⟨_, hD, ?_, ?_, ?_⟩
  · simp only [Call.adjust_gc, Call.adjust_calls]
  · intro h; rw [h]; rfl
  · simp only [Call.adjust_gc]

/-- C8 at a sample: a closure with two fixed arguments called with three. -/
theorem Call_closure_fixed_frame_witness :
    ∃ s1, dispatch Sample.host none Sample.emptyProto Sample.fixedCallState
        (Sample.insABC .Call 0 4 2) = .ok true s1 ∧
      s1.calls_ = [{ register_ := 2, func_ := some 1, instruction_ := 0, end_ := 3,
                     expect_result := 1 }, Sample.callerFrame] ∧
      s1.stack_.top_ = 4 := by
  obtain ⟨s1, h1, h2, _, h4⟩ := Call_closure_fixed_frame Sample.host none Sample.emptyProto
    Sample.fixedCallState Sample.callerFrame [] (Sample.insABC .Call 0 4 2) 0 0 rfl rfl rfl rfl
    rfl
  exact ⟨s1, h1, h2, h4⟩

/-- C9: `Call A B C` on a closure whose prototype has varargs, with
`n = top - (a + 1)` arguments below the stack top at the time of the call:
the pushed frame has its registers from that top, the registers `j` for
`j < min n fixed` hold the arguments `a + 1 + j`, every cell of
`[a + 1, register_)` is unchanged, and the stack top is `register_ + fixed`. -/
theorem Call_closure_vararg_frame (host : Host) (cl : Option Nat) (proto : Function)
    (s : State) (call : CallInfo) (rest : List CallInfo) (i : Instruction) (c p : Nat)
    (hop : i.GetOpCode = .Call) (hcalls : s.calls_ = call :: rest)
    (hcl : s.cell (GET_REGISTER_A call i) = .closure c)
    (hp : (s.gc_.closures_ c).prototype_ = some p)
    (hva : (s.gc_.functions_ p).HasVararg = true) :
    ∃ s1 callee, dispatch host cl proto s i = .ok true s1 ∧
      s1.calls_ = callee :: s.calls_ ∧
      callee.register_ = Call.top s (GET_REGISTER_A call i) i ∧
      callee.func_ = some (GET_REGISTER_A call i) ∧
      (∀ j : Int, 0 ≤ j →
        j < min (Call.top s (GET_REGISTER_A call i) i - (GET_REGISTER_A call i + 1))
          (s.gc_.functions_ p).FixedArgCount →
        s1.cell (callee.register_ + j) = s.cell (GET_REGISTER_A call i + 1 + j)) ∧
      (∀ q : Int, GET_REGISTER_A call i + 1 ≤ q → q < callee.register_ →
        s1.cell q = s.cell q) ∧
      s1.stack_.top_ = callee.register_ + (s.gc_.functions_ p).FixedArgCount := by
  set a := GET_REGISTER_A call i with ha
  have hD : dispatch host cl proto s i = Call host s a i := by
    simp only [dispatch, hcalls, hop, ha]
  have hCC := CallClosure_vararg (Call.adjust s a i) a ((i.GetParamC : Int) - 1) c p
    (by rw [Call.adjust_cell]; exact hcl) (by rw [Call.adjust_gc]; exact hp)
    (by rw [Call.adjust_gc]; exact hva)
  have htop : (Call.adjust s a i).stack_.top_ = Call.top s a i := Call.adjust_top s a i
  rw [Call_closure host s a i c hcl, hCC] at hD
  simp only [Call.adjust_gc, Call.adjust_calls, Call.adjust_cells, htop] at hD
  refine ⟨_, _, hD, rfl, rfl, rfl, ?_, ?_, rfl⟩
  · intro j hj0 hj
    obtain ⟨jn, rfl⟩ := Int.eq_ofNat_of_zero_le hj0
    show copyValues _ _ _ _ (Call.top s a i + jn) = _
    rw [copyValues_inside _ _ _ _ (Or.inr (by omega)) jn (by omega)]
    rfl
  · intro q _ hq
    show copyValues _ _ _ _ q = _
    rw [copyValues_outside _ _ _ _ _ (Or.inl hq)]
    rfl

/-- C9 at a sample: a vararg closure with one fixed argument called with the
arguments 10, 20, 30 in slots 2 to 4. -/
theorem Call_closure_vararg_frame_witness :
    ∃ s1 callee, dispatch Sample.host none Sample.emptyProto Sample.varCallState
        (Sample.insABC .Call 0 4 2) = .ok true s1 ∧
      s1.calls_ = [callee, Sample.callerFrame] ∧ callee.register_ = 5 ∧
      s1.cell 5 = .number 10 ∧
      s1.cell 2 = .number 10 ∧ s1.cell 3 = .number 20 ∧ s1.cell 4 = .number 30 ∧
      s1.stack_.top_ = 6 := by
  obtain ⟨s1, callee, h1, h2, h3, _, h5, h6, h7⟩ := Call_closure_vararg_frame Sample.host none
    Sample.emptyProto Sample.varCallState Sample.callerFrame [] (Sample.insABC .Call 0 4 2) 0 0
    rfl rfl rfl rfl rfl
  have e3 : callee.register_ = 5 := by rw [h3]; decide
  rw [e3] at h5 h6 h7
  refine ⟨s1, callee, h1, h2, e3, ?_, ?_, ?_, ?_, ?_⟩
  · have := h5 0 (by decide) (by decide)
    simpa using this
  · exact h6 2 (by decide) (by decide)
  · exact h6 3 (by decide) (by decide)
  · exact h6 4 (by decide) (by decide)
  · rw [h7]; decide

/-! ## VarArg -/

/-- C10 as stated fails: a vararg closure with two fixed arguments is called
with one argument (`Call 0 2 0`), so its frame has `vararg_count = -1`; the
`VarArg 2 ANY` it then runs leaves the stack top at `a = 5`, not at
`a + vararg_count = 4`. -/
theorem VarArg_any_top_counterexample :
    ∃ s1 s2, dispatch Sample.host none Sample.emptyProto Sample.underCallState
        (Sample.insABC .Call 0 2 0) = .ok true s1 ∧
      s1.calls_ = [Sample.underFrame, Sample.callerFrame] ∧
      dispatch Sample.host (some 0) Sample.var2Proto s1
        (Sample.insAsBx .VarArg 2 EXP_VALUE_COUNT_ANY) = .ok false s2 ∧
      CopyVarArg.vararg_count Sample.underFrame 1 Sample.var2Proto = -1 ∧
      s2.stack_.top_ = 5 ∧
      s2.stack_.top_ ≠ GET_REGISTER_A Sample.underFrame
        (Sample.insAsBx .VarArg 2 EXP_VALUE_COUNT_ANY) +
        CopyVarArg.vararg_count Sample.underFrame 1 Sample.var2Proto := by
  refine ⟨_, _, rfl, rfl, rfl, by decide, rfl, by decide⟩

/-- C10 as amended: `VarArg A ANY` in a frame of a closure copies the
`vararg_count` values from `f + 1 + fixed` on to `a, a + 1, ...` in order and
sets the stack top to `a + max vararg_count 0`; with fewer arguments than fixed
parameters it copies nothing and the top is `a`. -/
theorem VarArg_any (host : Host) (cl : Option Nat) (proto : Function) (s : State)
    (call : CallInfo) (rest : List CallInfo) (i : Instruction) (f : Int) (c p : Nat)
    (hop : i.GetOpCode = .VarArg) (hany : i.GetParamsBx = EXP_VALUE_COUNT_ANY)
    (hcalls : s.calls_ = call :: rest) (hfunc : call.func_ = some f)
    (hcl : s.cell f = .closure c) (hp : (s.gc_.closures_ c).prototype_ = some p) :
    ∃ s1, dispatch host cl proto s i = .ok false s1 ∧
      (∀ j : Int, 0 ≤ j → j < CopyVarArg.vararg_count call f (s.gc_.functions_ p) →
        s1.cell (GET_REGISTER_A call i + j) =
          s.cell (f + 1 + (s.gc_.functions_ p).FixedArgCount + j)) ∧
      s1.stack_.top_ = GET_REGISTER_A call i +
        max (CopyVarArg.vararg_count call f (s.gc_.functions_ p)) 0 ∧
      (∀ q : Int, q < GET_REGISTER_A call i → s1.cell q = s.cell q) ∧
      s1.calls_ = s.calls_ := by
  set a := GET_REGISTER_A call i with ha
  have hD : dispatch host cl proto s i = (CopyVarArg s a i).thenBreak := by
    simp only [dispatch, hcalls, hop, ha]
  rw [CopyVarArg_any s call rest f a c p i hcalls hfunc hcl hp hany] at hD
  have hA : call.register_ ≤ a := by rw [ha]; unfold GET_REGISTER_A; omega
  refine ⟨_, hD, ?_, ?_, ?_, rfl⟩
  · intro j hj0 hj
    unfold CopyVarArg.vararg_count at hj
    obtain ⟨jn, rfl⟩ := Int.eq_ofNat_of_zero_le hj0
    show copyValues _ _ _ _ (a + jn) = _
    rw [copyValues_inside _ _ _ _ (Or.inr (by omega)) jn (by omega)]
    rfl
  · show a + _ = _
    unfold CopyVarArg.vararg_count
    omega
  · intro q hq
    show copyValues _ _ _ _ q = _
    rw [copyValues_outside _ _ _ _ _ (Or.inl hq)]
    rfl

/-- C10 as amended, at a sample: the frame of `Sample.varProto` (one fixed
argument) called with 10, 20, 30; `VarArg 1 ANY` copies 20 and 30. -/
theorem VarArg_any_witness :
    ∃ s1, dispatch Sample.host (some 0) Sample.varProto
        { Sample.varCallState with
          calls_ := [{ register_ := 5, func_ := some 1, instruction_ := 1, end_ := 2,
                       expect_result := 1 }, Sample.callerFrame] }
        (Sample.insAsBx .VarArg 1 EXP_VALUE_COUNT_ANY) = .ok false s1 ∧
      s1.cell 6 = .number 20 ∧ s1.cell 7 = .number 30 ∧ s1.stack_.top_ = 8 := by
  obtain ⟨s1, h1, h2, h3, _, _⟩ := VarArg_any Sample.host (some 0) Sample.varProto
    { Sample.varCallState with
      calls_ := [{ register_ := 5, func_ := some 1, instruction_ := 1, end_ := 2,
                   expect_result := 1 }, Sample.callerFrame] }
    { register_ := 5, func_ := some 1, instruction_ := 1, end_ := 2, expect_result := 1 }
    [Sample.callerFrame] (Sample.insAsBx .VarArg 1 EXP_VALUE_COUNT_ANY) 1 0 0 rfl rfl rfl rfl
    rfl rfl
  refine ⟨s1, h1, ?_, ?_, ?_⟩
  · have := h2 0 (by decide) (by decide)
    simpa using this
  · have := h2 1 (by decide) (by decide)
    simpa using this
  · rw [h3]; decide

/-! ## Arithmetic -/

theorem GetCurrentInstructionLine_eq (s : State) (call : CallInfo) (rest : List CallInfo)
    (f : Int) (c p : Nat) (hcalls : s.calls_ = call :: rest) (hfunc : call.func_ = some f)
    (hcl : s.cell f = .closure c) (hp : (s.gc_.closures_ c).prototype_ = some p) :
    GetCurrentInstructionLine s =
      some ((s.gc_.functions_ p).GetInstructionLine (call.instruction_ - 1)) := by
  simp only [GetCurrentInstructionLine,
    GET_CALLINFO_AND_PROTO_eq s call rest f c p hcalls hfunc hcl hp]

/-- The arithmetic cases throw, with the state as it is, when an operand is not
a number. -/
theorem arith_throw (s : State) (call : CallInfo) (i : Instruction) (op : String)
    (fn : ℚ → ℚ → ℚ) (line : Int) (hline : GetCurrentInstructionLine s = some line)
    (h : (s.cell (GET_REGISTER_B call i)).type_ ≠ .Number ∨
      (s.cell (GET_REGISTER_C call i)).type_ ≠ .Number) :
    arith s call i op fn = .throw (.operands (s.cell (GET_REGISTER_B call i))
      (s.cell (GET_REGISTER_C call i)) op line) s := by
  simp only [arith, CheckArithType, if_pos h, hline]

/-- The arithmetic cases store a number into `a` when both operands are
numbers. -/
theorem arith_ok (s : State) (call : CallInfo) (i : Instruction) (op : String)
    (fn : ℚ → ℚ → ℚ) (x y : ℚ) (hb : s.cell (GET_REGISTER_B call i) = .number x)
    (hc : s.cell (GET_REGISTER_C call i) = .number y) :
    arith s call i op fn = .ok false (s.setCell (GET_REGISTER_A call i) (.number (fn x y))) := by
  simp [arith, CheckArithType, hb, hc, Value.type_]

theorem type_number (v : Value) (h : v.type_ = .Number) : ∃ x, v = .number x := by
  cases v <;> simp [Value.type_] at h
  exact ⟨_, rfl⟩

/-- The cases `OpType_Add` .. `OpType_Mod` of the switch are `arith` with the
operation name of the case. -/
theorem dispatch_arith (host : Host) (cl : Option Nat) (proto : Function) (s : State)
    (call : CallInfo) (rest : List CallInfo) (i : Instruction) (name : String)
    (hcalls : s.calls_ = call :: rest) (hname : arithName i.GetOpCode = some name) :
    ∃ fn, dispatch host cl proto s i = arith s call i name fn := by
  cases hop : i.GetOpCode <;> rw [hop] at hname <;> simp [arithName] at hname <;> subst hname
  · exact ⟨fun x y => x + y, by simp only [dispatch, hcalls, hop]⟩
  · exact ⟨fun x y => x - y, by simp only [dispatch, hcalls, hop]⟩
  · exact ⟨fun x y => x * y, by simp only [dispatch, hcalls, hop]⟩
  · exact ⟨fun x y => x / y, by simp only [dispatch, hcalls, hop]⟩
  · exact ⟨host.pow, by simp only [dispatch, hcalls, hop]⟩
  · exact ⟨host.fmod, by simp only [dispatch, hcalls, hop]⟩

/-- C7: each of `Add`, `Sub`, `Mul`, `Div`, `Pow`, `Mod`, fetched at index `pc`
in a frame of a closure, raises if and only if the tag of `b` or of `c` is not
`Number`; the error carries the two operands, the operation name of the case
(`add` for `Add`) and the line of `pc`, and the state at the throw is the state
in which the case was entered (no register, stack top or frame changed); when
it does not raise, `a` holds a `Number` and the loop goes on. -/
theorem arith_operand_check (host : Host) (cl : Option Nat) (proto : Function) (s : State)
    (call : CallInfo) (rest : List CallInfo) (i : Instruction) (name : String)
    (f pc : Int) (c p : Nat)
    (hname : arithName i.GetOpCode = some name)
    (hcalls : s.calls_ = call :: rest) (hfunc : call.func_ = some f)
    (hpc : call.instruction_ = pc + 1)
    (hcl : s.cell f = .closure c) (hp : (s.gc_.closures_ c).prototype_ = some p) :
    ((∃ e s1, dispatch host cl proto s i = .throw e s1) ↔
      ((s.cell (GET_REGISTER_B call i)).type_ ≠ .Number ∨
        (s.cell (GET_REGISTER_C call i)).type_ ≠ .Number)) ∧
    (((s.cell (GET_REGISTER_B call i)).type_ ≠ .Number ∨
        (s.cell (GET_REGISTER_C call i)).type_ ≠ .Number) →
      dispatch host cl proto s i =
        .throw (.operands (s.cell (GET_REGISTER_B call i)) (s.cell (GET_REGISTER_C call i))
          name ((s.gc_.functions_ p).GetInstructionLine pc)) s) ∧
    (i.GetOpCode = .Add → name = "add") ∧
    (((s.cell (GET_REGISTER_B call i)).type_ = .Number ∧
        (s.cell (GET_REGISTER_C call i)).type_ = .Number) →
      ∃ s1, dispatch host cl proto s i = .ok false s1 ∧
        (s1.cell (GET_REGISTER_A call i)).type_ = .Number ∧ s1.calls_ = s.calls_ ∧
        s1.stack_.top_ = s.stack_.top_) := by
  obtain ⟨fn, hD⟩ := dispatch_arith host cl proto s call rest i name hcalls hname
  have hline := GetCurrentInstructionLine_eq s call rest f c p hcalls hfunc hcl hp
  have hpc1 : call.instruction_ - 1 = pc := by omega
  rw [hpc1] at hline
  have hthrow := arith_throw s call i name fn _ hline
  have hok : ((s.cell (GET_REGISTER_B call i)).type_ = .Number ∧
        (s.cell (GET_REGISTER_C call i)).type_ = .Number) →
      ∃ s1, dispatch host cl proto s i = .ok false s1 ∧
        (s1.cell (GET_REGISTER_A call i)).type_ = .Number ∧ s1.calls_ = s.calls_ ∧
        s1.stack_.top_ = s.stack_.top_ := by
    rintro ⟨hb, hc⟩
    obtain ⟨x, hx⟩ := type_number _ hb
    obtain ⟨y, hy⟩ := type_number _ hc
    have hD2 : dispatch host cl proto s i =
        .ok false (s.setCell (GET_REGISTER_A call i) (.number (fn x y))) := by
      rw [hD, arith_ok s call i name fn x y hx hy]
    refine ⟨_, hD2, ?_, rfl, rfl⟩
    simp [setCell_cell, Value.type_]
  refine ⟨⟨?_, fun h => ⟨_, _, by rw [hD, hthrow h]⟩⟩, fun h => by rw [hD, hthrow h], ?_, hok⟩
  · rintro ⟨e, s1, he⟩
    by_contra hn
    push_neg at hn
    obtain ⟨s2, h2, _⟩ := hok hn
    rw [h2] at he
    cases he
  · intro hop
    rw [hop] at hname
    simpa [arithName] using hname.symm

/-- C7 at a sample: `1 + "a"`, with the `Add` fetched at index 0, raises the
`add` error at the line of index 0 and leaves the state as it is. -/
theorem arith_operand_check_witness :
    dispatch Sample.host (some 0) Sample.emptyProto Sample.addState (Sample.insABC .Add 2 0 1) =
      .throw (.operands (.number 1) (.string "a") "add" 1) Sample.addState := by
  have h := (arith_operand_check Sample.host (some 0) Sample.emptyProto Sample.addState
    Sample.callerFrame [] (Sample.insABC .Add 2 0 1) "add" 0 0 0 0 rfl rfl rfl rfl rfl
    rfl).2.1 (Or.inr (by decide))
  exact h

/-! ## Call -/

/-- The backward scan has a result when it starts inside the opcodes and every
`GetUpvalue` names a descriptor of the prototype. -/
theorem GetOperandNameAndScope.search_defined (s : State) (call : CallInfo) (proto : Function)
    (reg pc : Int) (k : Nat) (hk : k ≤ proto.opcodes_.length)
    (hup : ∀ ins ∈ proto.opcodes_, ins.GetOpCode = .GetUpvalue →
      ins.GetParamB < proto.upvalues_.length) :
    ∃ ns, GetOperandNameAndScope.search s call proto reg pc k = some ns := by
  induction k with
  | zero => exact ⟨_, rfl⟩
  | succ k ih =>
    obtain ⟨ns, hns⟩ := ih (by omega)
    have hlt : k < proto.opcodes_.length := by omega
    have hget : proto.opcodes_.get? k = some (proto.opcodes_.get ⟨k, hlt⟩) :=
      List.get?_eq_get hlt
    have hmem : proto.opcodes_.get ⟨k, hlt⟩ ∈ proto.opcodes_ := List.get_mem _ _ _
    rw [GetOperandNameAndScope.search, hget]
    simp only
    cases hop : (proto.opcodes_.get ⟨k, hlt⟩).GetOpCode <;> simp only [hns] <;>
      try exact ⟨_, rfl⟩
    · split
      · split <;> exact ⟨_, rfl⟩
      · exact ⟨_, rfl⟩
    · split
      · have hB := hup _ hmem hop
        obtain ⟨d, hd⟩ : ∃ d, proto.GetUpvalue (proto.opcodes_.get ⟨k, hlt⟩).GetParamB = some d :=
          ⟨_, List.get?_eq_get hB⟩
        rw [hd]
        exact ⟨_, rfl⟩
      · exact ⟨_, rfl⟩
    · split
      · split <;> exact ⟨_, rfl⟩
      · exact ⟨_, rfl⟩
    · split
      · split <;> exact ⟨_, rfl⟩
      · exact ⟨_, rfl⟩

/-- `ReportTypeError` in a frame of a closure whose cursor is inside the opcodes
throws the operand error and changes nothing. -/
theorem ReportTypeError_throws {α : Type} (s : State) (call : CallInfo) (rest : List CallInfo)
    (f v : Int) (c p : Nat) (op : String)
    (hcalls : s.calls_ = call :: rest) (hfunc : call.func_ = some f)
    (hcl : s.cell f = .closure c) (hp : (s.gc_.closures_ c).prototype_ = some p)
    (hlen : call.instruction_ - 1 ≤ ((s.gc_.functions_ p).opcodes_.length : Int))
    (hup : ∀ ins ∈ (s.gc_.functions_ p).opcodes_, ins.GetOpCode = .GetUpvalue →
      ins.GetParamB < (s.gc_.functions_ p).upvalues_.length) :
    ∃ name scope, (ReportTypeError s v op : Outcome α) =
      .throw (.operand (s.cell v) name scope op
        ((s.gc_.functions_ p).GetInstructionLine (call.instruction_ - 1))) s := by
  obtain ⟨ns, hns⟩ := GetOperandNameAndScope.search_defined s call (s.gc_.functions_ p)
    (v - call.register_) (call.instruction_ - 1) (call.instruction_ - 1).toNat (by omega) hup
  refine ⟨ns.1, ns.2, ?_⟩
  simp only [ReportTypeError, GetOperandNameAndScope,
    GET_CALLINFO_AND_PROTO_eq s call rest f c p hcalls hfunc hcl hp, hns,
    GetCurrentInstructionLine_eq s call rest f c p hcalls hfunc hcl hp]

/-- `Call` on a C function: the top adjustment followed by `CallCFunction`. -/
theorem Call_cfunction (host : Host) (s : State) (a : Int) (i : Instruction) (cf : Nat)
    (hcf : s.cell a = .cfunction cf) :
    Call host s a i =
      match CallCFunction host (Call.adjust s a i) a ((i.GetParamC : Int) - 1) with
      | .ok _ s2 => .ok false s2
      | .throw e s2 => .throw e s2
      | .undefined => .undefined
      | .outOfFuel => .outOfFuel := by
  have h : ((Call.adjust s a i).cell a).type_ = .CFunction := by
    rw [Call.adjust_cell, hcf]; rfl
  unfold Call.adjust at h ⊢
  simp only [Call, h, if_true]
  rw [if_neg (by decide)]

/-- `Call` on anything else: the top adjustment followed by `ReportTypeError`. -/
theorem Call_other (host : Host) (s : State) (a : Int) (i : Instruction)
    (h1 : (s.cell a).type_ ≠ .Closure) (h2 : (s.cell a).type_ ≠ .CFunction) :
    Call host s a i = ReportTypeError (Call.adjust s a i) a "call" := by
  have k1 : ¬ ((Call.adjust s a i).cell a).type_ = .Closure := by
    rw [Call.adjust_cell]; exact h1
  have k2 : ¬ ((Call.adjust s a i).cell a).type_ = .CFunction := by
    rw [Call.adjust_cell]; exact h2
  unfold Call.adjust at k1 k2 ⊢
  simp only [Call, k1, k2, if_false]

/-- Whatever `CallCFunction` throws is the error built from the record of the
host function, never an operand error. -/
theorem CallCFunction_throw (host : Host) (s s1 : State) (a e : Int) (ex : RuntimeException)
    (h : CallCFunction host s a e = .throw ex s1) : ∃ buffer line, ex = .message buffer line := by
  unfold CallCFunction at h
  split at h
  · simp only at h
    split at h
    · split at h
      · cases h
      · split at h <;> cases h
    · rename_i e2 s2 hc
      cases h
      unfold CheckCFuntionError at hc
      simp only at hc
      split at hc
      · cases hc
      · split at hc
        · cases hc; exact ⟨_, _, rfl⟩
        · cases hc
      · split at hc
        · cases hc; exact ⟨_, _, rfl⟩
        · cases hc
    · cases h
    · cases h
  · cases h

/-- `CallClosure` never throws. -/
theorem CallClosure_no_throw (s s1 : State) (a e : Int) (ex : RuntimeException) :
    CallClosure s a e ≠ .throw ex s1 := by
  intro h
  unfold CallClosure at h
  split at h
  · split at h
    · cases h
    · simp only at h
      split at h <;> cases h
  · cases h

/-- C6: `Call A B C` in a frame of a closure whose cursor is inside its
opcodes.  It raises the operand type error with operation `call` if and only if
the tag of `a` is neither `Closure` nor `CFunction`.  On a closure (with its
prototype set) exactly one frame, with function slot `a` and the cursor at the
first opcode, is pushed and `ExecuteFrame` returns.  On a C function the host
callable is run on the state with the host frame pushed; when it reports no
error and leaves the call stack as it found it, the call stack is again the one
of the caller and the loop goes on with the next instruction. -/
theorem Call_dispatch (host : Host) (cl : Option Nat) (proto : Function) (s : State)
    (call : CallInfo) (rest : List CallInfo) (i : Instruction) (f : Int) (c0 p0 : Nat)
    (hop : i.GetOpCode = .Call) (hcalls : s.calls_ = call :: rest)
    (hfunc : call.func_ = some f) (hfcl : s.cell f = .closure c0)
    (hp0 : (s.gc_.closures_ c0).prototype_ = some p0)
    (hlen : call.instruction_ - 1 ≤ ((s.gc_.functions_ p0).opcodes_.length : Int))
    (hup : ∀ ins ∈ (s.gc_.functions_ p0).opcodes_, ins.GetOpCode = .GetUpvalue →
      ins.GetParamB < (s.gc_.functions_ p0).upvalues_.length) :
    ((∃ v name scope line s1, dispatch host cl proto s i =
        .throw (.operand v name scope "call" line) s1) ↔
      ((s.cell (GET_REGISTER_A call i)).type_ ≠ .Closure ∧
        (s.cell (GET_REGISTER_A call i)).type_ ≠ .CFunction)) ∧
    (∀ c p, s.cell (GET_REGISTER_A call i) = .closure c →
      (s.gc_.closures_ c).prototype_ = some p →
      ∃ s1 callee, dispatch host cl proto s i = .ok true s1 ∧
        s1.calls_ = callee :: s.calls_ ∧ callee.func_ = some (GET_REGISTER_A call i) ∧
        callee.instruction_ = 0) ∧
    (∀ cf s2 r, s.cell (GET_REGISTER_A call i) = .cfunction cf →
      host.cfunc cf (CallCFunction.entry (Call.adjust s (GET_REGISTER_A call i) i)
        (GET_REGISTER_A call i) ((i.GetParamC : Int) - 1)) = (s2, r) →
      s2.cfunc_error_.type_ = .CFuntionErrorType_NoError →
      s2.calls_ = CallCFunction.frame (GET_REGISTER_A call i) ((i.GetParamC : Int) - 1)
        :: s.calls_ →
      ∃ s1, dispatch host cl proto s i = .ok false s1 ∧ s1.calls_ = s.calls_ ∧
        s1.gc_ = s2.gc_ ∧ s1.global_ = s2.global_) := by
  set a := GET_REGISTER_A call i with ha
  have hD : dispatch host cl proto s i = Call host s a i := by
    simp only [dispatch, hcalls, hop, ha]
  refine ⟨⟨?_, ?_⟩, ?_, ?_⟩
  · rintro ⟨v, name, scope, line, s1, h⟩
    rw [hD] at h
    refine ⟨?_, ?_⟩
    · intro ht
      cases hv : s.cell a <;> rw [hv] at ht <;> simp [Value.type_] at ht
      rw [Call_closure host s a i _ hv] at h
      split at h
      · cases h
      · rename_i e2 s2 hc
        exact CallClosure_no_throw _ _ _ _ _ hc
      · cases h
      · cases h
    · intro ht
      cases hv : s.cell a <;> rw [hv] at ht <;> simp [Value.type_] at ht
      rw [Call_cfunction host s a i _ hv] at h
      split at h
      · cases h
      · rename_i e2 s2 hc
        obtain ⟨buffer, l, hb⟩ := CallCFunction_throw _ _ _ _ _ _ hc
        cases h
        cases hb
      · cases h
      · cases h
  · rintro ⟨h1, h2⟩
    obtain ⟨name, scope, hR⟩ := ReportTypeError_throws (α := Bool) (Call.adjust s a i) call rest
      f a c0 p0 "call" (by rw [Call.adjust_calls]; exact hcalls) hfunc
      (by rw [Call.adjust_cell]; exact hfcl) (by rw [Call.adjust_gc]; exact hp0)
      (by rw [Call.adjust_gc]; exact hlen) (by rw [Call.adjust_gc]; exact hup)
    exact ⟨_, name, scope, _, _, by rw [hD, Call_other host s a i h1 h2, hR]⟩
  · intro c p hc hp
    rw [Call_closure host s a i c hc] at hD
    cases hva : (s.gc_.functions_ p).HasVararg
    · rw [CallClosure_fixed (Call.adjust s a i) a _ c p
        (by rw [Call.adjust_cell]; exact hc) (by rw [Call.adjust_gc]; exact hp)
        (by rw [Call.adjust_gc]; exact hva)] at hD
      refine ⟨_, CallInfo.mk (a + 1) (some a) 0
        ((Call.adjust s a i).gc_.functions_ p).OpCodeSize ((i.GetParamC : Int) - 1),
        hD, ?_, rfl, rfl⟩
      exact congrArg _ (Call.adjust_calls s a i)
    · rw [CallClosure_vararg (Call.adjust s a i) a _ c p
        (by rw [Call.adjust_cell]; exact hc) (by rw [Call.adjust_gc]; exact hp)
        (by rw [Call.adjust_gc]; exact hva)] at hD
      refine ⟨_, CallInfo.mk (Call.adjust s a i).stack_.top_ (some a) 0
        ((Call.adjust s a i).gc_.functions_ p).OpCodeSize ((i.GetParamC : Int) - 1),
        hD, ?_, rfl, rfl⟩
      exact congrArg _ (Call.adjust_calls s a i)
  · intro cf s2 r hcf hhost herr hcalls2
    rw [Call_cfunction host s a i cf hcf,
      CallCFunction_eq host (Call.adjust s a i) s2 a _ r cf _ _
        (by rw [Call.adjust_cell]; exact hcf) hhost herr hcalls2] at hD
    by_cases hany : (i.GetParamC : Int) - 1 = EXP_VALUE_COUNT_ANY
    · rw [if_pos hany] at hD
      exact ⟨_, hD, rfl, rfl, rfl⟩
    · rw [if_neg hany] at hD
      exact ⟨_, hD, rfl, rfl, rfl⟩

/-- C6 at a sample: calling the number in register 0 raises the `call` error. -/
theorem Call_dispatch_witness :
    ∃ v name scope line s1, dispatch Sample.host (some 0) Sample.emptyProto Sample.addState
      (Sample.insABC .Call 0 1 1) = .throw (.operand v name scope "call" line) s1 :=
  (Call_dispatch Sample.host (some 0) Sample.emptyProto Sample.addState Sample.callerFrame []
    (Sample.insABC .Call 0 1 1) 0 0 0 rfl rfl rfl rfl rfl (by decide)
    (by intro ins h; cases h)).1.2 ⟨by decide, by decide⟩

/-! ## Closure -/

/-- What one round of the capture loop does to the state: it appends one upvalue
to the new closure; for a descriptor of a parent local the register ends up
promoted to that upvalue; promoted registers stay as they are. -/
theorem GenerateClosure.capture_spec (call : CallInfo) (c nc : Nat) (s : State)
    (d : UpvalueInfo)
    (hwf : d.parent_local_ = false →
      d.register_index_ < (s.gc_.closures_ c).upvalues_.length) :
    ∃ s1 u, GenerateClosure.capture call c nc s d = some s1 ∧
      (s1.gc_.closures_ nc).upvalues_ = (s.gc_.closures_ nc).upvalues_ ++ [u] ∧
      (s1.gc_.closures_ nc).prototype_ = (s.gc_.closures_ nc).prototype_ ∧
      (∀ c', c' ≠ nc → s1.gc_.closures_ c' = s.gc_.closures_ c') ∧
      s1.gc_.functions_ = s.gc_.functions_ ∧
      s1.gc_.closure_count_ = s.gc_.closure_count_ ∧
      s1.calls_ = s.calls_ ∧ s1.stack_.top_ = s.stack_.top_ ∧
      (d.parent_local_ = true → s1.cell (call.register_ + d.register_index_) = .upvalue u) ∧
      (∀ q u', s.cell q = .upvalue u' → s1.cell q = .upvalue u') ∧
      (∀ q, (d.parent_local_ = true → q ≠ call.register_ + d.register_index_) →
        s1.cell q = s.cell q) := by
  unfold GenerateClosure.capture
  cases hpl : d.parent_local_
  · -- inherited from the enclosing closure
    obtain ⟨u, hu⟩ : ∃ u, (s.gc_.closures_ c).GetUpvalue d.register_index_ = some u :=
      ⟨_, List.get?_eq_get (hwf hpl)⟩
    simp only [hu, Bool.false_eq_true, if_false]
    refine ⟨_, u, rfl, ?_, ?_, ?_, rfl, rfl, rfl, rfl, ?_, ?_, ?_⟩
    · simp [State.AddUpvalue]
    · simp [State.AddUpvalue]
    · intro c' hc'; simp [State.AddUpvalue, hc']
    · intro h; cases h
    · intro q u' h; exact h
    · intro q _; rfl
  · simp only [if_true]
    cases hv : s.cell (call.register_ + d.register_index_)
    case upvalue u =>
      simp only
      refine ⟨_, u, rfl, ?_, ?_, ?_, rfl, rfl, rfl, rfl, ?_, ?_, ?_⟩
      · simp [State.AddUpvalue]
      · simp [State.AddUpvalue]
      · intro c' hc'; simp [State.AddUpvalue, hc']
      · intro _; exact hv
      · intro q u' h; exact h
      · intro q _; rfl
    all_goals
      simp only
      refine ⟨_, s.gc_.upvalue_count_, rfl, ?_, ?_, ?_, rfl, rfl, rfl, rfl, ?_, ?_, ?_⟩
      · simp [State.AddUpvalue, State.setCell, State.setUpvalueCell, State.NewUpvalue]
      · simp [State.AddUpvalue, State.setCell, State.setUpvalueCell, State.NewUpvalue]
      · intro c' hc'
        simp [State.AddUpvalue, State.setCell, State.setUpvalueCell, State.NewUpvalue, hc']
      · intro _
        simp [State.AddUpvalue, State.setCell, State.setUpvalueCell, State.NewUpvalue,
          State.cell]
      · intro q u' h
        have hq : q ≠ call.register_ + d.register_index_ := by
          intro e; rw [e, hv] at h; cases h
        simpa [State.AddUpvalue, State.setCell, State.setUpvalueCell, State.NewUpvalue,
          State.cell, hq] using h
      · intro q hq
        simp [State.AddUpvalue, State.setCell, State.setUpvalueCell, State.NewUpvalue,
          State.cell, hq trivial]

/-- What the capture loop does over a list of descriptors: the new closure gets
one upvalue for each descriptor, in order; the upvalue for a descriptor of a
parent local is the one its register is promoted to at the end. -/
theorem GenerateClosure.prepare_spec (call : CallInfo) (c nc : Nat) (hc : c ≠ nc)
    (infos : List UpvalueInfo) (s : State)
    (hwf : ∀ d ∈ infos, d.parent_local_ = false →
      d.register_index_ < (s.gc_.closures_ c).upvalues_.length) :
    ∃ s1 added, GenerateClosure.prepare call c nc infos s = some s1 ∧
      (s1.gc_.closures_ nc).upvalues_ = (s.gc_.closures_ nc).upvalues_ ++ added ∧
      added.length = infos.length ∧
      (s1.gc_.closures_ nc).prototype_ = (s.gc_.closures_ nc).prototype_ ∧
      (∀ c', c' ≠ nc → s1.gc_.closures_ c' = s.gc_.closures_ c') ∧
      s1.gc_.functions_ = s.gc_.functions_ ∧
      s1.gc_.closure_count_ = s.gc_.closure_count_ ∧
      s1.calls_ = s.calls_ ∧ s1.stack_.top_ = s.stack_.top_ ∧
      (∀ k d, infos.get? k = some d → d.parent_local_ = true →
        ∃ u, added.get? k = some u ∧
          s1.cell (call.register_ + d.register_index_) = .upvalue u) ∧
      (∀ q u', s.cell q = .upvalue u' → s1.cell q = .upvalue u') ∧
      (∀ q, (∀ d ∈ infos, d.parent_local_ = true → q ≠ call.register_ + d.register_index_) →
        s1.cell q = s.cell q) := by
  induction infos generalizing s with
  | nil =>
    refine ⟨s, [], rfl, by simp, rfl, rfl, fun _ _ => rfl, rfl, rfl, rfl, rfl, ?_,
      fun _ _ h => h, fun _ _ => rfl⟩
    intro k d h
    simp at h
  | cons d ds ih =>
    obtain ⟨s1, u, h1, hup1, hpr1, hoth1, hfn1, hcc1, hcalls1, htop1, hreg1, hkeep1, hsame1⟩ :=
      GenerateClosure.capture_spec call c nc s d (hwf d (List.mem_cons_self _ _))
    have hwf1 : ∀ d' ∈ ds, d'.parent_local_ = false →
        d'.register_index_ < (s1.gc_.closures_ c).upvalues_.length := by
      intro d' hd' hpl
      rw [hoth1 c hc]
      exact hwf d' (List.mem_cons_of_mem _ hd') hpl
    obtain ⟨s2, added, h2, hup2, hlen2, hpr2, hoth2, hfn2, hcc2, hcalls2, htop2, hreg2, hkeep2,
      hsame2⟩ := ih s1 hwf1
    refine ⟨s2, u :: added, ?_, ?_, ?_, ?_, ?_, ?_, ?_, ?_, ?_, ?_, ?_, ?_⟩
    · simp only [GenerateClosure.prepare, h1, h2]
    · rw [hup2, hup1]; simp
    · simp [hlen2]
    · rw [hpr2, hpr1]
    · intro c' hc'; rw [hoth2 c' hc', hoth1 c' hc']
    · rw [hfn2, hfn1]
    · rw [hcc2, hcc1]
    · rw [hcalls2, hcalls1]
    · rw [htop2, htop1]
    · intro k d' hk hpl
      cases k with
      | zero =>
        simp at hk
        subst hk
        exact ⟨u, by simp, hkeep2 _ _ (hreg1 hpl)⟩
      | succ k =>
        simp at hk
        obtain ⟨u', hu', hcell⟩ := hreg2 k d' (by simpa using hk) hpl
        exact ⟨u', by simpa using hu', hcell⟩
    · intro q u' h
      exact hkeep2 _ _ (hkeep1 _ _ h)
    · intro q hq
      rw [hsame2 q (fun d' hd' => hq d' (List.mem_cons_of_mem _ hd')),
        hsame1 q (hq d (List.mem_cons_self _ _))]

/-- What `GenerateClosure` does in a frame of a closure `c` for a destination
other than the function slot: the new closure is the next closure pointer, it
has the child prototype and one upvalue for each descriptor; the upvalue for a
descriptor of a parent local is the one its register is promoted to; a register
other than the destination that was promoted stays promoted to the same
upvalue. -/
theorem GenerateClosure_spec (s : State) (call : CallInfo) (rest : List CallInfo) (f a : Int)
    (i : Instruction) (c p : Nat)
    (hcalls : s.calls_ = call :: rest) (hfunc : call.func_ = some f)
    (hcl : s.cell f = .closure c) (hp : (s.gc_.closures_ c).prototype_ = some p)
    (hfa : f ≠ a) (hc : c ≠ s.gc_.closure_count_)
    (hwf : ∀ d ∈ (s.gc_.functions_
        ((s.gc_.functions_ p).GetChildFunction i.GetParamBx)).upvalues_,
      d.parent_local_ = false → d.register_index_ < (s.gc_.closures_ c).upvalues_.length) :
    ∃ s2, GenerateClosure s a i = .ok () s2 ∧
      s2.calls_ = s.calls_ ∧ s2.stack_.top_ = s.stack_.top_ ∧
      s2.gc_.functions_ = s.gc_.functions_ ∧
      s2.gc_.closure_count_ = s.gc_.closure_count_ + 1 ∧
      (∀ c', c' ≠ s.gc_.closure_count_ → s2.gc_.closures_ c' = s.gc_.closures_ c') ∧
      (s2.gc_.closures_ s.gc_.closure_count_).prototype_ =
        some ((s.gc_.functions_ p).GetChildFunction i.GetParamBx) ∧
      (s2.gc_.closures_ s.gc_.closure_count_).upvalues_.length =
        (s.gc_.functions_ ((s.gc_.functions_ p).GetChildFunction i.GetParamBx)).upvalues_.length ∧
      (∀ k d,
        (s.gc_.functions_ ((s.gc_.functions_ p).GetChildFunction i.GetParamBx)).upvalues_.get? k
          = some d →
        d.parent_local_ = true →
        ∃ u, (s2.gc_.closures_ s.gc_.closure_count_).GetUpvalue k = some u ∧
          s2.cell (call.register_ + d.register_index_) = .upvalue u) ∧
      (∀ q u, q ≠ a → s.cell q = .upvalue u → s2.cell q = .upvalue u) ∧
      (∀ q, q ≠ a →
        (∀ d ∈ (s.gc_.functions_
            ((s.gc_.functions_ p).GetChildFunction i.GetParamBx)).upvalues_,
          d.parent_local_ = true → q ≠ call.register_ + d.register_index_) →
        s2.cell q = s.cell q) := by
  set nc := s.gc_.closure_count_ with hnc
  set cp := (s.gc_.functions_ p).GetChildFunction i.GetParamBx with hcp
  set s1 : State := (s.NewClosure.2.setCell a (.closure nc)).SetPrototype nc cp with hs1
  have h1cell : ∀ q, s1.cell q = if q = a then .closure nc else s.cell q := fun _ => rfl
  have h1cl : s1.gc_.closures_ nc = { prototype_ := some cp, upvalues_ := [] } := by
    simp [hs1, State.SetPrototype, State.setCell, State.NewClosure, hnc]
  have h1oth : ∀ c', c' ≠ nc → s1.gc_.closures_ c' = s.gc_.closures_ c' := by
    intro c' hc'
    simp [hs1, State.SetPrototype, State.setCell, State.NewClosure, hnc, hc']
  have h1f : s1.cell f = .closure c := by rw [h1cell, if_neg hfa, hcl]
  obtain ⟨s2, added, h2, hup2, hlen2, hpr2, hoth2, hfn2, hcc2, hcalls2, htop2, hreg2, hkeep2,
    hsame2⟩ := GenerateClosure.prepare_spec call c nc hc (s.gc_.functions_ cp).upvalues_ s1
      (by intro d hd hpl; rw [h1oth c hc]; exact hwf d hd hpl)
  have hG : GenerateClosure s a i = .ok () s2 := by
    simp only [GenerateClosure, GET_CALLINFO_AND_PROTO_eq s call rest f c p hcalls hfunc hcl hp,
      hfunc]
    rw [← hcp, State.NewClosure]
    simp only
    rw [← hnc]
    have : (({ s with gc_ := { s.gc_ with
        closures_ := fun j => if j = nc then ({ prototype_ := none, upvalues_ := [] } : Closure)
          else s.gc_.closures_ j,
        closure_count_ := nc + 1 } } : State).setCell a (.closure nc)).SetPrototype nc cp = s1 :=
      rfl
    rw [this, h1f]
    simp only [h2]
  rw [h1cl] at hup2 hpr2
  refine ⟨s2, hG, hcalls2, htop2, hfn2, hcc2, ?_, hpr2, ?_, ?_, ?_, ?_⟩
  · intro c' hc'; rw [hoth2 c' hc', h1oth c' hc']
  · rw [hup2]; simpa using hlen2
  · intro k d hk hpl
    obtain ⟨u, hu, hcell⟩ := hreg2 k d hk hpl
    exact ⟨u, by rw [Closure.GetUpvalue, hup2]; simpa using hu, hcell⟩
  · intro q u hq h
    exact hkeep2 q u (by rw [h1cell, if_neg hq]; exact h)
  · intro q hq hd
    rw [hsame2 q hd, h1cell, if_neg hq]

theorem read_write (s : State) (ptr : ValuePtr) (v : Value) : (s.write ptr v).read ptr = v := by
  cases ptr <;> simp [State.write, State.read, State.setCell, State.cell, State.setUpvalueCell,
    State.upvalueCell]

/-- A value stored by `SetUpvalue` through one closure is the value `GetUpvalue`
reads through any closure that holds the same upvalue object, in whatever frame
the two instructions run. -/
theorem upvalue_store_read (host : Host) (x : State) (callx : CallInfo)
    (restx : List CallInfo) (na nb ka kb u : Nat) (iset iget : Instruction)
    (px py : Function) (hcalls : x.calls_ = callx :: restx)
    (ha : (x.gc_.closures_ na).GetUpvalue ka = some u)
    (hb : (x.gc_.closures_ nb).GetUpvalue kb = some u)
    (hset : iset.GetOpCode = .SetUpvalue) (hsetB : iset.GetParamB = ka)
    (hget : iget.GetOpCode = .GetUpvalue) (hgetB : iget.GetParamB = kb) :
    ∃ x1 x2, dispatch host (some na) px x iset = .ok false x1 ∧
      dispatch host (some nb) py x1 iget = .ok false x2 ∧
      x2.read (GET_REAL_VALUE x1 (GET_REGISTER_A callx iget)) =
        x.cell (GET_REGISTER_A callx iset) := by
  have h1 : dispatch host (some na) px x iset =
      .ok false (x.setUpvalueCell u (x.cell (GET_REGISTER_A callx iset))) := by
    simp only [dispatch, hcalls, hset, GET_UPVALUE_B, hsetB, ha]
  have h2 : dispatch host (some nb) py
      (x.setUpvalueCell u (x.cell (GET_REGISTER_A callx iset))) iget =
      .ok false ((x.setUpvalueCell u (x.cell (GET_REGISTER_A callx iset))).write
        (GET_REAL_VALUE (x.setUpvalueCell u (x.cell (GET_REGISTER_A callx iset)))
          (GET_REGISTER_A callx iget))
        ((x.setUpvalueCell u (x.cell (GET_REGISTER_A callx iset))).upvalueCell u)) := by
    have hc : (x.setUpvalueCell u (x.cell (GET_REGISTER_A callx iset))).calls_ =
        callx :: restx := hcalls
    have hb2 : ((x.setUpvalueCell u (x.cell (GET_REGISTER_A callx iset))).gc_.closures_
        nb).GetUpvalue kb = some u := hb
    simp only [dispatch, hc, hget, GET_UPVALUE_B, hgetB, hb2]
  refine ⟨_, _, h1, h2, ?_⟩
  rw [read_write]
  simp [State.upvalueCell, State.setUpvalueCell]

/-- C5 as stated fails: `Closure 1` and then `Closure 0` run in one frame, both
children capturing the parent local in register 0.  The first promotes register
0 to the upvalue 0; the second stores the new closure in register 0 before the
capture, so the register is no longer promoted and a fresh upvalue 1 is made:
the two closures (pointers 1 and 2) hold different upvalue objects. -/
theorem Closure_sharing_counterexample :
    ∃ s1 s2, dispatch Sample.host (some 0) Sample.captureProto Sample.captureState
        (Sample.insAsBx .Closure 1 0) = .ok false s1 ∧
      dispatch Sample.host (some 0) Sample.captureProto s1
        (Sample.insAsBx .Closure 0 0) = .ok false s2 ∧
      (childProto Sample.captureState 0 (Sample.insAsBx .Closure 1 0)).upvalues_ =
        [{ name_ := "x", parent_local_ := true, register_index_ := 0 }] ∧
      (childProto s1 0 (Sample.insAsBx .Closure 0 0)).upvalues_ =
        [{ name_ := "x", parent_local_ := true, register_index_ := 0 }] ∧
      s1.cell 2 = .closure 1 ∧
      (s2.gc_.closures_ 1).GetUpvalue 0 = some 0 ∧
      (s2.gc_.closures_ 2).GetUpvalue 0 = some 1 ∧
      s2.upvalueCell 0 = .number 5 ∧ s2.upvalueCell 1 = .closure 2 ∧
      s2.cell 1 = .upvalue 1 :=
  ⟨_, _, rfl, rfl, rfl, rfl, rfl, rfl, rfl, rfl, rfl, rfl⟩

/-- C5 as amended.  A `Closure` instruction runs in a frame of a closure `c`
and its child has, at position `k1`, a descriptor of the parent local in
register `sl`: the new closure (the next closure pointer) holds at `k1` an
upvalue `u` and register `sl` is promoted to `u`.  Take any later state `w` of
the same frame in which register `sl` and the first closure are as the first
instruction left them, and a second `Closure` instruction whose destination is
not register `sl` and whose child has, at position `k2`, a descriptor of the
same parent local: the second new closure holds the same `u` at `k2`.
Whenever the two closures hold `u` at these positions, in whatever frame, a
`SetUpvalue` through either stores the value that a `GetUpvalue` through the
other then reads. -/
theorem Closure_upvalue_sharing (host : Host) (cl : Option Nat) (proto : Function)
    (s : State) (call : CallInfo) (rest : List CallInfo) (f : Int) (c p : Nat)
    (i1 : Instruction) (k1 sl : Nat) (d1 : UpvalueInfo)
    (hop1 : i1.GetOpCode = .Closure) (hcalls : s.calls_ = call :: rest)
    (hfunc : call.func_ = some f) (hfr : f < call.register_)
    (hcl : s.cell f = .closure c) (hp : (s.gc_.closures_ c).prototype_ = some p)
    (hc : c < s.gc_.closure_count_)
    (hwf1 : ∀ d ∈ (childProto s p i1).upvalues_, d.parent_local_ = false →
      d.register_index_ < (s.gc_.closures_ c).upvalues_.length)
    (hd1 : (childProto s p i1).upvalues_.get? k1 = some d1)
    (hd1l : d1.parent_local_ = true) (hd1s : d1.register_index_ = sl) :
    ∃ s1 u, dispatch host cl proto s i1 = .ok false s1 ∧
      (s1.gc_.closures_ s.gc_.closure_count_).GetUpvalue k1 = some u ∧
      s1.cell (call.register_ + sl) = .upvalue u ∧
      (∀ (w : State) (callw : CallInfo) (restw : List CallInfo) (i2 : Instruction)
          (cl2 : Option Nat) (proto2 : Function) (pw k2 : Nat) (d2 : UpvalueInfo),
        i2.GetOpCode = .Closure → w.calls_ = callw :: restw →
        callw.func_ = some f → callw.register_ = call.register_ →
        w.cell f = .closure c → (w.gc_.closures_ c).prototype_ = some pw →
        c < w.gc_.closure_count_ → s.gc_.closure_count_ < w.gc_.closure_count_ →
        w.gc_.closures_ s.gc_.closure_count_ = s1.gc_.closures_ s.gc_.closure_count_ →
        w.cell (call.register_ + sl) = s1.cell (call.register_ + sl) →
        (∀ d ∈ (childProto w pw i2).upvalues_, d.parent_local_ = false →
          d.register_index_ < (w.gc_.closures_ c).upvalues_.length) →
        (childProto w pw i2).upvalues_.get? k2 = some d2 →
        d2.parent_local_ = true → d2.register_index_ = sl →
        i2.GetParamA ≠ sl →
        ∃ s2, dispatch host cl2 proto2 w i2 = .ok false s2 ∧
          (s2.gc_.closures_ s.gc_.closure_count_).GetUpvalue k1 = some u ∧
          (s2.gc_.closures_ w.gc_.closure_count_).GetUpvalue k2 = some u ∧
          s2.cell (call.register_ + sl) = .upvalue u) ∧
      (∀ (x : State) (callx : CallInfo) (restx : List CallInfo) (n1 n2 k2 : Nat)
          (iset iget : Instruction) (px py : Function),
        x.calls_ = callx :: restx →
        (x.gc_.closures_ n1).GetUpvalue k1 = some u →
        (x.gc_.closures_ n2).GetUpvalue k2 = some u →
        iset.GetOpCode = .SetUpvalue → iget.GetOpCode = .GetUpvalue →
        (iset.GetParamB = k1 → iget.GetParamB = k2 →
          ∃ x1 x2, dispatch host (some n1) px x iset = .ok false x1 ∧
            dispatch host (some n2) py x1 iget = .ok false x2 ∧
            x2.read (GET_REAL_VALUE x1 (GET_REGISTER_A callx iget)) =
              x.cell (GET_REGISTER_A callx iset)) ∧
        (iset.GetParamB = k2 → iget.GetParamB = k1 →
          ∃ x1 x2, dispatch host (some n2) px x iset = .ok false x1 ∧
            dispatch host (some n1) py x1 iget = .ok false x2 ∧
            x2.read (GET_REAL_VALUE x1 (GET_REGISTER_A callx iget)) =
              x.cell (GET_REGISTER_A callx iset))) := by
  have hfa : f ≠ GET_REGISTER_A call i1 := by unfold GET_REGISTER_A; omega
  obtain ⟨s1, hG1, hcalls1, _, _, hcc1, hoth1, _, _, hcap1, hkeep1, _⟩ :=
    GenerateClosure_spec s call rest f (GET_REGISTER_A call i1) i1 c p hcalls hfunc hcl hp hfa
      (by omega) hwf1
  obtain ⟨u, hu1, hreg1⟩ := hcap1 k1 d1 hd1 hd1l
  rw [hd1s] at hreg1
  have hD1 : dispatch host cl proto s i1 = .ok false s1 := by
    have : dispatch host cl proto s i1 = (GenerateClosure s (GET_REGISTER_A call i1) i1).thenBreak := by
      simp only [dispatch, hcalls, hop1]
    rw [this, hG1]; rfl
  refine ⟨s1, u, hD1, hu1, hreg1, ?_, ?_⟩
  · intro w callw restw i2 cl2 proto2 pw k2 d2 hop2 hcallsw hfuncw hregw hclw hpw hcw hnc hobj
      hcellw hwf2 hd2 hd2l hd2s hA
    have hfa2 : f ≠ GET_REGISTER_A callw i2 := by unfold GET_REGISTER_A; omega
    obtain ⟨s2, hG2, _, _, _, _, hoth2, _, _, hcap2, hkeep2, _⟩ :=
      GenerateClosure_spec w callw restw f (GET_REGISTER_A callw i2) i2 c pw hcallsw hfuncw hclw
        hpw hfa2 (by omega) hwf2
    obtain ⟨u2, hu2, hreg2⟩ := hcap2 k2 d2 hd2 hd2l
    rw [hd2s, hregw] at hreg2
    have hne : call.register_ + (sl : Int) ≠ GET_REGISTER_A callw i2 := by
      unfold GET_REGISTER_A
      rw [hregw]
      intro h
      apply hA
      exact_mod_cast (add_left_cancel h).symm
    have hkept := hkeep2 (call.register_ + sl) u hne (by rw [hcellw]; exact hreg1)
    have hu : u2 = u := by
      rw [hreg2] at hkept
      cases hkept
      rfl
    subst hu
    have hD2 : dispatch host cl2 proto2 w i2 = .ok false s2 := by
      have : dispatch host cl2 proto2 w i2 =
          (GenerateClosure w (GET_REGISTER_A callw i2) i2).thenBreak := by
        simp only [dispatch, hcallsw, hop2]
      rw [this, hG2]; rfl
    refine ⟨s2, hD2, ?_, hu2, hreg2⟩
    rw [hoth2 _ (by omega), hobj]
    exact hu1
  · intro x callx restx n1 n2 k2 iset iget px py hcallsx h1 h2 hset hget
    exact ⟨fun hB1 hB2 => upvalue_store_read host x callx restx n1 n2 k1 k2 u iset iget px py
        hcallsx h1 h2 hset hB1 hget hB2,
      fun hB1 hB2 => upvalue_store_read host x callx restx n2 n1 k2 k1 u iset iget px py
        hcallsx h2 h1 hset hB1 hget hB2⟩

/-- C5 as amended, at a sample: `Closure 1` and then `Closure 2` run in one
frame, both children capturing the parent local in register 0; the two new
closures (pointers 1 and 2) hold the same upvalue object. -/
theorem Closure_upvalue_sharing_witness :
    ∃ s1 s2 u, dispatch Sample.host (some 0) Sample.captureProto Sample.captureState
        (Sample.insAsBx .Closure 1 0) = .ok false s1 ∧
      dispatch Sample.host (some 0) Sample.captureProto s1
        (Sample.insAsBx .Closure 2 0) = .ok false s2 ∧
      (s2.gc_.closures_ 1).GetUpvalue 0 = some u ∧
      (s2.gc_.closures_ 2).GetUpvalue 0 = some u := by
  have hwf : ∀ (t : State), t.gc_.functions_ = (Sample.gc Sample.captureProto).functions_ →
      ∀ d ∈ (childProto t 0 (Sample.insAsBx .Closure 1 0)).upvalues_,
        d.parent_local_ = false → d.register_index_ < (t.gc_.closures_ 0).upvalues_.length := by
    intro t ht d hd hpl
    have hd' : d = { name_ := "x", parent_local_ := true, register_index_ := 0 } := by
      simpa [childProto, ht, Sample.gc, Sample.captureProto] using hd
    subst hd'
    cases hpl
  obtain ⟨s1, u, h1, _, _, hW, _⟩ := Closure_upvalue_sharing Sample.host (some 0)
    Sample.captureProto Sample.captureState Sample.callerFrame [] 0 0 0
    (Sample.insAsBx .Closure 1 0) 0 0 { name_ := "x", parent_local_ := true, register_index_ := 0 }
    rfl rfl rfl (by decide) rfl rfl (by decide) (hwf _ rfl) rfl rfl rfl
  have h1c : dispatch Sample.host (some 0) Sample.captureProto Sample.captureState
      (Sample.insAsBx .Closure 1 0) = .ok false Sample.capturedState := rfl
  have e : s1 = Sample.capturedState := by
    rw [h1c] at h1
    injection h1 with _ hs
    exact hs.symm
  subst e
  obtain ⟨s2, h2, ha, hb, _⟩ := hW Sample.capturedState Sample.callerFrame [] (Sample.insAsBx .Closure 2 0) (some 0)
    Sample.captureProto 0 0 { name_ := "x", parent_local_ := true, register_index_ := 0 }
    rfl rfl rfl rfl rfl rfl (by decide) (by decide) rfl rfl (hwf _ rfl) rfl rfl rfl (by decide)
  exact ⟨_, s2, u, h1c, h2, ha, hb⟩

/-! ## VarArg with a count -/

/-- `CopyVarArg` with a count, as one state update. -/
theorem CopyVarArg_count (s : State) (call : CallInfo) (rest : List CallInfo) (f a : Int)
    (c p : Nat) (i : Instruction)
    (hcalls : s.calls_ = call :: rest) (hfunc : call.func_ = some f)
    (hcl : s.cell f = .closure c) (hp : (s.gc_.closures_ c).prototype_ = some p)
    (hcount : i.GetParamsBx ≠ EXP_VALUE_COUNT_ANY) :
    CopyVarArg s a i = .ok ()
      { s with
        stack_ :=
          { stack_ := fillNil
              (copyValues s.stack_.stack_
                (min (CopyVarArg.vararg_count call f (s.gc_.functions_ p)) i.GetParamsBx).toNat a
                (f + 1 + (s.gc_.functions_ p).FixedArgCount))
              (i.GetParamsBx -
                (min (CopyVarArg.vararg_count call f (s.gc_.functions_ p))
                  i.GetParamsBx).toNat).toNat
              (a + (min (CopyVarArg.vararg_count call f (s.gc_.functions_ p))
                i.GetParamsBx).toNat),
            top_ := s.stack_.top_ } } := by
  simp only [CopyVarArg, GET_CALLINFO_AND_PROTO_eq s call rest f c p hcalls hfunc hcl hp, hfunc,
    if_neg hcount, State.setCells, CopyVarArg.vararg_count]

/-- C11: `VarArg A m` with a count `m ≥ 0` in a frame of a closure makes the
cells `a + j` for `j < min (max vararg_count 0) m` equal to the varargs at
`f + 1 + fixed + j`, the cells `a + j` for the remaining `j < m` equal to
`Nil`, writes no cell at or beyond `a + m` (nor below `a`), and leaves the stack
top and the call stack as they are. -/
theorem VarArg_count (host : Host) (cl : Option Nat) (proto : Function) (s : State)
    (call : CallInfo) (rest : List CallInfo) (i : Instruction) (f m : Int) (c p : Nat)
    (hop : i.GetOpCode = .VarArg) (hm : i.GetParamsBx = m) (hm0 : 0 ≤ m)
    (hcalls : s.calls_ = call :: rest) (hfunc : call.func_ = some f)
    (hcl : s.cell f = .closure c) (hp : (s.gc_.closures_ c).prototype_ = some p) :
    ∃ s1, dispatch host cl proto s i = .ok false s1 ∧
      (∀ j : Int, 0 ≤ j →
        j < min (max (CopyVarArg.vararg_count call f (s.gc_.functions_ p)) 0) m →
        s1.cell (GET_REGISTER_A call i + j) =
          s.cell (f + 1 + (s.gc_.functions_ p).FixedArgCount + j)) ∧
      (∀ j : Int, min (max (CopyVarArg.vararg_count call f (s.gc_.functions_ p)) 0) m ≤ j →
        j < m → s1.cell (GET_REGISTER_A call i + j) = .nil) ∧
      (∀ q : Int, GET_REGISTER_A call i + m ≤ q → s1.cell q = s.cell q) ∧
      (∀ q : Int, q < GET_REGISTER_A call i → s1.cell q = s.cell q) ∧
      s1.stack_.top_ = s.stack_.top_ ∧ s1.calls_ = s.calls_ := by
  set a := GET_REGISTER_A call i with ha
  have hne : i.GetParamsBx ≠ EXP_VALUE_COUNT_ANY := by
    rw [hm]; unfold EXP_VALUE_COUNT_ANY; omega
  have hD : dispatch host cl proto s i = (CopyVarArg s a i).thenBreak := by
    simp only [dispatch, hcalls, hop, ha]
  rw [CopyVarArg_count s call rest f a c p i hcalls hfunc hcl hp hne, hm] at hD
  have hA : call.register_ ≤ a := by rw [ha]; unfold GET_REGISTER_A; omega
  set vc := CopyVarArg.vararg_count call f (s.gc_.functions_ p) with hvc
  have hvc' : vc = call.register_ - (f + 1) - (s.gc_.functions_ p).FixedArgCount := rfl
  refine ⟨_, hD, ?_, ?_, ?_, ?_, rfl, rfl⟩
  · intro j hj0 hj
    obtain ⟨jn, rfl⟩ := Int.eq_ofNat_of_zero_le hj0
    show fillNil _ _ _ (a + jn) = _
    rw [fillNil_outside _ _ _ _ (by left; omega),
      copyValues_inside _ _ _ _ (Or.inr (by omega)) jn (by omega)]
    rfl
  · intro j hj1 hj2
    show fillNil _ _ _ (a + j) = _
    exact fillNil_inside _ _ _ _ (by omega)
  · intro q hq
    show fillNil _ _ _ q = _
    rw [fillNil_outside _ _ _ _ (by right; omega),
      copyValues_outside _ _ _ _ _ (by right; omega)]
    rfl
  · intro q hq
    show fillNil _ _ _ q = _
    rw [fillNil_outside _ _ _ _ (by left; omega), copyValues_outside _ _ _ _ _ (Or.inl hq)]
    rfl

/-- C11 at a sample: the frame of `Sample.varProto` (one fixed argument) called
with 10, 20, 30; `VarArg 1 3` copies 20 and 30 and fills one `Nil`. -/
theorem VarArg_count_witness :
    ∃ s1, dispatch Sample.host (some 0) Sample.varProto Sample.varFrameState
        (Sample.insAsBx .VarArg 1 3) = .ok false s1 ∧
      s1.cell 6 = .number 20 ∧ s1.cell 7 = .number 30 ∧ s1.cell 8 = .nil ∧
      s1.stack_.top_ = 9 := by
  obtain ⟨s1, h1, h2, h3, _, _, h6, _⟩ := VarArg_count Sample.host (some 0) Sample.varProto
    Sample.varFrameState Sample.varFrame [Sample.callerFrame] (Sample.insAsBx .VarArg 1 3) 1 3
    0 0 rfl rfl (by decide) rfl rfl rfl rfl
  refine ⟨s1, h1, ?_, ?_, ?_, h6⟩
  · have := h2 0 (by decide) (by decide)
    simpa using this
  · have := h2 1 (by decide) (by decide)
    simpa using this
  · have := h3 2 (by decide) (by decide)
    simpa using this

/-! ## Errors of host functions -/

/-- `CheckCFuntionError` when the record holds an error: the host frame is
popped, then the line is taken from the frame that is now at the back. -/
theorem CheckCFuntionError_error (s2 : State) (hostf caller : CallInfo)
    (rest : List CallInfo) (f : Int) (c p : Nat)
    (herr : s2.cfunc_error_.type_ ≠ .CFuntionErrorType_NoError)
    (hcalls : s2.calls_ = hostf :: caller :: rest) (hfunc : caller.func_ = some f)
    (hcl : s2.cell f = .closure c) (hp : (s2.gc_.closures_ c).prototype_ = some p) :
    ∃ buffer, CheckCFuntionError s2 =
      .throw (.message buffer ((s2.gc_.functions_ p).GetInstructionLine (caller.instruction_ - 1)))
        { s2 with calls_ := caller :: rest } := by
  have hline : GetCurrentInstructionLine { s2 with calls_ := caller :: rest } =
      some ((s2.gc_.functions_ p).GetInstructionLine (caller.instruction_ - 1)) :=
    GetCurrentInstructionLine_eq { s2 with calls_ := caller :: rest } caller rest f c p
      rfl hfunc hcl hp
  cases ht : s2.cfunc_error_.type_
  · exact absurd ht herr
  · exact ⟨.expectArguments s2.cfunc_error_.expect_arg_count_,
      by simp only [CheckCFuntionError, ht, hcalls, List.tail_cons, hline]⟩
  · exact ⟨.argumentType (s2.cfunc_error_.arg_index_ + 1)
        (s2.cell (hostf.register_ + s2.cfunc_error_.arg_index_)).TypeName
        s2.cfunc_error_.expect_type_,
      by simp only [CheckCFuntionError, ht, hcalls, List.tail_cons, hline]⟩

/-- `CheckCFuntionError` when the record holds no error. -/
theorem CheckCFuntionError_noError (t : State)
    (h : t.cfunc_error_.type_ = .CFuntionErrorType_NoError) :
    CheckCFuntionError t = .ok () t := by
  simp only [CheckCFuntionError, h]

/-- C12: a `Call`, fetched at index `pc`, on a C function whose callable
returns with the error record set (`ArgCount` or `ArgType`) and the call stack
as it found it: the dispatcher throws the message error whose line is the line
of `pc` in the prototype of the caller, and in the state at the throw the host
frame is popped, so the back frame is the caller's.  When the record is
`NoError` the check throws nothing and leaves the state, the host frame
included, as it is. -/
theorem host_error_line (host : Host) (cl : Option Nat) (proto : Function) (s s2 : State)
    (call : CallInfo) (rest : List CallInfo) (i : Instruction) (f pc r : Int) (cf c p : Nat)
    (hop : i.GetOpCode = .Call) (hcalls : s.calls_ = call :: rest)
    (hcf : s.cell (GET_REGISTER_A call i) = .cfunction cf)
    (hhost : host.cfunc cf (CallCFunction.entry (Call.adjust s (GET_REGISTER_A call i) i)
      (GET_REGISTER_A call i) ((i.GetParamC : Int) - 1)) = (s2, r))
    (herr : s2.cfunc_error_.type_ = .CFuntionErrorType_ArgCount ∨
      s2.cfunc_error_.type_ = .CFuntionErrorType_ArgType)
    (hcalls2 : s2.calls_ =
      CallCFunction.frame (GET_REGISTER_A call i) ((i.GetParamC : Int) - 1) :: s.calls_)
    (hfunc : call.func_ = some f) (hpc : call.instruction_ = pc + 1)
    (hcl : s2.cell f = .closure c) (hp : (s2.gc_.closures_ c).prototype_ = some p) :
    (∃ buffer s3, dispatch host cl proto s i =
        .throw (.message buffer ((s2.gc_.functions_ p).GetInstructionLine pc)) s3 ∧
      s3.calls_ = call :: rest ∧ s3.calls_.length + 1 = s2.calls_.length) ∧
    (∀ t : State, t.cfunc_error_.type_ = .CFuntionErrorType_NoError →
      CheckCFuntionError t = .ok () t) := by
  refine ⟨?_, CheckCFuntionError_noError⟩
  set a := GET_REGISTER_A call i with ha
  have hD : dispatch host cl proto s i = Call host s a i := by
    simp only [dispatch, hcalls, hop, ha]
  have hne : s2.cfunc_error_.type_ ≠ .CFuntionErrorType_NoError := by
    rcases herr with h | h <;> rw [h] <;> decide
  obtain ⟨buffer, hC⟩ := CheckCFuntionError_error s2 _ call rest f c p hne
    (by rw [hcalls2, hcalls]) hfunc hcl hp
  have hpc1 : call.instruction_ - 1 = pc := by omega
  rw [hpc1] at hC
  have hcf2 : (Call.adjust s a i).cell a = .cfunction cf := by
    rw [Call.adjust_cell]; exact hcf
  have hh : host.cfunc cf (State.ClearCFunctionError
      { Call.adjust s a i with
        calls_ := { register_ := a + 1, func_ := some a, instruction_ := 0, end_ := 0,
                    expect_result := (i.GetParamC : Int) - 1 } :: (Call.adjust s a i).calls_ })
      = (s2, r) := hhost
  have hCC : CallCFunction host (Call.adjust s a i) a ((i.GetParamC : Int) - 1) =
      .throw (.message buffer ((s2.gc_.functions_ p).GetInstructionLine pc))
        { s2 with calls_ := call :: rest } := by
    simp only [CallCFunction, hcf2, hh, hC]
  rw [Call_cfunction host s a i cf hcf, hCC] at hD
  exact ⟨buffer, _, hD, rfl, by simp [hcalls2, hcalls]⟩

/-- C12 at a sample: a host function that reports a wrong argument count,
called by the instruction at index 0, raises at line 1, the line of index 0. -/
theorem host_error_line_witness :
    ∃ buffer s3, dispatch Sample.failHost (some 0) Sample.emptyProto Sample.hostCallState
        (Sample.insABC .Call 0 2 1) = .throw (.message buffer 1) s3 ∧
      s3.calls_ = [Sample.callerFrame] := by
  obtain ⟨⟨buffer, s3, h1, h2, _⟩, _⟩ := host_error_line Sample.failHost (some 0)
    Sample.emptyProto Sample.hostCallState
    (Sample.failHost.cfunc 0 (CallCFunction.entry
      (Call.adjust Sample.hostCallState 1 (Sample.insABC .Call 0 2 1)) 1 0)).1
    Sample.callerFrame [] (Sample.insABC .Call 0 2 1) 0 0 0 0 0 0 rfl rfl rfl rfl
    (Or.inl rfl) rfl rfl rfl rfl rfl
  exact ⟨buffer, s3, h1, h2⟩

/-! ## The backward scan for a name -/

/-- C13, the code at the failing input: in `GetGlobal 0 K0; LoadNil 0; Neg 0`
the last instruction that wrote register 0 before the `Neg` is `LoadNil`, yet
the scan passes over it and reports the name of the older `GetGlobal`; the
error of the `Neg` names the `Nil` operand as the global `x`. -/
theorem unnamed_operand_named :
    GetOperandNameAndScope Sample.nameState 1 = some ("x", "global") ∧
    dispatch Sample.host (some 0) Sample.nameProto Sample.nameState (Sample.insABx .Neg 0 0) =
      .throw (.operand .nil "x" "global" "neg" 3) Sample.nameState := by
  constructor <;> rfl

/-- The scan passes over an instruction that does not name the register. -/
theorem GetOperandNameAndScope.search_skip (s : State) (call : CallInfo) (proto : Function)
    (reg pc : Int) (k : Nat) (ins : Instruction) (hget : proto.opcodes_.get? k = some ins)
    (hn : namesRegister reg ins = false) :
    GetOperandNameAndScope.search s call proto reg pc (k + 1) =
      GetOperandNameAndScope.search s call proto reg pc k := by
  rw [GetOperandNameAndScope.search, hget]
  simp only
  unfold namesRegister at hn
  cases hop : ins.GetOpCode <;> rw [hop] at hn <;> simp only [decide_eq_false_iff_not] at hn <;>
    simp only [hn, if_false]

/-- The scan passes over a run of instructions none of which names the
register. -/
theorem GetOperandNameAndScope.search_skip_range (s : State) (call : CallInfo)
    (proto : Function) (reg pc : Int) (k n : Nat)
    (h : ∀ j, k ≤ j → j < k + n →
      ∃ ins, proto.opcodes_.get? j = some ins ∧ namesRegister reg ins = false) :
    GetOperandNameAndScope.search s call proto reg pc (k + n) =
      GetOperandNameAndScope.search s call proto reg pc k := by
  induction n with
  | zero => rfl
  | succ n ih =>
    obtain ⟨ins, hget, hn⟩ := h (k + n) (by omega) (by omega)
    rw [← Nat.add_assoc, GetOperandNameAndScope.search_skip s call proto reg pc (k + n) ins hget hn]
    exact ih (fun j h1 h2 => h j h1 (by omega))

/-- The scan reads only the opcodes below its starting index. -/
theorem GetOperandNameAndScope.search_below (s : State) (call : CallInfo)
    (proto proto2 : Function) (reg pc : Int) (k : Nat)
    (hops : ∀ j, j < k → proto2.opcodes_.get? j = proto.opcodes_.get? j)
    (hconst : proto2.GetConstValue = proto.GetConstValue)
    (hlocal : proto2.SearchLocalVar = proto.SearchLocalVar)
    (hup : proto2.upvalues_ = proto.upvalues_) :
    GetOperandNameAndScope.search s call proto2 reg pc k =
      GetOperandNameAndScope.search s call proto reg pc k := by
  induction k with
  | zero => rfl
  | succ k ih =>
    have ih' := ih (fun j hj => hops j (by omega))
    simp only [GetOperandNameAndScope.search, hops k (by omega), ih', hconst, hlocal,
      Function.GetUpvalue, hup]

/-- `GetOperandNameAndScope` for register `r` of a frame of a closure is the
scan started at the index of the instruction being executed. -/
theorem GetOperandNameAndScope_eq (s : State) (call : CallInfo) (rest : List CallInfo)
    (f : Int) (c p r : Nat) (hcalls : s.calls_ = call :: rest) (hfunc : call.func_ = some f)
    (hcl : s.cell f = .closure c) (hp : (s.gc_.closures_ c).prototype_ = some p) :
    GetOperandNameAndScope s (call.register_ + r) =
      GetOperandNameAndScope.search s call (s.gc_.functions_ p) r (call.instruction_ - 1)
        (call.instruction_ - 1).toNat := by
  simp only [GetOperandNameAndScope,
    GET_CALLINFO_AND_PROTO_eq s call rest f c p hcalls hfunc hcl hp, add_sub_cancel_left]

/-- C14 as stated fails for a name that holds a NUL byte: after
`GetTable 1 0 2` with the three-byte string `x`, NUL, `y` in the key register,
the name reported for the register 2 is `x`, the bytes before the NUL, with the
scope `table member`; it is not the string the key register holds. -/
theorem named_operand_nul_counterexample :
    Sample.nulKeyState.cell 1 = .string (String.mk ['x', Char.ofNat 0, 'y']) ∧
      GetOperandNameAndScope Sample.nulKeyState 3 = some ("x", "table member") ∧
      GetOperandNameAndScope Sample.nulKeyState 3
        ≠ some (String.mk ['x', Char.ofNat 0, 'y'], "table member") := by
  have h : GetOperandNameAndScope Sample.nulKeyState 3 = some ("x", "table member") := by
    decide
  refine ⟨rfl, h, ?_⟩
  rw [h]
  decide

/-- C14 as amended: the instruction being executed has index `pc` (the cursor is at
`pc + 1`) in a frame of a closure, and the nearest instruction before `pc`
among the `GetGlobal`, `Move`, `GetUpvalue` with `A = r` and the `GetTable` with
`C = r` has index `k`.  Then the name and scope reported for register `r` are:
the C string of the String constant at `Bx` and `global` for a `GetGlobal`; the
C string of the debug-map entry of the source register `B` at `pc` and `local`
for a `Move`; the C string of the name of descriptor `B` and `upvalue` for a
`GetUpvalue`; the C string of the String the key register `B` now holds and
`table member` for a `GetTable`.  The result is the same for every prototype
that agrees on the opcodes below `pc`: the instruction at `pc` and those after
it are never examined, and `k` may be any index of `[0, pc)`.  The C string of
a string is its bytes before the first NUL, the string itself when it holds
none. -/
theorem named_operand (s : State) (call : CallInfo) (rest : List CallInfo) (f : Int)
    (c p r k : Nat) (ins : Instruction)
    (hcalls : s.calls_ = call :: rest) (hfunc : call.func_ = some f)
    (hcl : s.cell f = .closure c) (hp : (s.gc_.closures_ c).prototype_ = some p)
    (hk : (k : Int) < call.instruction_ - 1)
    (hget : (s.gc_.functions_ p).opcodes_.get? k = some ins)
    (hnames : namesRegister r ins = true)
    (hnear : ∀ j : Nat, k < j → (j : Int) < call.instruction_ - 1 →
      ∃ ins2, (s.gc_.functions_ p).opcodes_.get? j = some ins2 ∧
        namesRegister r ins2 = false) :
    (ins.GetOpCode = .GetGlobal →
      ∀ str, (s.gc_.functions_ p).GetConstValue ins.GetParamBx = .string str →
        GetOperandNameAndScope s (call.register_ + r) = some (GetCStr str, "global")) ∧
    (ins.GetOpCode = .Move →
      ∀ name, (s.gc_.functions_ p).SearchLocalVar ins.GetParamB (call.instruction_ - 1) =
          some name →
        GetOperandNameAndScope s (call.register_ + r) = some (GetCStr name, "local")) ∧
    (ins.GetOpCode = .GetUpvalue →
      ∀ d, (s.gc_.functions_ p).GetUpvalue ins.GetParamB = some d →
        GetOperandNameAndScope s (call.register_ + r) = some (GetCStr d.name_, "upvalue")) ∧
    (ins.GetOpCode = .GetTable →
      ∀ str, s.cell (call.register_ + ins.GetParamB) = .string str →
        GetOperandNameAndScope s (call.register_ + r) = some (GetCStr str, "table member")) ∧
    (∀ proto2 : Function,
      (∀ j : Nat, (j : Int) < call.instruction_ - 1 →
        proto2.opcodes_.get? j = (s.gc_.functions_ p).opcodes_.get? j) →
      proto2.GetConstValue = (s.gc_.functions_ p).GetConstValue →
      proto2.SearchLocalVar = (s.gc_.functions_ p).SearchLocalVar →
      proto2.upvalues_ = (s.gc_.functions_ p).upvalues_ →
      GetOperandNameAndScope.search s call proto2 r (call.instruction_ - 1)
          (call.instruction_ - 1).toNat =
        GetOperandNameAndScope s (call.register_ + r)) := by
  have hE := GetOperandNameAndScope_eq s call rest f c p r hcalls hfunc hcl hp
  set pc := call.instruction_ - 1 with hpc
  set proto := s.gc_.functions_ p with hproto
  have hsplit : pc.toNat = (k + 1) + (pc.toNat - (k + 1)) := by omega
  have hS : GetOperandNameAndScope.search s call proto r pc pc.toNat =
      GetOperandNameAndScope.search s call proto r pc (k + 1) := by
    rw [hsplit]
    exact GetOperandNameAndScope.search_skip_range s call proto r pc (k + 1) _
      (fun j h1 h2 => hnear j (by omega) (by omega))
  rw [hS, GetOperandNameAndScope.search, hget] at hE
  simp only at hE
  unfold namesRegister at hnames
  refine ⟨?_, ?_, ?_, ?_, ?_⟩
  · intro hop str hstr
    rw [hop] at hnames hE
    simp only [decide_eq_true_eq] at hnames
    simp only [hnames, if_true, hstr] at hE
    simp only [hnames]
    exact hE
  · intro hop name hname
    rw [hop] at hnames hE
    simp only [decide_eq_true_eq] at hnames
    simp only [hnames, if_true, hname] at hE
    simp only [hnames]
    exact hE
  · intro hop d hd
    rw [hop] at hnames hE
    simp only [decide_eq_true_eq] at hnames
    simp only [hnames, if_true, hd] at hE
    simp only [hnames]
    exact hE
  · intro hop str hstr
    rw [hop] at hnames hE
    simp only [decide_eq_true_eq] at hnames
    simp only [hnames, if_true, hstr] at hE
    simp only [hnames]
    exact hE
  · intro proto2 hops hconst hlocal hup
    rw [GetOperandNameAndScope_eq s call rest f c p r hcalls hfunc hcl hp]
    exact GetOperandNameAndScope.search_below s call proto proto2 r pc pc.toNat
      (fun j hj => hops j (by omega)) hconst hlocal hup

/-- C14 at a sample: in `GetGlobal 0 K0; LoadNil 0; Neg 0` the nearest naming
instruction before the `Neg` at index 2 is the `GetGlobal` at index 0 with the
constant `x`. -/
theorem named_operand_witness :
    GetOperandNameAndScope Sample.nameState 1 = some ("x", "global") :=
  (named_operand Sample.nameState Sample.nameFrame [] 0 0 0 0 0 (Sample.insABx .GetGlobal 0 0)
    rfl rfl rfl rfl (by decide) rfl rfl
    (by
      intro j h1 h2
      have hj : j = 1 := by
        have : (j : Int) < 2 := h2
        omega
      subst hj
      exact ⟨_, rfl, rfl⟩)).1 rfl "x" rfl

/-- The C string of a string without NUL is the string itself. -/
theorem GetCStr_eq_self (str : String) (h : ∀ ch ∈ str.data, ch ≠ Char.ofNat 0) :
    GetCStr str = str := by
  unfold GetCStr
  have : str.data.takeWhile (fun ch => decide (ch ≠ Char.ofNat 0)) = str.data := by
    rw [List.takeWhile_eq_self_iff]
    intro x hx
    simpa using h x hx
  rw [this]

/-! ## ForStep and the jumps -/

theorem ForStep.exits_iff (a b c : ℚ) :
    ForStep.exits a b c = true ↔ ((c > 0 ∧ a > b) ∨ (c ≤ 0 ∧ a < b)) := by
  simp [ForStep.exits]

/-- C18: a `ForStep A B C` fetched at index `pc`, with the inline word `w` at
`pc + 1` and numbers in `a`, `b`, `c`: the inline word is consumed, the cursor
becomes `pc + 1 + sBx` of `w` if `(c > 0 ∧ a > b) ∨ (c ≤ 0 ∧ a < b)` and
`pc + 2` otherwise, and neither the stack nor any collected object is written.
With step 0 and `a ≥ b` the cursor becomes `pc + 2`: the exit jump is not
taken. -/
theorem ForStep_cursor (host : Host) (cl : Option Nat) (proto : Function) (s : State)
    (call : CallInfo) (rest : List CallInfo) (i w : Instruction) (pc : Int) (x y z : ℚ)
    (hop : i.GetOpCode = .ForStep) (hcalls : s.calls_ = call :: rest)
    (hpc : call.instruction_ = pc + 1) (hw : proto.opcodeAt (pc + 1) = some w)
    (ha : s.cell (GET_REGISTER_A call i) = .number x)
    (hb : s.cell (GET_REGISTER_B call i) = .number y)
    (hc : s.cell (GET_REGISTER_C call i) = .number z) :
    ∃ s1, dispatch host cl proto s i = .ok false s1 ∧
      s1.calls_ = { call with instruction_ :=
        if (z > 0 ∧ x > y) ∨ (z ≤ 0 ∧ x < y) then pc + 1 + w.GetParamsBx else pc + 2 } :: rest ∧
      s1.stack_ = s.stack_ ∧ s1.gc_ = s.gc_ ∧
      (z = 0 → y ≤ x → s1.calls_ = { call with instruction_ := pc + 2 } :: rest) ∧
      (ForStep.exits x y z = true ↔ (z > 0 ∧ x > y) ∨ (z ≤ 0 ∧ x < y)) := by
  have hw2 : proto.opcodeAt call.instruction_ = some w := by rw [hpc]; exact hw
  by_cases hcond : (z > 0 ∧ x > y) ∨ (z ≤ 0 ∧ x < y)
  · have hD : dispatch host cl proto s i = .ok false
        ((s.setInstruction (call.instruction_ + 1)).setInstruction
          (call.instruction_ + 1 + (-1 + w.GetParamsBx))) := by
      simp only [dispatch, hcalls, hop, hw2, ha, hb, hc, if_pos hcond]
    refine ⟨_, hD, ?_, ?_, ?_, ?_, ForStep.exits_iff x y z⟩
    · simp only [State.setInstruction, hcalls, if_pos hcond, hpc]
      congr 2
      ring
    · simp only [State.setInstruction, hcalls]
    · simp only [State.setInstruction, hcalls]
    · intro hz hyx
      exfalso
      rcases hcond with ⟨h1, _⟩ | ⟨_, h2⟩
      · rw [hz] at h1; exact lt_irrefl _ h1
      · exact absurd h2 (not_lt.mpr hyx)
  · have hD : dispatch host cl proto s i = .ok false
        (s.setInstruction (call.instruction_ + 1)) := by
      simp only [dispatch, hcalls, hop, hw2, ha, hb, hc, if_neg hcond]
    refine ⟨_, hD, ?_, ?_, ?_, ?_, ForStep.exits_iff x y z⟩
    · simp only [State.setInstruction, hcalls, if_neg hcond, hpc]
      congr 2
      ring
    · simp only [State.setInstruction, hcalls]
    · simp only [State.setInstruction, hcalls]
    · intro _ _
      simp only [State.setInstruction, hcalls, hpc]
      congr 2
      ring

/-- C18 at a sample: loop variable 3, limit 3, step 0; the `ForStep` at index 0
leaves the cursor at index 2. -/
theorem ForStep_cursor_witness :
    ∃ s1, dispatch Sample.host (some 0) Sample.forProto Sample.forState
        (Sample.insABC .ForStep 0 1 2) = .ok false s1 ∧
      s1.calls_ = [{ Sample.callerFrame with instruction_ := 2 }] ∧
      s1.stack_ = Sample.forState.stack_ := by
  obtain ⟨s1, h1, _, h3, _, h5, _⟩ := ForStep_cursor Sample.host (some 0) Sample.forProto
    Sample.forState Sample.callerFrame [] (Sample.insABC .ForStep 0 1 2)
    (Sample.insAsBx .Jmp 0 7) 0 3 3 0 rfl rfl rfl rfl rfl rfl rfl
  exact ⟨s1, h1, h5 rfl (le_refl _), h3⟩

theorem IsFalse_iff (v : Value) : v.IsFalse = true ↔ (v = .nil ∨ v = .bool false) := by
  cases v <;> simp [Value.IsFalse]

theorem setInstruction_stack (s : State) (pc : Int) : (s.setInstruction pc).stack_ = s.stack_ := by
  unfold State.setInstruction; split <;> rfl

theorem setInstruction_gc (s : State) (pc : Int) : (s.setInstruction pc).gc_ = s.gc_ := by
  unfold State.setInstruction; split <;> rfl

theorem setInstruction_calls (s : State) (call : CallInfo) (rest : List CallInfo) (pc : Int)
    (hcalls : s.calls_ = call :: rest) :
    (s.setInstruction pc).calls_ = { call with instruction_ := pc } :: rest := by
  simp only [State.setInstruction, hcalls]

/-- C19: a jump fetched at index `pc`, with `v` the value `real(a)`.
`JmpFalse` sets the cursor to `pc + sBx` if `v` is `Nil` or `Bool(false)` and
to `pc + 1` otherwise; `JmpTrue` sets it to `pc + sBx` if `v` is anything else
and to `pc + 1` otherwise, so the two conditions exclude each other and one of
them holds; `Jmp` sets it to `pc + sBx`.  None of them writes the stack or a
collected object.  `Number(0)` and the empty string are not false. -/
theorem jump_cursor (host : Host) (cl : Option Nat) (proto : Function) (s : State)
    (call : CallInfo) (rest : List CallInfo) (i : Instruction) (pc : Int)
    (hcalls : s.calls_ = call :: rest) (hpc : call.instruction_ = pc + 1) :
    (i.GetOpCode = .JmpFalse →
      ∃ s1, dispatch host cl proto s i = .ok false s1 ∧
        s1.calls_ = { call with instruction_ :=
          if (s.read (GET_REAL_VALUE s (GET_REGISTER_A call i)) = .nil ∨
              s.read (GET_REAL_VALUE s (GET_REGISTER_A call i)) = .bool false)
          then pc + i.GetParamsBx else pc + 1 } :: rest ∧
        s1.stack_ = s.stack_ ∧ s1.gc_ = s.gc_) ∧
    (i.GetOpCode = .JmpTrue →
      ∃ s1, dispatch host cl proto s i = .ok false s1 ∧
        s1.calls_ = { call with instruction_ :=
          if (¬ (s.read (GET_REAL_VALUE s (GET_REGISTER_A call i)) = .nil ∨
              s.read (GET_REAL_VALUE s (GET_REGISTER_A call i)) = .bool false))
          then pc + i.GetParamsBx else pc + 1 } :: rest ∧
        s1.stack_ = s.stack_ ∧ s1.gc_ = s.gc_) ∧
    (i.GetOpCode = .Jmp →
      ∃ s1, dispatch host cl proto s i = .ok false s1 ∧
        s1.calls_ = { call with instruction_ := pc + i.GetParamsBx } :: rest ∧
        s1.stack_ = s.stack_ ∧ s1.gc_ = s.gc_) ∧
    ((Value.number 0).IsFalse = false ∧ (Value.string "").IsFalse = false) := by
  have hjump : (jump s call i).calls_ = { call with instruction_ := pc + i.GetParamsBx } :: rest := by
    rw [jump, setInstruction_calls s call rest _ hcalls, hpc]
    congr 2
    ring
  have hstay : s.calls_ = { call with instruction_ := pc + 1 } :: rest := by
    rw [hcalls, ← hpc]
  refine ⟨?_, ?_, ?_, rfl, rfl⟩
  · intro hop
    by_cases hv : s.read (GET_REAL_VALUE s (GET_REGISTER_A call i)) = .nil ∨
        s.read (GET_REAL_VALUE s (GET_REGISTER_A call i)) = .bool false
    · have hf := (IsFalse_iff _).mpr hv
      have hD : dispatch host cl proto s i = .ok false (jump s call i) := by
        simp only [dispatch, hcalls, hop, hf, if_true]
      exact ⟨_, hD, by rw [hjump, if_pos hv], setInstruction_stack s _, setInstruction_gc s _⟩
    · have hf : (s.read (GET_REAL_VALUE s (GET_REGISTER_A call i))).IsFalse = false := by
        rw [← Bool.not_eq_true, IsFalse_iff]; exact hv
      have hD : dispatch host cl proto s i = .ok false s := by
        simp only [dispatch, hcalls, hop, hf, Bool.false_eq_true, if_false]
      exact ⟨_, hD, by rw [hstay, if_neg hv], rfl, rfl⟩
  · intro hop
    by_cases hv : s.read (GET_REAL_VALUE s (GET_REGISTER_A call i)) = .nil ∨
        s.read (GET_REAL_VALUE s (GET_REGISTER_A call i)) = .bool false
    · have hf := (IsFalse_iff _).mpr hv
      have hD : dispatch host cl proto s i = .ok false s := by
        simp only [dispatch, hcalls, hop, hf, Bool.not_true, Bool.false_eq_true, if_false]
      exact ⟨_, hD, by rw [hstay, if_neg (not_not.mpr hv)], rfl, rfl⟩
    · have hf : (s.read (GET_REAL_VALUE s (GET_REGISTER_A call i))).IsFalse = false := by
        rw [← Bool.not_eq_true, IsFalse_iff]; exact hv
      have hD : dispatch host cl proto s i = .ok false (jump s call i) := by
        simp only [dispatch, hcalls, hop, hf, Bool.not_false, if_true]
      exact ⟨_, hD, by rw [hjump, if_pos hv], setInstruction_stack s _, setInstruction_gc s _⟩
  · intro hop
    have hD : dispatch host cl proto s i = .ok false (jump s call i) := by
      simp only [dispatch, hcalls, hop]
    exact ⟨_, hD, hjump, setInstruction_stack s _, setInstruction_gc s _⟩

/-- C19 at a sample: register 2 holds `Number(0)`, which is not false, so the
`JmpTrue 2` with delta 5 fetched at index 0 sets the cursor to 5. -/
theorem jump_cursor_witness :
    ∃ s1, dispatch Sample.host (some 0) Sample.forProto Sample.forState
        (Sample.insAsBx .JmpTrue 2 5) = .ok false s1 ∧
      s1.calls_ = [{ Sample.callerFrame with instruction_ := 5 }] ∧
      s1.stack_ = Sample.forState.stack_ := by
  obtain ⟨s1, h1, h2, h3, _⟩ := (jump_cursor Sample.host (some 0) Sample.forProto
    Sample.forState Sample.callerFrame [] (Sample.insAsBx .JmpTrue 2 5) 0 rfl rfl).2.1 rfl
  refine ⟨s1, h1, ?_, h3⟩
  rw [h2]
  rfl

/-! ## Depth of the call stack -/

/-- `Ret` in a frame with a function slot pops exactly that frame. -/
theorem Ret_pops (host : Host) (cl : Option Nat) (proto : Function) (t : State)
    (fr : CallInfo) (rest : List CallInfo) (ret : Instruction) (f : Int)
    (hop : ret.GetOpCode = .Ret) (hcalls : t.calls_ = fr :: rest) (hfunc : fr.func_ = some f) :
    ∃ t1, dispatch host cl proto t ret = .ok true t1 ∧ t1.calls_ = rest := by
  have hD : dispatch host cl proto t ret = (match Return t (GET_REGISTER_A fr ret) ret with
      | .ok _ s1 => .ok true s1
      | .throw e s1 => .throw e s1
      | .undefined => .undefined
      | .outOfFuel => .outOfFuel) := by
    simp only [dispatch, hcalls, hop]
  by_cases hany : fr.expect_result = EXP_VALUE_COUNT_ANY
  · rw [Return_any_eq t fr rest _ ret f hcalls hfunc hany] at hD
    exact ⟨_, hD, rfl⟩
  · rw [Return_fixed_eq t fr rest _ ret f hcalls hfunc hany] at hD
    exact ⟨_, hD, rfl⟩

/-- A frame whose cursor has reached `end_` is popped by the epilogue of
`ExecuteFrame`. -/
theorem ExecuteFrame.loop_end (host : Host) (cl : Option Nat) (proto : Option Function)
    (fuel : Nat) (t : State) (fr : CallInfo) (rest : List CallInfo)
    (hcalls : t.calls_ = fr :: rest) (hend : ¬ fr.instruction_ < fr.end_) :
    ∃ t1, ExecuteFrame.loop host cl proto (fuel + 1) t = .ok () t1 ∧ t1.calls_ = rest ∧
      t1.stack_.stack_ = t.stack_.stack_ ∧
      t1.stack_.top_ =
        (if fr.expect_result ≠ EXP_VALUE_COUNT_ANY then
          (match fr.func_ with
            | some f => f
            | none => fr.register_) + fr.expect_result
         else
          (match fr.func_ with
            | some f => f
            | none => fr.register_)) := by
  rw [ExecuteFrame.loop]
  simp only [hcalls, if_neg hend]
  refine ⟨_, rfl, rfl, ?_, ?_⟩
  · split <;> rfl
  · split <;> rfl

/-- `Call` on a closure with a prototype pushes exactly one frame, whose
function slot is `a`. -/
theorem Call_closure_pushes (host : Host) (s : State) (a : Int) (i : Instruction) (c p : Nat)
    (hcl : s.cell a = .closure c) (hp : (s.gc_.closures_ c).prototype_ = some p) :
    ∃ s1 callee, Call host s a i = .ok true s1 ∧ s1.calls_ = callee :: s.calls_ ∧
      callee.func_ = some a := by
  have hC := Call_closure host s a i c hcl
  cases hva : (s.gc_.functions_ p).HasVararg
  · rw [CallClosure_fixed (Call.adjust s a i) a ((i.GetParamC : Int) - 1) c p
      (by rw [Call.adjust_cell]; exact hcl) (by rw [Call.adjust_gc]; exact hp)
      (by rw [Call.adjust_gc]; exact hva)] at hC
    exact ⟨_, _, hC, congrArg (List.cons _) (Call.adjust_calls s a i), rfl⟩
  · rw [CallClosure_vararg (Call.adjust s a i) a ((i.GetParamC : Int) - 1) c p
      (by rw [Call.adjust_cell]; exact hcl) (by rw [Call.adjust_gc]; exact hp)
      (by rw [Call.adjust_gc]; exact hva)] at hC
    exact ⟨_, _, hC, congrArg (List.cons _) (Call.adjust_calls s a i), rfl⟩

theorem setInstruction_cell (s : State) (pc : Int) (q : Int) :
    (s.setInstruction pc).cell q = s.cell q := by
  unfold State.cell
  rw [setInstruction_stack]

/-- C15: depth of the call stack.  The frame `call` is at the back with its
cursor on a `Call`.  (1) If the called value is a closure with a prototype, the
round of the loop that executes the `Call` pushes exactly one frame over the
caller's, whose cursor is then just after the `Call`; and from every later
state whose call stack is a frame of that function over the caller's, a `Ret`
as well as reaching the end of the opcodes leaves the call stack of before the
call, with the caller's frame at the back and its cursor just after the
`Call`.  (2) A `Ret` in any frame with a function slot removes exactly one
frame.  (3) A frame whose cursor is at `end_` is removed by the loop, and
nothing else is.  (4) If the called value is a host function that records no
error and leaves the call stack as it found it, the depth after the `Call` is
the depth before it. -/
theorem call_depth_balance (host : Host) (cl : Option Nat) (proto : Function) (fuel : Nat)
    (s0 : State) (call : CallInfo) (rest : List CallInfo) (i : Instruction)
    (hcalls : s0.calls_ = call :: rest) (hlt : call.instruction_ < call.end_)
    (hfetch : proto.opcodeAt call.instruction_ = some i) (hop : i.GetOpCode = .Call) :
    (∀ c p, s0.cell (GET_REGISTER_A call i) = .closure c →
      (s0.gc_.closures_ c).prototype_ = some p →
      ∃ s1 callee, ExecuteFrame.loop host cl (some proto) (fuel + 1) s0 = .ok () s1 ∧
        s1.calls_ = callee :: { call with instruction_ := call.instruction_ + 1 } :: rest ∧
        s1.calls_.length = s0.calls_.length + 1 ∧
        callee.func_ = some (GET_REGISTER_A call i) ∧
        ∀ (t : State) (callee2 : CallInfo) (f : Int),
          t.calls_ = callee2 :: { call with instruction_ := call.instruction_ + 1 } :: rest →
          callee2.func_ = some f →
          (∀ (host2 : Host) (cl2 : Option Nat) (proto2 : Function) (ret : Instruction),
            ret.GetOpCode = .Ret →
            ∃ t1, dispatch host2 cl2 proto2 t ret = .ok true t1 ∧
              t1.calls_ = { call with instruction_ := call.instruction_ + 1 } :: rest ∧
              t1.calls_.length = s0.calls_.length) ∧
          (¬ callee2.instruction_ < callee2.end_ →
            ∀ (host2 : Host) (cl2 : Option Nat) (proto2 : Option Function) (fuel2 : Nat),
            ∃ t1, ExecuteFrame.loop host2 cl2 proto2 (fuel2 + 1) t = .ok () t1 ∧
              t1.calls_ = { call with instruction_ := call.instruction_ + 1 } :: rest ∧
              t1.calls_.length = s0.calls_.length)) ∧
    (∀ (t : State) (fr : CallInfo) (rest2 : List CallInfo) (f : Int) (host2 : Host)
        (cl2 : Option Nat) (proto2 : Function) (ret : Instruction),
      t.calls_ = fr :: rest2 → fr.func_ = some f → ret.GetOpCode = .Ret →
      ∃ t1, dispatch host2 cl2 proto2 t ret = .ok true t1 ∧ t1.calls_ = rest2 ∧
        t1.calls_.length + 1 = t.calls_.length) ∧
    (∀ (t : State) (fr : CallInfo) (rest2 : List CallInfo) (host2 : Host) (cl2 : Option Nat)
        (proto2 : Option Function) (fuel2 : Nat),
      t.calls_ = fr :: rest2 → ¬ fr.instruction_ < fr.end_ →
      ∃ t1, ExecuteFrame.loop host2 cl2 proto2 (fuel2 + 1) t = .ok () t1 ∧ t1.calls_ = rest2 ∧
        t1.calls_.length + 1 = t.calls_.length) ∧
    (∀ (cf : Nat) (s2 : State) (r : Int),
      s0.cell (GET_REGISTER_A call i) = .cfunction cf →
      host.cfunc cf (CallCFunction.entry
        (Call.adjust (s0.setInstruction (call.instruction_ + 1)) (GET_REGISTER_A call i) i)
        (GET_REGISTER_A call i) ((i.GetParamC : Int) - 1)) = (s2, r) →
      s2.cfunc_error_.type_ = .CFuntionErrorType_NoError →
      s2.calls_ = (CallCFunction.entry
        (Call.adjust (s0.setInstruction (call.instruction_ + 1)) (GET_REGISTER_A call i) i)
        (GET_REGISTER_A call i) ((i.GetParamC : Int) - 1)).calls_ →
      ∃ s1, dispatch host cl proto (s0.setInstruction (call.instruction_ + 1)) i
          = .ok false s1 ∧
        s1.calls_ = { call with instruction_ := call.instruction_ + 1 } :: rest ∧
        s1.calls_.length = s0.calls_.length) := by
  have hs := setInstruction_calls s0 call rest (call.instruction_ + 1) hcalls
  have hD : dispatch host cl proto (s0.setInstruction (call.instruction_ + 1)) i =
      Call host (s0.setInstruction (call.instruction_ + 1)) (GET_REGISTER_A call i) i := by
    simp only [dispatch, hs, hop, GET_REGISTER_A]
  have hlen : ({ call with instruction_ := call.instruction_ + 1 } :: rest).length
      = s0.calls_.length := by
    rw [hcalls]; rfl
  refine ⟨?_, ?_, ?_, ?_⟩
  · intro c p hcl hp
    obtain ⟨s1, callee, h1, h2, h3⟩ := Call_closure_pushes host
      (s0.setInstruction (call.instruction_ + 1)) (GET_REGISTER_A call i) i c p
      (by rw [setInstruction_cell]; exact hcl) (by rw [setInstruction_gc]; exact hp)
    have hL := ExecuteFrame.loop_step host cl proto fuel s0 call rest i hcalls hlt hfetch
    rw [hD, h1] at hL
    rw [hs] at h2
    refine ⟨s1, callee, hL, h2, ?_, h3, ?_⟩
    · rw [h2, hcalls]; rfl
    · intro t callee2 f ht hf
      constructor
      · intro host2 cl2 proto2 ret hret
        obtain ⟨t1, e1, e2⟩ := Ret_pops host2 cl2 proto2 t callee2 _ ret f hret ht hf
        exact ⟨t1, e1, e2, by rw [e2, hlen]⟩
      · intro hend host2 cl2 proto2 fuel2
        obtain ⟨t1, e1, e2, _⟩ := ExecuteFrame.loop_end host2 cl2 proto2 fuel2 t callee2 _ ht hend
        exact ⟨t1, e1, e2, by rw [e2, hlen]⟩
  · intro t fr rest2 f host2 cl2 proto2 ret ht hf hret
    obtain ⟨t1, e1, e2⟩ := Ret_pops host2 cl2 proto2 t fr rest2 ret f hret ht hf
    exact ⟨t1, e1, e2, by rw [e2, ht]; rfl⟩
  · intro t fr rest2 host2 cl2 proto2 fuel2 ht hend
    obtain ⟨t1, e1, e2, _⟩ := ExecuteFrame.loop_end host2 cl2 proto2 fuel2 t fr rest2 ht hend
    exact ⟨t1, e1, e2, by rw [e2, ht]; rfl⟩
  · intro cf s2 r hcf hhost herr hc2
    have hcf2 : (Call.adjust (s0.setInstruction (call.instruction_ + 1))
        (GET_REGISTER_A call i) i).cell (GET_REGISTER_A call i) = .cfunction cf := by
      rw [Call.adjust_cell, setInstruction_cell]; exact hcf
    have hc3 : s2.calls_ = CallCFunction.frame (GET_REGISTER_A call i) ((i.GetParamC : Int) - 1)
        :: ({ call with instruction_ := call.instruction_ + 1 } :: rest) := by
      rw [hc2]
      simp only [CallCFunction.entry, State.ClearCFunctionError, Call.adjust_calls, hs]
    have hE := CallCFunction_eq host _ s2 (GET_REGISTER_A call i) ((i.GetParamC : Int) - 1) r cf
      _ _ hcf2 hhost herr hc3
    rw [Call_cfunction host _ (GET_REGISTER_A call i) i cf
      (by rw [setInstruction_cell]; exact hcf), hE] at hD
    by_cases hany : (i.GetParamC : Int) - 1 = EXP_VALUE_COUNT_ANY
    · rw [if_pos hany] at hD
      exact ⟨_, hD, rfl, hlen⟩
    · rw [if_neg hany] at hD
      exact ⟨_, hD, rfl, hlen⟩

/-- C15 at a sample: the caller of `Sample.fixedCallState` with its cursor on
`Call 0 4 2`; the call pushes a frame, and a `Ret` in a frame of the called
function over the caller's leaves the caller's frame with the cursor 2. -/
theorem call_depth_balance_witness :
    (∃ s1 callee, ExecuteFrame.loop Sample.host none (some Sample.callProto) 1
        Sample.fixedCallState = .ok () s1 ∧
      s1.calls_ = [callee, { Sample.callerFrame with instruction_ := 2 }] ∧
      ∀ (t : State) (callee2 : CallInfo) (f : Int),
        t.calls_ = [callee2, { Sample.callerFrame with instruction_ := 2 }] →
        callee2.func_ = some f →
        ∃ t1, dispatch Sample.host none Sample.emptyProto t (Sample.insAsBx .Ret 0 0)
            = .ok true t1 ∧
          t1.calls_ = [{ Sample.callerFrame with instruction_ := 2 }]) := by
  obtain ⟨h1, _, _, _⟩ := call_depth_balance Sample.host none Sample.callProto 0
    Sample.fixedCallState Sample.callerFrame [] (Sample.insABC .Call 0 4 2) rfl (by decide) rfl rfl
  obtain ⟨s1, callee, e1, e2, _, _, e5⟩ := h1 0 0 rfl rfl
  refine ⟨s1, callee, e1, e2, ?_⟩
  intro t callee2 f ht hf
  obtain ⟨t1, k1, k2, _⟩ := (e5 t callee2 f ht hf).1 Sample.host none Sample.emptyProto
    (Sample.insAsBx .Ret 0 0) rfl
  exact ⟨t1, k1, k2⟩

/-! ## The end of the opcodes -/

/-- The loop of `ExecuteFrame` on a frame whose cursor is at `end_` is the
epilogue, here with the `SetNewTop` of section 4.1. -/
theorem ExecuteFrame.loop_end_eq (host : Host) (cl : Option Nat) (proto : Option Function)
    (fuel : Nat) (s : State) (call : CallInfo) (rest : List CallInfo)
    (hcalls : s.calls_ = call :: rest) (hend : ¬ call.instruction_ < call.end_) :
    ExecuteFrame.loop host cl proto (fuel + 1) s = ExecuteFrame.epilogue Stack.SetNewTop s := by
  rw [ExecuteFrame.loop]
  simp only [hcalls, if_neg hend, ExecuteFrame.epilogue]

/-- For a step other than 0, `ForStep` leaves the loop at the value `a + k s`
exactly when `(b - a) / s < k`. -/
theorem ForStep.exits_at (a b s : ℚ) (hs : s ≠ 0) (k : Nat) :
    ForStep.exits (a + (k : ℚ) * s) b s = true ↔ ⌊(b - a) / s⌋ < (k : Int) := by
  rw [ForStep.exits_iff, Int.floor_lt]
  push_cast
  rcases lt_or_gt_of_ne hs with h | h
  · rw [div_lt_iff_of_neg h]
    constructor
    · rintro (⟨h1, _⟩ | ⟨_, h2⟩)
      · exact absurd h1 (not_lt.mpr h.le)
      · linarith
    · intro h2
      exact Or.inr ⟨h.le, by linarith⟩
  · rw [div_lt_iff₀ h]
    constructor
    · rintro (⟨_, h2⟩ | ⟨h1, _⟩)
      · linarith
      · exact absurd h (not_lt.mpr h1)
    · intro h2
      exact Or.inl ⟨h, by linarith⟩

theorem forValues_succ (i s : ℚ) (m : Nat) :
    forValues i s (m + 1) = i :: forValues (i + s) s m := by
  unfold forValues
  rw [List.range_succ_eq_map, List.map_cons, List.map_map]
  congr 1
  · simp
  · apply List.map_congr_left
    intro k _
    simp only [Function.comp, Nat.cast_succ]
    ring

/-- The loop whose test lets the values number `0 .. m - 1` pass and stops the
value number `m` runs its body `m` times. -/
theorem forLoop_run (b s : ℚ) (m : Nat) :
    ∀ (i : ℚ) (fuel : Nat),
      (∀ k : Nat, k < m → ForStep.exits (i + (k : ℚ) * s) b s = false) →
      ForStep.exits (i + (m : ℚ) * s) b s = true → m + 1 ≤ fuel →
      forLoop b s fuel i = some (forValues i s m) := by
  induction m with
  | zero =>
    intro i fuel _ hexit hf
    obtain ⟨f, rfl⟩ : ∃ f, fuel = f + 1 := ⟨fuel - 1, by omega⟩
    have hexit2 : ForStep.exits i b s = true := by
      simpa using hexit
    rw [forLoop, if_pos hexit2]
    simp [forValues]
  | succ m ih =>
    intro i fuel hcont hexit hf
    obtain ⟨f, rfl⟩ : ∃ f, fuel = f + 1 := ⟨fuel - 1, by omega⟩
    have h0 : ForStep.exits i b s = false := by
      simpa using hcont 0 (Nat.succ_pos m)
    have hrec := ih (i + s) f
      (by
        intro k hk
        have := hcont (k + 1) (by omega)
        rw [← this]; congr 1; push_cast; ring)
      (by rw [← hexit]; congr 1; push_cast; ring)
      (by omega)
    rw [forLoop, h0, hrec, forValues_succ i s m]
    simp

/-- The loop whose test lets the values number `0 .. m - 1` pass has not ended
within `m` units of fuel. -/
theorem forLoop_short (b s : ℚ) (m : Nat) :
    ∀ (i : ℚ) (fuel : Nat),
      (∀ k : Nat, k < m → ForStep.exits (i + (k : ℚ) * s) b s = false) →
      fuel < m + 1 → forLoop b s fuel i = none := by
  induction m with
  | zero =>
    intro i fuel _ hf
    obtain rfl : fuel = 0 := by omega
    rfl
  | succ m ih =>
    intro i fuel hcont hf
    cases fuel with
    | zero => rfl
    | succ f =>
      have h0 : ForStep.exits i b s = false := by
        simpa using hcont 0 (Nat.succ_pos m)
      have hrec := ih (i + s) f
        (by
          intro k hk
          have := hcont (k + 1) (by omega)
          rw [← this]; congr 1; push_cast; ring)
        (by omega)
      rw [forLoop, h0, hrec]
      simp

/-- With the step 0 and the start at or beyond the limit the loop never ends. -/
theorem forLoop_step_zero (a b : ℚ) (h : b ≤ a) : ∀ fuel, forLoop b 0 fuel a = none := by
  intro fuel
  induction fuel with
  | zero => rfl
  | succ f ih =>
    have h0 : ForStep.exits a b 0 = false := by
      rw [Bool.eq_false_iff, ne_eq, ForStep.exits_iff]
      simp only [gt_iff_lt, lt_self_iff_false, false_and, le_refl, true_and, false_or]
      exact not_lt.mpr h
    rw [forLoop, h0]
    simp only [Bool.false_eq_true, if_false, add_zero, ih, Option.map_none']

/-- C17 as stated fails for the step 0: in the loop `for i = 1, 1, 0` the test of
`ForStep` never holds (the step is not positive and the variable is not below
the limit), so the loop does not end with any fuel and runs its body no finite
number of times. -/
theorem numeric_for_counterexample :
    ForStep.exits 1 1 0 = false ∧ (∀ fuel, forLoop 1 0 fuel 1 = none) ∧
      (∀ (fuel n : Nat), forLoop 1 0 fuel 1 ≠ some (forValues 1 0 n)) := by
  have h := forLoop_step_zero 1 1 (le_refl _)
  refine ⟨?_, h, ?_⟩
  · rw [Bool.eq_false_iff, ne_eq, ForStep.exits_iff]
    norm_num
  · intro fuel n e
    rw [h fuel] at e
    cases e

/-- C17 as amended: the loop `for i = a, b, s`, with `ForStep` as the test at its
head.  For every step other than 0 it runs its body exactly
`max 0 (floor ((b - a) / s) + 1)` times, the count of the spec, the loop
variable taking the values `a, a + s, a + 2 s, ...` in order (every fuel beyond
that count gives this result, and less fuel gives none).  With the step 0 the
body is never run when `a < b`, and the loop never ends when `b ≤ a`. -/
theorem numeric_for_count (a b s : ℚ) :
    (s ≠ 0 → ∀ fuel, (forCount a b s).toNat + 1 ≤ fuel →
      forLoop b s fuel a = some (forValues a s (forCount a b s).toNat) ∧
      ((forValues a s (forCount a b s).toNat).length : Int) = forCount a b s) ∧
    (s ≠ 0 → ∀ fuel, fuel < (forCount a b s).toNat + 1 → forLoop b s fuel a = none) ∧
    (s = 0 → a < b → ∀ fuel, forLoop b s (fuel + 1) a = some []) ∧
    (s = 0 → b ≤ a → ∀ fuel, forLoop b s fuel a = none) := by
  have hc : forCount a b s = max 0 (⌊(b - a) / s⌋ + 1) := rfl
  refine ⟨?_, ?_, ?_, ?_⟩
  · intro hs fuel hf
    refine ⟨forLoop_run b s _ a fuel ?_ ?_ hf, ?_⟩
    · intro k hk
      rw [Bool.eq_false_iff, ne_eq, ForStep.exits_at a b s hs k]
      omega
    · rw [ForStep.exits_at a b s hs]
      omega
    · simp only [forValues, List.length_map, List.length_range]
      omega
  · intro hs fuel hf
    exact forLoop_short b s (forCount a b s).toNat a fuel
      (by
        intro k hk
        rw [Bool.eq_false_iff, ne_eq, ForStep.exits_at a b s hs k]
        omega)
      hf
  · intro hs hab fuel
    subst hs
    have h : ForStep.exits a b 0 = true := by
      rw [ForStep.exits_iff]
      exact Or.inr ⟨le_refl _, hab⟩
    rw [forLoop, if_pos h]
  · intro hs hab
    subst hs
    exact forLoop_step_zero a b hab

/-- C17 at two samples: `for i = 1, 3, 1` runs its body three times, with the
values 1, 2, 3, and `for i = 2, 1, 1` does not run it. -/
theorem numeric_for_count_witness :
    forLoop 3 1 4 1 = some [1, 2, 3] ∧ forCount 1 3 1 = 3 ∧
      forLoop 1 1 1 2 = some [] ∧ forCount 2 1 1 = 0 := by
  have hq : forCount 1 3 1 = 3 := by
    unfold forCount; norm_num
  have hq2 : forCount 2 1 1 = 0 := by
    unfold forCount; norm_num
  have e1 := ((numeric_for_count 1 3 1).1 (by norm_num) 4 (by rw [hq]; decide)).1
  have e2 := ((numeric_for_count 2 1 1).1 (by norm_num) 1 (by rw [hq2]; decide)).1
  rw [hq] at e1
  rw [hq2] at e2
  refine ⟨?_, hq, ?_, hq2⟩
  · rw [e1]
    simp [forValues, List.range_succ]
    norm_num
  · rw [e2]
    simp [forValues]

/-! ## The upvalues of a new closure -/

theorem read_real_upvalue (s : State) (q : Int) (u : Nat) (h : s.cell q = .upvalue u) :
    s.read (GET_REAL_VALUE s q) = s.upvalueCell u := by
  simp only [GET_REAL_VALUE, h, State.read]

theorem read_real_plain (s : State) (q : Int) (h : ∀ u, s.cell q ≠ .upvalue u) :
    s.read (GET_REAL_VALUE s q) = s.cell q := by
  unfold GET_REAL_VALUE
  cases hv : s.cell q
  case upvalue u => exact absurd hv (h u)
  all_goals simp only [State.read, hv]

theorem GenerateClosure.capture_promote (call : CallInfo) (c nc : Nat) (s : State)
    (d : UpvalueInfo) (hpl : d.parent_local_ = true)
    (hnot : ∀ u, s.cell (call.register_ + d.register_index_) ≠ .upvalue u) :
    GenerateClosure.capture call c nc s d
      = some (GenerateClosure.promote s (call.register_ + d.register_index_) nc) := by
  unfold GenerateClosure.capture
  simp only [hpl, if_true]
  cases hv : s.cell (call.register_ + d.register_index_)
  case upvalue u => exact absurd hv (hnot u)
  all_goals simp only [GenerateClosure.promote, hv]

theorem GenerateClosure.promote_cell (s : State) (reg : Int) (nc : Nat) (x : Int) :
    (GenerateClosure.promote s reg nc).cell x
      = if x = reg then .upvalue s.gc_.upvalue_count_ else s.cell x := rfl

theorem GenerateClosure.promote_upvalueCell (s : State) (reg : Int) (nc : Nat) (u : Nat) :
    (GenerateClosure.promote s reg nc).upvalueCell u
      = if u = s.gc_.upvalue_count_ then s.cell reg else s.upvalueCell u := by
  by_cases h : u = s.gc_.upvalue_count_ <;>
    simp [GenerateClosure.promote, State.AddUpvalue, State.setCell, State.setUpvalueCell,
      State.NewUpvalue, State.upvalueCell, h]

theorem GenerateClosure.promote_count (s : State) (reg : Int) (nc : Nat) :
    (GenerateClosure.promote s reg nc).gc_.upvalue_count_ = s.gc_.upvalue_count_ + 1 := rfl

theorem GenerateClosure.promote_closures (s : State) (reg : Int) (nc : Nat) (j : Nat) :
    (GenerateClosure.promote s reg nc).gc_.closures_ j
      = if j = nc then { s.gc_.closures_ nc with
          upvalues_ := (s.gc_.closures_ nc).upvalues_ ++ [s.gc_.upvalue_count_] }
        else s.gc_.closures_ j := rfl

/-- One round of the capture loop, upvalue by upvalue: which upvalue is appended
in each of the three cases, and what the round keeps. -/
theorem GenerateClosure.capture_round (call : CallInfo) (c nc : Nat) (s : State)
    (d : UpvalueInfo)
    (hwf : d.parent_local_ = false →
      d.register_index_ < (s.gc_.closures_ c).upvalues_.length)
    (hheap : ∀ q u, s.cell q = .upvalue u → u < s.gc_.upvalue_count_) :
    ∃ s1 u, GenerateClosure.capture call c nc s d = some s1 ∧
      (s1.gc_.closures_ nc).upvalues_ = (s.gc_.closures_ nc).upvalues_ ++ [u] ∧
      (∀ c', c' ≠ nc → s1.gc_.closures_ c' = s.gc_.closures_ c') ∧
      s.gc_.upvalue_count_ ≤ s1.gc_.upvalue_count_ ∧
      (∀ u', u' < s.gc_.upvalue_count_ → s1.upvalueCell u' = s.upvalueCell u') ∧
      (∀ q u', s1.cell q = .upvalue u' → u' < s1.gc_.upvalue_count_) ∧
      (∀ q, s1.read (GET_REAL_VALUE s1 q) = s.read (GET_REAL_VALUE s q)) ∧
      (∀ q u', s.cell q = .upvalue u' → s1.cell q = .upvalue u') ∧
      (d.parent_local_ = true →
        (∀ u', s.cell (call.register_ + d.register_index_) ≠ .upvalue u') →
        u = s.gc_.upvalue_count_ ∧ u < s1.gc_.upvalue_count_ ∧
        s1.upvalueCell u = s.cell (call.register_ + d.register_index_) ∧
        s1.cell (call.register_ + d.register_index_) = .upvalue u) ∧
      (d.parent_local_ = true →
        ∀ u', s.cell (call.register_ + d.register_index_) = .upvalue u' → u = u') ∧
      (d.parent_local_ = false →
        (s.gc_.closures_ c).GetUpvalue d.register_index_ = some u) := by
  cases hpl : d.parent_local_
  · obtain ⟨u, hu⟩ : ∃ u, (s.gc_.closures_ c).GetUpvalue d.register_index_ = some u :=
      ⟨_, List.get?_eq_get (hwf hpl)⟩
    unfold GenerateClosure.capture
    simp only [hpl, hu, Bool.false_eq_true, if_false]
    refine ⟨_, u, rfl, ?_, ?_, le_refl _, fun _ _ => rfl, hheap, fun _ => rfl,
      fun _ _ h => h, ?_, ?_, ?_⟩
    · simp [State.AddUpvalue]
    · intro c' hc'; simp [State.AddUpvalue, hc']
    · intro h; cases h
    · intro h; cases h
    · intro _; rfl
  · by_cases hup : ∃ u, s.cell (call.register_ + d.register_index_) = .upvalue u
    · obtain ⟨u, hv⟩ := hup
      unfold GenerateClosure.capture
      simp only [hpl, if_true, hv]
      refine ⟨_, u, rfl, ?_, ?_, le_refl _, fun _ _ => rfl, hheap, fun _ => rfl,
        fun _ _ h => h, ?_, ?_, ?_⟩
      · simp [State.AddUpvalue]
      · intro c' hc'; simp [State.AddUpvalue, hc']
      · intro _ h; exact absurd rfl (h u)
      · intro _ u' h; cases h; rfl
      · intro h; cases h
    · have hnot : ∀ u, s.cell (call.register_ + d.register_index_) ≠ .upvalue u :=
        fun u h => hup ⟨u, h⟩
      refine ⟨_, s.gc_.upvalue_count_, GenerateClosure.capture_promote call c nc s d hpl hnot,
        ?_, ?_, ?_, ?_, ?_, ?_, ?_, ?_, ?_, ?_⟩
      · rw [GenerateClosure.promote_closures, if_pos rfl]
      · intro c' hc'
        rw [GenerateClosure.promote_closures, if_neg hc']
      · rw [GenerateClosure.promote_count]; omega
      · intro u' hu'
        rw [GenerateClosure.promote_upvalueCell, if_neg (by omega)]
      · intro q u' h
        rw [GenerateClosure.promote_count]
        rw [GenerateClosure.promote_cell] at h
        by_cases hq : q = call.register_ + d.register_index_
        · rw [if_pos hq] at h
          cases h; omega
        · rw [if_neg hq] at h
          have := hheap q u' h
          omega
      · intro q
        by_cases hq : q = call.register_ + d.register_index_
        · subst hq
          rw [read_real_upvalue _ _ s.gc_.upvalue_count_
              (by rw [GenerateClosure.promote_cell, if_pos rfl]),
            GenerateClosure.promote_upvalueCell, if_pos rfl, read_real_plain s _ hnot]
        · by_cases hsq : ∃ u', s.cell q = .upvalue u'
          · obtain ⟨u', hsq⟩ := hsq
            have hlt := hheap q u' hsq
            rw [read_real_upvalue _ q u' (by rw [GenerateClosure.promote_cell, if_neg hq, hsq]),
              read_real_upvalue s q u' hsq, GenerateClosure.promote_upvalueCell,
              if_neg (by omega)]
          · have hn : ∀ u', s.cell q ≠ .upvalue u' := fun u' h => hsq ⟨u', h⟩
            rw [read_real_plain _ q (by rw [GenerateClosure.promote_cell, if_neg hq]; exact hn),
              read_real_plain s q hn, GenerateClosure.promote_cell, if_neg hq]
      · intro q u' h
        have hq : q ≠ call.register_ + d.register_index_ := by
          intro e; rw [e] at h; exact hnot u' h
        rw [GenerateClosure.promote_cell, if_neg hq]; exact h
      · intro _ _
        refine ⟨rfl, ?_, ?_, ?_⟩
        · rw [GenerateClosure.promote_count]; omega
        · rw [GenerateClosure.promote_upvalueCell, if_pos rfl]
        · rw [GenerateClosure.promote_cell, if_pos rfl]
      · intro _ u' h; exact absurd h (hnot u')
      · intro h; cases h

/-- The capture loop, round by round.  For the descriptor number `k`, with `sk`
the state in which its round starts: the upvalue number `k` of those appended
is, for a parent local whose register is not promoted in `sk`, the upvalue
allocated in that round, which at the end holds the value the register had in
`sk` and is what the register refers to; for a parent local whose register is
promoted in `sk`, the upvalue of the register; otherwise the upvalue of the
enclosing closure at the index of the descriptor. -/
theorem GenerateClosure.prepare_rounds (call : CallInfo) (c nc : Nat) (hc : c ≠ nc)
    (infos : List UpvalueInfo) :
    ∀ (s : State),
    (∀ d ∈ infos, d.parent_local_ = false →
      d.register_index_ < (s.gc_.closures_ c).upvalues_.length) →
    (∀ q u, s.cell q = .upvalue u → u < s.gc_.upvalue_count_) →
    ∃ s2, GenerateClosure.prepare call c nc infos s = some s2 ∧
      s.gc_.upvalue_count_ ≤ s2.gc_.upvalue_count_ ∧
      (∀ u', u' < s.gc_.upvalue_count_ → s2.upvalueCell u' = s.upvalueCell u') ∧
      (∀ q u', s2.cell q = .upvalue u' → u' < s2.gc_.upvalue_count_) ∧
      (∀ q, s2.read (GET_REAL_VALUE s2 q) = s.read (GET_REAL_VALUE s q)) ∧
      (∀ k d, infos.get? k = some d →
        ∃ sk uk, GenerateClosure.prepare call c nc (infos.take k) s = some sk ∧
          s.gc_.upvalue_count_ ≤ sk.gc_.upvalue_count_ ∧
          (s2.gc_.closures_ nc).upvalues_.get? ((s.gc_.closures_ nc).upvalues_.length + k)
            = some uk ∧
          (d.parent_local_ = true →
            (∀ u', sk.cell (call.register_ + d.register_index_) ≠ .upvalue u') →
            uk = sk.gc_.upvalue_count_ ∧
            s2.upvalueCell uk = sk.cell (call.register_ + d.register_index_) ∧
            s2.cell (call.register_ + d.register_index_) = .upvalue uk) ∧
          (d.parent_local_ = true →
            ∀ u', sk.cell (call.register_ + d.register_index_) = .upvalue u' →
            uk = u' ∧ s2.cell (call.register_ + d.register_index_) = .upvalue u') ∧
          (d.parent_local_ = false →
            (s.gc_.closures_ c).GetUpvalue d.register_index_ = some uk)) := by
  induction infos with
  | nil =>
    intro s _ hheap
    refine ⟨s, rfl, le_refl _, fun _ _ => rfl, hheap, fun _ => rfl, ?_⟩
    intro k d h
    simp at h
  | cons d ds ih =>
    intro s hwf hheap
    obtain ⟨s1, u0, h1, hup1, hoth1, hcnt1, hcells1, hheap1, hreal1, hkeep1, hfresh1, hprom1,
      hinh1⟩ := GenerateClosure.capture_round call c nc s d (hwf d (List.mem_cons_self _ _)) hheap
    have hwf1 : ∀ d' ∈ ds, d'.parent_local_ = false →
        d'.register_index_ < (s1.gc_.closures_ c).upvalues_.length := by
      intro d' hd' hpl
      rw [hoth1 c hc]
      exact hwf d' (List.mem_cons_of_mem _ hd') hpl
    obtain ⟨s2, h2, hcnt2, hcells2, hheap2, hreal2, hk2⟩ := ih s1 hwf1 hheap1
    obtain ⟨s2', added, h2', hup2, _, _, _, _, _, _, _, _, hkeep2, _⟩ :=
      GenerateClosure.prepare_spec call c nc hc ds s1 hwf1
    obtain rfl : s2 = s2' := by
      rw [h2] at h2'; exact Option.some.inj h2'
    refine ⟨s2, ?_, le_trans hcnt1 hcnt2, ?_, hheap2, ?_, ?_⟩
    · simp only [GenerateClosure.prepare, h1, h2]
    · intro u' hu'
      rw [hcells2 u' (by omega), hcells1 u' hu']
    · intro q
      rw [hreal2 q, hreal1 q]
    · intro k d' hk
      cases k with
      | zero =>
        have hd : d' = d := by simpa using hk.symm
        subst hd
        refine ⟨s, u0, rfl, le_refl _, ?_, ?_, ?_, hinh1⟩
        · rw [hup2, hup1, Nat.add_zero, List.get?_eq_getElem?,
            List.getElem?_append_left (by simp), List.getElem?_concat_length]
        · intro hpl hnot
          obtain ⟨e1, e2, e3, e4⟩ := hfresh1 hpl hnot
          refine ⟨e1, ?_, hkeep2 _ _ e4⟩
          rw [hcells2 u0 e2, e3]
        · intro hpl u' hu'
          have e := hprom1 hpl u' hu'
          subst e
          exact ⟨rfl, hkeep2 _ _ (hkeep1 _ _ hu')⟩
      | succ k =>
        have hk' : ds.get? k = some d' := by simpa using hk
        obtain ⟨sk, uk, e1, e2, e3, e4, e5, e6⟩ := hk2 k d' hk'
        refine ⟨sk, uk, ?_, le_trans hcnt1 e2, ?_, e4, e5, ?_⟩
        · simp only [List.take_succ_cons, GenerateClosure.prepare, h1, e1]
        · rw [hup1] at e3
          rw [← e3]
          congr 1
          simp only [List.length_append, List.length_singleton]
          omega
        · intro hpl
          rw [← hoth1 c hc]
          exact e6 hpl

theorem GenerateClosure.start_cell (s : State) (a : Int) (cp : Nat) (q : Int) :
    (GenerateClosure.start s a cp).cell q
      = if q = a then .closure s.gc_.closure_count_ else s.cell q := rfl

theorem GenerateClosure.start_closures (s : State) (a : Int) (cp : Nat) (j : Nat) :
    (GenerateClosure.start s a cp).gc_.closures_ j
      = if j = s.gc_.closure_count_ then { prototype_ := some cp, upvalues_ := [] }
        else s.gc_.closures_ j := by
  by_cases h : j = s.gc_.closure_count_ <;>
    simp [GenerateClosure.start, State.SetPrototype, State.setCell, State.NewClosure, h]

/-- `GenerateClosure` in a frame of a closure, for a destination other than the
function slot: the loop over the descriptors of the child prototype, run from
the state with the new closure stored in `a`. -/
theorem GenerateClosure_eq (s : State) (call : CallInfo) (rest : List CallInfo) (f a : Int)
    (i : Instruction) (c p : Nat)
    (hcalls : s.calls_ = call :: rest) (hfunc : call.func_ = some f)
    (hcl : s.cell f = .closure c) (hp : (s.gc_.closures_ c).prototype_ = some p)
    (hfa : f ≠ a) :
    GenerateClosure s a i =
      match GenerateClosure.prepare call c s.gc_.closure_count_ (childProto s p i).upvalues_
          (GenerateClosure.start s a ((s.gc_.functions_ p).GetChildFunction i.GetParamBx)) with
      | some s2 => .ok () s2
      | none => .undefined := by
  have h1f : (GenerateClosure.start s a
      ((s.gc_.functions_ p).GetChildFunction i.GetParamBx)).cell f = .closure c := by
    rw [GenerateClosure.start_cell, if_neg hfa, hcl]
  unfold GenerateClosure.start at h1f ⊢
  simp only [GenerateClosure, GET_CALLINFO_AND_PROTO_eq s call rest f c p hcalls hfunc hcl hp,
    hfunc, h1f, childProto]
  rfl

/-- A round of the capture loop promotes a register only to the upvalue it
allocates: a register that refers to an upvalue afterwards referred to it
before, or the upvalue was not allocated before the round. -/
theorem GenerateClosure.capture_new (call : CallInfo) (c nc : Nat) (s s1 : State)
    (d : UpvalueInfo) (h : GenerateClosure.capture call c nc s d = some s1) :
    s.gc_.upvalue_count_ ≤ s1.gc_.upvalue_count_ ∧
      ∀ q u, s1.cell q = .upvalue u → s.cell q = .upvalue u ∨ s.gc_.upvalue_count_ ≤ u := by
  cases hpl : d.parent_local_
  · unfold GenerateClosure.capture at h
    simp only [hpl, Bool.false_eq_true, if_false] at h
    cases hu : (s.gc_.closures_ c).GetUpvalue d.register_index_ with
    | none => rw [hu] at h; cases h
    | some u0 =>
      rw [hu] at h
      cases h
      exact ⟨le_refl _, fun q u hq => Or.inl hq⟩
  · by_cases hup : ∃ u, s.cell (call.register_ + d.register_index_) = .upvalue u
    · obtain ⟨u0, hv⟩ := hup
      unfold GenerateClosure.capture at h
      simp only [hpl, if_true, hv] at h
      cases h
      exact ⟨le_refl _, fun q u hq => Or.inl hq⟩
    · have hnot : ∀ u, s.cell (call.register_ + d.register_index_) ≠ .upvalue u :=
        fun u hh => hup ⟨u, hh⟩
      rw [GenerateClosure.capture_promote call c nc s d hpl hnot] at h
      cases h
      refine ⟨by rw [GenerateClosure.promote_count]; omega, ?_⟩
      intro q u hq
      rw [GenerateClosure.promote_cell] at hq
      by_cases hqr : q = call.register_ + d.register_index_
      · rw [if_pos hqr] at hq
        cases hq
        exact Or.inr (le_refl _)
      · rw [if_neg hqr] at hq
        exact Or.inl hq

/-- The capture loop promotes registers only to upvalues it allocates. -/
theorem GenerateClosure.prepare_new (call : CallInfo) (c nc : Nat) (infos : List UpvalueInfo) :
    ∀ (s s2 : State), GenerateClosure.prepare call c nc infos s = some s2 →
      s.gc_.upvalue_count_ ≤ s2.gc_.upvalue_count_ ∧
        ∀ q u, s2.cell q = .upvalue u → s.cell q = .upvalue u ∨ s.gc_.upvalue_count_ ≤ u := by
  induction infos with
  | nil =>
    intro s s2 h
    cases h
    exact ⟨le_refl _, fun q u hq => Or.inl hq⟩
  | cons d ds ih =>
    intro s s2 h
    rw [GenerateClosure.prepare] at h
    cases h1 : GenerateClosure.capture call c nc s d with
    | none => rw [h1] at h; cases h
    | some s1 =>
      rw [h1] at h
      obtain ⟨c1, n1⟩ := GenerateClosure.capture_new call c nc s s1 d h1
      obtain ⟨c2, n2⟩ := ih s1 s2 h
      refine ⟨le_trans c1 c2, ?_⟩
      intro q u hq
      rcases n2 q u hq with h3 | h3
      · exact n1 q u h3
      · exact Or.inr (le_trans c1 h3)

/-- C20 as stated fails when a descriptor captures the destination register.  In
`Sample.selfPromotedState` the register 0 is promoted to the upvalue 0, and
`Closure 0`, whose child captures the register 0, gives the new closure the
upvalue 1, allocated by the instruction, not the upvalue 0 of the register.  In
`Sample.captureState` the register 0 holds the number 5 and is not promoted,
and the upvalue `Closure 0` gives the new closure holds the new closure, not
the number 5. -/
theorem Closure_destination_counterexample :
    (∃ s2, Sample.selfPromotedState.cell 1 = .upvalue 0 ∧
      dispatch Sample.host (some 0) Sample.captureProto Sample.selfPromotedState
        (Sample.insAsBx .Closure 0 0) = .ok false s2 ∧
      (s2.gc_.closures_ 2).GetUpvalue 0 = some 1 ∧
      (s2.gc_.closures_ 2).GetUpvalue 0 ≠ some 0) ∧
    (∃ s2, Sample.captureState.cell 1 = .number 5 ∧
      dispatch Sample.host (some 0) Sample.captureProto Sample.captureState
        (Sample.insAsBx .Closure 0 0) = .ok false s2 ∧
      (s2.gc_.closures_ 1).GetUpvalue 0 = some 0 ∧
      s2.upvalueCell 0 = .closure 1 ∧ s2.upvalueCell 0 ≠ .number 5) :=
  ⟨⟨_, rfl, rfl, rfl, by decide⟩, ⟨_, rfl, rfl, rfl, rfl, by decide⟩⟩

/-- C20 as amended: `Closure A Bx` in a frame of the closure `c` with prototype
`p`, for a destination other than the function slot, in a state whose promoted
registers refer to allocated upvalues; everything is read in the state before
the instruction.  The new closure is the next closure pointer; it is the real
value of `a`, its prototype is the child prototype and it has one upvalue for
each descriptor.  The upvalue number `k` is: for a parent local in a register
other than `a` that is not promoted, an upvalue allocated by the instruction,
which holds the value the register had, and the register refers to it, so that
its real value is that value; for a parent local in a register other than `a`
that is promoted, the upvalue of the register, and the register still refers to
it; for a descriptor that is not a parent local, the upvalue of `c` at the index
of the descriptor; for a parent local in the register `a` itself, an upvalue
allocated by the instruction, which holds the new closure, and `a` refers to
it. -/
theorem Closure_upvalues (host : Host) (cl : Option Nat) (proto : Function) (s : State)
    (call : CallInfo) (rest : List CallInfo) (i : Instruction) (f : Int) (c p : Nat)
    (hop : i.GetOpCode = .Closure) (hcalls : s.calls_ = call :: rest)
    (hfunc : call.func_ = some f) (hcl : s.cell f = .closure c)
    (hp : (s.gc_.closures_ c).prototype_ = some p)
    (hfa : f ≠ GET_REGISTER_A call i) (hc : c ≠ s.gc_.closure_count_)
    (hwf : ∀ d ∈ (childProto s p i).upvalues_, d.parent_local_ = false →
      d.register_index_ < (s.gc_.closures_ c).upvalues_.length)
    (hheap : ∀ q u, s.cell q = .upvalue u → u < s.gc_.upvalue_count_) :
    ∃ s2, dispatch host cl proto s i = .ok false s2 ∧
      s2.read (GET_REAL_VALUE s2 (GET_REGISTER_A call i)) = .closure s.gc_.closure_count_ ∧
      ((∀ d ∈ (childProto s p i).upvalues_, d.parent_local_ = true →
          GET_REGISTER_A call i ≠ call.register_ + d.register_index_) →
        s2.cell (GET_REGISTER_A call i) = .closure s.gc_.closure_count_) ∧
      (s2.gc_.closures_ s.gc_.closure_count_).prototype_
        = some ((s.gc_.functions_ p).GetChildFunction i.GetParamBx) ∧
      (s2.gc_.closures_ s.gc_.closure_count_).upvalues_.length
        = (childProto s p i).GetUpvalueCount ∧
      ∀ k d, (childProto s p i).GetUpvalue k = some d →
        ∃ uk, (s2.gc_.closures_ s.gc_.closure_count_).GetUpvalue k = some uk ∧
          (d.parent_local_ = true →
            call.register_ + d.register_index_ ≠ GET_REGISTER_A call i →
            (∀ u', s.cell (call.register_ + d.register_index_) ≠ .upvalue u') →
            s.gc_.upvalue_count_ ≤ uk ∧
            s2.upvalueCell uk = s.cell (call.register_ + d.register_index_) ∧
            s2.cell (call.register_ + d.register_index_) = .upvalue uk ∧
            s2.read (GET_REAL_VALUE s2 (call.register_ + d.register_index_))
              = s.cell (call.register_ + d.register_index_)) ∧
          (d.parent_local_ = true →
            call.register_ + d.register_index_ ≠ GET_REGISTER_A call i →
            ∀ u', s.cell (call.register_ + d.register_index_) = .upvalue u' →
            uk = u' ∧ s2.cell (call.register_ + d.register_index_) = .upvalue u') ∧
          (d.parent_local_ = false →
            (s.gc_.closures_ c).GetUpvalue d.register_index_ = some uk) ∧
          (d.parent_local_ = true →
            call.register_ + d.register_index_ = GET_REGISTER_A call i →
            s.gc_.upvalue_count_ ≤ uk ∧ s2.upvalueCell uk = .closure s.gc_.closure_count_ ∧
            s2.cell (GET_REGISTER_A call i) = .upvalue uk) := by
  set a := GET_REGISTER_A call i with ha
  set nc := s.gc_.closure_count_ with hnc
  set cp := (s.gc_.functions_ p).GetChildFunction i.GetParamBx with hcp
  set st := GenerateClosure.start s a cp with hst
  have hstc : st.gc_.closures_ c = s.gc_.closures_ c := by
    rw [hst, GenerateClosure.start_closures, if_neg hc]
  have hstn : st.gc_.closures_ nc = { prototype_ := some cp, upvalues_ := [] } := by
    rw [hst, GenerateClosure.start_closures, if_pos rfl]
  have hwfst : ∀ d ∈ (childProto s p i).upvalues_, d.parent_local_ = false →
      d.register_index_ < (st.gc_.closures_ c).upvalues_.length := by
    intro d hd hpl; rw [hstc]; exact hwf d hd hpl
  have hheapst : ∀ q u, st.cell q = .upvalue u → u < st.gc_.upvalue_count_ := by
    intro q u h
    rw [hst, GenerateClosure.start_cell] at h
    by_cases hq : q = a
    · rw [if_pos hq] at h; cases h
    · rw [if_neg hq] at h; exact hheap q u h
  have hsta : st.cell a = .closure nc := by
    rw [hst, GenerateClosure.start_cell, if_pos rfl]
  have hstq : ∀ q, q ≠ a → st.cell q = s.cell q := by
    intro q hq
    rw [hst, GenerateClosure.start_cell, if_neg hq]
  have hcntst : st.gc_.upvalue_count_ = s.gc_.upvalue_count_ := rfl
  obtain ⟨s2, h2, hcnt2, hcells2, hheap2, hreal2, hk2⟩ :=
    GenerateClosure.prepare_rounds call c nc hc (childProto s p i).upvalues_ st hwfst hheapst
  obtain ⟨s2', added, h2', hup2, hlen2, hpr2, _, _, _, _, _, _, hkeep2, hsame2⟩ :=
    GenerateClosure.prepare_spec call c nc hc (childProto s p i).upvalues_ st hwfst
  obtain rfl : s2 = s2' := by
    rw [h2] at h2'; exact Option.some.inj h2'
  obtain ⟨_, hnew2⟩ := GenerateClosure.prepare_new call c nc (childProto s p i).upvalues_ st s2 h2
  have hD : dispatch host cl proto s i = .ok false s2 := by
    have hG := GenerateClosure_eq s call rest f a i c p hcalls hfunc hcl hp hfa
    rw [← hnc, ← hcp, ← hst, h2] at hG
    simp only [dispatch, hcalls, hop, ← ha, hG, Outcome.thenBreak]
  rw [hstn] at hup2 hpr2
  have hreala : s2.read (GET_REAL_VALUE s2 a) = .closure nc := by
    rw [hreal2 a, read_real_plain st a (by intro u h; rw [hsta] at h; cases h), hsta]
  refine ⟨s2, hD, hreala, ?_, hpr2, ?_, ?_⟩
  · intro hno
    rw [hsame2 a hno, hsta]
  · rw [hup2]; simpa [Function.GetUpvalueCount] using hlen2
  · intro k d hk
    obtain ⟨sk, uk, _, _, e3, e4, e5, e6⟩ := hk2 k d hk
    have hget : (s2.gc_.closures_ nc).GetUpvalue k = some uk := by
      rw [hstn] at e3
      rw [Closure.GetUpvalue, ← e3]
      simp
    -- a parent local ends up referring to the upvalue of its descriptor
    have hcell : d.parent_local_ = true →
        s2.cell (call.register_ + d.register_index_) = .upvalue uk := by
      intro hpl
      by_cases hup : ∃ u', sk.cell (call.register_ + d.register_index_) = .upvalue u'
      · obtain ⟨u', hu'⟩ := hup
        obtain ⟨g1, g2⟩ := e5 hpl u' hu'
        rw [g1]; exact g2
      · exact (e4 hpl (fun u' h => hup ⟨u', h⟩)).2.2
    refine ⟨uk, hget, ?_, ?_, ?_, ?_⟩
    · intro hpl hne hnot
      have hc2 := hcell hpl
      have hstnot : ∀ u', st.cell (call.register_ + d.register_index_) ≠ .upvalue u' := by
        intro u' h; rw [hstq _ hne] at h; exact hnot u' h
      have hval : s2.read (GET_REAL_VALUE s2 (call.register_ + d.register_index_))
          = s.cell (call.register_ + d.register_index_) := by
        rw [hreal2, read_real_plain st _ hstnot, hstq _ hne]
      refine ⟨?_, ?_, hc2, hval⟩
      · rcases hnew2 _ _ hc2 with h3 | h3
        · exact absurd h3 (hstnot uk)
        · rw [← hcntst]; exact h3
      · rw [← read_real_upvalue s2 _ uk hc2, hval]
    · intro hpl hne u' hu'
      have hk' := hkeep2 _ u' (by rw [hstq _ hne]; exact hu')
      have hc2 := hcell hpl
      rw [hk'] at hc2
      cases hc2
      exact ⟨rfl, hk'⟩
    · intro hpl
      rw [← hstc]; exact e6 hpl
    · intro hpl heq
      have hc2 := hcell hpl
      rw [heq] at hc2
      refine ⟨?_, ?_, hc2⟩
      · rcases hnew2 _ _ hc2 with h3 | h3
        · rw [hsta] at h3; cases h3
        · rw [← hcntst]; exact h3
      · rw [← read_real_upvalue s2 a uk hc2, hreala]

/-- C20 at a sample: `Closure 1` in the frame of `Sample.captureState`, whose
child prototype captures the register 0 holding the number 5.  The new closure
is in the register 1, its upvalue 0 holds 5, and the register 0 refers to that
upvalue. -/
theorem Closure_upvalues_witness :
    ∃ s2 uk, dispatch Sample.host (some 0) Sample.captureProto Sample.captureState
        (Sample.insAsBx .Closure 1 0) = .ok false s2 ∧
      s2.cell 2 = .closure 1 ∧
      (s2.gc_.closures_ 1).prototype_ = some 0 ∧
      (s2.gc_.closures_ 1).upvalues_.length = 1 ∧
      (s2.gc_.closures_ 1).GetUpvalue 0 = some uk ∧
      s2.upvalueCell uk = .number 5 ∧ s2.cell 1 = .upvalue uk ∧
      s2.read (GET_REAL_VALUE s2 1) = .number 5 := by
  have hmem : ∀ d ∈ (childProto Sample.captureState 0 (Sample.insAsBx .Closure 1 0)).upvalues_,
      d = { name_ := "x", parent_local_ := true, register_index_ := 0 } := by
    intro d hd
    simpa [childProto, Sample.captureState, Sample.gc, Sample.captureProto] using hd
  obtain ⟨s2, h1, _, h3, h4, h5, h6⟩ := Closure_upvalues Sample.host (some 0)
    Sample.captureProto Sample.captureState Sample.callerFrame [] (Sample.insAsBx .Closure 1 0)
    0 0 0 rfl rfl rfl rfl rfl (by decide) (by decide)
    (by intro d hd hpl; rw [hmem d hd] at hpl; cases hpl)
    (by
      intro q u h
      unfold State.cell Sample.captureState at h
      simp only at h
      split_ifs at h)
  obtain ⟨uk, e2, e3, _, _, _⟩ := h6 0
    { name_ := "x", parent_local_ := true, register_index_ := 0 } rfl
  obtain ⟨_, g2, g3, g4⟩ := e3 rfl (by decide) (by intro u' h; cases h)
  refine ⟨s2, uk, h1, ?_, h4, h5, e2, g2, g3, g4⟩
  exact h3 (by intro d hd _; rw [hmem d hd]; decide)

/-! ## Writes through a promoted register -/

theorem write_real_upvalue (s : State) (a : Int) (u : Nat) (v : Value)
    (h : s.cell a = .upvalue u) : s.write (GET_REAL_VALUE s a) v = s.setUpvalueCell u v := by
  simp only [GET_REAL_VALUE, h, State.write]

theorem write_real_plain (s : State) (a : Int) (v : Value) (h : ∀ u, s.cell a ≠ .upvalue u) :
    s.write (GET_REAL_VALUE s a) v = s.setCell a v := by
  unfold GET_REAL_VALUE
  cases hv : s.cell a
  case upvalue u => exact absurd hv (h u)
  all_goals simp only [State.write]

/-- The six cases of the switch that store through `GET_REAL_VALUE(a)`, as one
store of the value the opcode contracts give. -/
theorem dispatch_load (host : Host) (cl : Option Nat) (proto : Function) (s : State)
    (call : CallInfo) (rest : List CallInfo) (i : Instruction) (v : Value)
    (hcalls : s.calls_ = call :: rest) (hv : loadResult cl proto s call i = some v) :
    dispatch host cl proto s i = .ok false (s.write (GET_REAL_VALUE s (GET_REGISTER_A call i)) v) := by
  unfold loadResult at hv
  cases hop : i.GetOpCode <;> rw [hop] at hv <;> simp only at hv
  case LoadNil =>
    cases hv
    simp only [dispatch, hcalls, hop]
  case LoadBool =>
    cases hv
    simp only [dispatch, hcalls, hop]
    by_cases hB : i.GetParamB = 0 <;> simp [hB]
  case LoadConst =>
    cases hv
    simp only [dispatch, hcalls, hop]
  case Move =>
    cases hv
    simp only [dispatch, hcalls, hop]
  case GetUpvalue =>
    cases hu : GET_UPVALUE_B s cl i with
    | none => rw [hu] at hv; cases hv
    | some u0 =>
      rw [hu] at hv
      cases hv
      simp only [dispatch, hcalls, hop, hu]
  case GetGlobal =>
    cases hg : s.global_ <;> rw [hg] at hv <;> simp only at hv
    case table t =>
      cases hv
      simp only [dispatch, hcalls, hop, hg]
    all_goals cases hv
  all_goals cases hv

/-- C22: each of `LoadNil`, `LoadBool`, `LoadConst`, `Move`, `GetUpvalue` and
`GetGlobal` whose result, as the opcode contracts list it, is `v`.  When the
destination `a` is promoted to the upvalue `u`, the instruction stores `v` in
the cell of `u`, and leaves the whole stack (so the tag and the reference of
`a`, and every other register) and every other upvalue as they were.  When `a`
is not promoted it stores `v` in `a` itself and changes no other register and
no collected object.  The call stack and the stack top stay as they were. -/
theorem load_write_through (host : Host) (cl : Option Nat) (proto : Function) (s : State)
    (call : CallInfo) (rest : List CallInfo) (i : Instruction) (v : Value)
    (hcalls : s.calls_ = call :: rest) (hv : loadResult cl proto s call i = some v) :
    ∃ s1, dispatch host cl proto s i = .ok false s1 ∧
      s1.calls_ = s.calls_ ∧ s1.stack_.top_ = s.stack_.top_ ∧
      (∀ u, s.cell (GET_REGISTER_A call i) = .upvalue u →
        s1.upvalueCell u = v ∧ s1.cell (GET_REGISTER_A call i) = .upvalue u ∧
        s1.stack_ = s.stack_ ∧ (∀ u', u' ≠ u → s1.upvalueCell u' = s.upvalueCell u') ∧
        s1.gc_.closures_ = s.gc_.closures_) ∧
      ((∀ u, s.cell (GET_REGISTER_A call i) ≠ .upvalue u) →
        s1.cell (GET_REGISTER_A call i) = v ∧
        (∀ q, q ≠ GET_REGISTER_A call i → s1.cell q = s.cell q) ∧ s1.gc_ = s.gc_) := by
  have hD := dispatch_load host cl proto s call rest i v hcalls hv
  refine ⟨_, hD, ?_, ?_, ?_, ?_⟩
  · cases GET_REAL_VALUE s (GET_REGISTER_A call i) <;> rfl
  · cases GET_REAL_VALUE s (GET_REGISTER_A call i) <;> rfl
  · intro u hu
    rw [write_real_upvalue s _ u v hu]
    refine ⟨?_, hu, rfl, ?_, rfl⟩
    · simp [State.setUpvalueCell, State.upvalueCell]
    · intro u' hne
      simp [State.setUpvalueCell, State.upvalueCell, hne]
  · intro hnot
    rw [write_real_plain s _ v hnot]
    refine ⟨?_, ?_, rfl⟩
    · simp [State.setCell, State.cell]
    · intro q hq
      simp [State.setCell, State.cell, hq]

/-- C22 at a sample: `LoadBool 0 1` on a register promoted to the upvalue 0
stores `true` in the upvalue and leaves the register promoted. -/
theorem load_write_through_witness :
    ∃ s1, dispatch Sample.host none Sample.emptyProto Sample.promotedState
        (Sample.insABC .LoadBool 0 1 0) = .ok false s1 ∧
      s1.upvalueCell 0 = .bool true ∧ s1.cell 1 = .upvalue 0 ∧
      s1.stack_ = Sample.promotedState.stack_ := by
  obtain ⟨s1, h1, _, _, h4, _⟩ := load_write_through Sample.host none Sample.emptyProto
    Sample.promotedState Sample.callerFrame [] (Sample.insABC .LoadBool 0 1 0) (.bool true)
    rfl rfl
  obtain ⟨e1, e2, e3, _⟩ := h4 0 rfl
  exact ⟨s1, h1, e1, e2, e3⟩

/-! ## Promotion of a register -/

/-- C21 as stated fails: in `Sample.promotedState` the register 0 is promoted to
the upvalue 0, which the closure 1 holds; `Add 0 1 2` writes the register 0, and
afterwards the register holds the number 3 itself, no longer a reference to the
upvalue, and the upvalue still holds 5. -/
theorem promotion_lost_counterexample :
    ∃ s1, Sample.promotedState.cell 1 = .upvalue 0 ∧
      (Sample.promotedState.gc_.closures_ 1).GetUpvalue 0 = some 0 ∧
      dispatch Sample.host (some 0) Sample.emptyProto Sample.promotedState
        (Sample.insABC .Add 0 1 2) = .ok false s1 ∧
      s1.cell 1 = .number 3 ∧ s1.cell 1 ≠ .upvalue 0 ∧ s1.upvalueCell 0 = .number 5 := by
  have hD : dispatch Sample.host (some 0) Sample.emptyProto Sample.promotedState
      (Sample.insABC .Add 0 1 2) = arith Sample.promotedState Sample.callerFrame
        (Sample.insABC .Add 0 1 2) "add" (fun x y => x + y) := rfl
  rw [arith_ok Sample.promotedState Sample.callerFrame (Sample.insABC .Add 0 1 2) "add"
    (fun x y => x + y) 1 2 rfl rfl] at hD
  refine ⟨_, rfl, rfl, hD, ?_, ?_, rfl⟩
  · simp [State.setCell, State.cell, GET_REGISTER_A, Sample.callerFrame, Sample.insABC]
    norm_num
  · simp [State.setCell, State.cell, GET_REGISTER_A, Sample.callerFrame, Sample.insABC]

/-- C21 as amended: a register `q` promoted to the upvalue `u`, and an
instruction of the family `LoadNil`, `LoadBool`, `LoadConst`, `Move`,
`GetUpvalue`, `GetGlobal` with the result `v`, whatever its destination.
Afterwards `q` still refers to `u` and no closure has changed; if `q` is the
destination, `u` holds `v`, the real value of `q` is `v`, and a `GetUpvalue`
through any closure that holds `u` reads `v`.  For the arithmetic opcodes with
numbers as operands the destination holds the resulting number itself
afterwards, a raw store, and no upvalue has changed. -/
theorem promotion_kept (host : Host) (cl : Option Nat) (proto : Function) (s : State)
    (call : CallInfo) (rest : List CallInfo) (i : Instruction)
    (hcalls : s.calls_ = call :: rest) :
    (∀ (v : Value) (q : Int) (u : Nat), loadResult cl proto s call i = some v →
      s.cell q = .upvalue u →
      ∃ s1, dispatch host cl proto s i = .ok false s1 ∧ s1.cell q = .upvalue u ∧
        s1.gc_.closures_ = s.gc_.closures_ ∧ s1.calls_ = s.calls_ ∧
        (q = GET_REGISTER_A call i →
          s1.upvalueCell u = v ∧ s1.read (GET_REAL_VALUE s1 q) = v ∧
          ∀ (host2 : Host) (nb kb : Nat) (py : Function) (iget : Instruction),
            (s1.gc_.closures_ nb).GetUpvalue kb = some u →
            iget.GetOpCode = .GetUpvalue → iget.GetParamB = kb →
            ∃ s2, dispatch host2 (some nb) py s1 iget = .ok false s2 ∧
              s2.read (GET_REAL_VALUE s1 (GET_REGISTER_A call iget)) = v)) ∧
    (∀ (name : String) (x y : ℚ), arithName i.GetOpCode = some name →
      s.cell (GET_REGISTER_B call i) = .number x → s.cell (GET_REGISTER_C call i) = .number y →
      ∃ s1 z, dispatch host cl proto s i = .ok false s1 ∧
        s1.cell (GET_REGISTER_A call i) = .number z ∧ s1.gc_ = s.gc_) := by
  constructor
  · intro v q u hv hq
    have hD := dispatch_load host cl proto s call rest i v hcalls hv
    have hread : ∀ (s1 : State), s1.calls_ = call :: rest → s1.upvalueCell u = v →
        ∀ (host2 : Host) (nb kb : Nat) (py : Function) (iget : Instruction),
          (s1.gc_.closures_ nb).GetUpvalue kb = some u →
          iget.GetOpCode = .GetUpvalue → iget.GetParamB = kb →
          ∃ s2, dispatch host2 (some nb) py s1 iget = .ok false s2 ∧
            s2.read (GET_REAL_VALUE s1 (GET_REGISTER_A call iget)) = v := by
      intro s1 hc hu host2 nb kb py iget hb hget hgetB
      refine ⟨s1.write (GET_REAL_VALUE s1 (GET_REGISTER_A call iget)) (s1.upvalueCell u), ?_, ?_⟩
      · simp only [dispatch, hc, hget, GET_UPVALUE_B, hgetB, hb]
      · rw [read_write, hu]
    by_cases hup : ∃ u', s.cell (GET_REGISTER_A call i) = .upvalue u'
    · obtain ⟨u', hu'⟩ := hup
      rw [write_real_upvalue s _ u' v hu'] at hD
      refine ⟨_, hD, hq, rfl, rfl, ?_⟩
      intro hqa
      have huu : u' = u := by
        rw [← hqa, hq] at hu'; cases hu'; rfl
      subst huu
      have hcellu : (s.setUpvalueCell u' v).upvalueCell u' = v := by
        simp [State.setUpvalueCell, State.upvalueCell]
      refine ⟨hcellu, ?_, hread _ hcalls hcellu⟩
      rw [read_real_upvalue (s.setUpvalueCell u' v) q u' hq, hcellu]
    · have hnot : ∀ u', s.cell (GET_REGISTER_A call i) ≠ .upvalue u' := fun u' h => hup ⟨u', h⟩
      rw [write_real_plain s _ v hnot] at hD
      have hne : q ≠ GET_REGISTER_A call i := by
        intro e; rw [e] at hq; exact hnot u hq
      refine ⟨_, hD, ?_, rfl, rfl, fun e => absurd e hne⟩
      simp [State.setCell, State.cell, hne]
      exact hq
  · intro name x y hname hb hc
    obtain ⟨fn, hfn⟩ := dispatch_arith host cl proto s call rest i name hcalls hname
    rw [arith_ok s call i name fn x y hb hc] at hfn
    refine ⟨_, fn x y, hfn, ?_, rfl⟩
    simp [State.setCell, State.cell]

/-- C21 at a sample: `Move 0 1` on the register 0 promoted to the upvalue 0
stores the number 1 in the upvalue, the register stays promoted, and
`GetUpvalue 3 0` through the closure 1, which holds the upvalue, reads 1. -/
theorem promotion_kept_witness :
    ∃ s1 s2, dispatch Sample.host (some 0) Sample.emptyProto Sample.promotedState
        (Sample.insABC .Move 0 1 0) = .ok false s1 ∧
      s1.cell 1 = .upvalue 0 ∧ s1.upvalueCell 0 = .number 1 ∧
      dispatch Sample.host (some 1) Sample.emptyProto s1 (Sample.insABC .GetUpvalue 3 0 0)
        = .ok false s2 ∧
      s2.read (GET_REAL_VALUE s1 4) = .number 1 := by
  obtain ⟨h, _⟩ := promotion_kept Sample.host (some 0) Sample.emptyProto Sample.promotedState
    Sample.callerFrame [] (Sample.insABC .Move 0 1 0) rfl
  obtain ⟨s1, h1, h2, h3, _, h5⟩ := h (.number 1) 1 0 rfl rfl
  obtain ⟨e1, _, e3⟩ := h5 rfl
  obtain ⟨s2, k1, k2⟩ := e3 Sample.host 1 0 Sample.emptyProto (Sample.insABC .GetUpvalue 3 0 0)
    (by rw [h3]; rfl) rfl rfl
  exact ⟨s1, s2, h1, h2, e1, k1, k2⟩

/-! ## Concat of a string and an integer -/

theorem NumberToStr_int (host : Host) (z : Int) (hlo : -(2 : Int) ^ 63 ≤ z)
    (hhi : z < (2 : Int) ^ 63) :
    NumberToStr host (.number (z : ℚ)) = some (toString z) := by
  simp only [NumberToStr, Int.floor_intCast, if_true]
  rw [if_pos ⟨hlo, hhi⟩]

/-- Beyond the range of `long long` the conversion in `NumberToStr` is not
defined. -/
theorem NumberToStr_overflow (host : Host) (z : Int) (h : (2 : Int) ^ 63 ≤ z) :
    NumberToStr host (.number (z : ℚ)) = none := by
  have hn : ¬ (-(2 : Int) ^ 63 ≤ z ∧ z < (2 : Int) ^ 63) := fun hh => absurd hh.2 (not_lt.mpr h)
  simp only [NumberToStr, Int.floor_intCast, if_true]
  rw [if_neg hn]

/-- C23, the code at the failing input: `Concat 2 0 1` of the three-byte string
`a`, NUL, `b` and the number 1 stores `a1`, the bytes before the NUL followed by
the digit, not the whole string followed by the digit. -/
theorem Concat_nul_truncated :
    ∃ s1, Sample.nulState.cell 1 = .string (String.mk ['a', Char.ofNat 0, 'b']) ∧
      Sample.nulState.cell 2 = .number 1 ∧
      dispatch Sample.host (some 0) Sample.emptyProto Sample.nulState
        (Sample.insABC .Concat 2 0 1) = .ok false s1 ∧
      s1.cell 3 = .string "a1" ∧
      s1.cell 3 ≠ .string (String.mk ['a', Char.ofNat 0, 'b'] ++ "1") := by
  have hN := NumberToStr_int Sample.host 1 (by decide) (by decide)
  rw [Int.cast_one] at hN
  have hC : Concat Sample.host Sample.nulState 3 1 2 = .ok ()
      (Sample.nulState.setCell 3 (.string (GetCStr (String.mk ['a', Char.ofNat 0, 'b']) ++
        toString (1 : Int)))) := by
    have h1 : Sample.nulState.cell 1 = .string (String.mk ['a', Char.ofNat 0, 'b']) := rfl
    have h2 : Sample.nulState.cell 2 = .number 1 := rfl
    simp only [Concat, h1, h2, hN]
  have hD : dispatch Sample.host (some 0) Sample.emptyProto Sample.nulState
      (Sample.insABC .Concat 2 0 1) = (Concat Sample.host Sample.nulState 3 1 2).thenBreak := rfl
  rw [hC] at hD
  refine ⟨_, rfl, rfl, hD, ?_, ?_⟩
  · simp only [State.setCell, State.cell, if_pos]
    decide
  · simp only [State.setCell, State.cell, if_pos]
    decide

/-- What `Concat A B C` does on a string `str` that holds no NUL byte and a
number whose value is the integer `z` within the range of `long long`, in
either order.  The destination gets the string `str` followed by the decimal
digits of `z` (with the sign when `z` is negative and no fractional part), or
the digits followed by `str`; no other register, no collected object and no
frame changes, and the loop goes on. -/
theorem Concat_string_integer (host : Host) (cl : Option Nat) (proto : Function) (s : State)
    (call : CallInfo) (rest : List CallInfo) (i : Instruction) (str : String) (z : Int)
    (hop : i.GetOpCode = .Concat) (hcalls : s.calls_ = call :: rest)
    (hnul : ∀ ch ∈ str.data, ch ≠ Char.ofNat 0)
    (hlo : -(2 : Int) ^ 63 ≤ z) (hhi : z < (2 : Int) ^ 63) :
    (s.cell (GET_REGISTER_B call i) = .string str →
      s.cell (GET_REGISTER_C call i) = .number (z : ℚ) →
      ∃ s1, dispatch host cl proto s i = .ok false s1 ∧
        s1.cell (GET_REGISTER_A call i) = .string (str ++ toString z) ∧
        (∀ q, q ≠ GET_REGISTER_A call i → s1.cell q = s.cell q) ∧
        s1.calls_ = s.calls_ ∧ s1.gc_ = s.gc_) ∧
    (s.cell (GET_REGISTER_B call i) = .number (z : ℚ) →
      s.cell (GET_REGISTER_C call i) = .string str →
      ∃ s1, dispatch host cl proto s i = .ok false s1 ∧
        s1.cell (GET_REGISTER_A call i) = .string (toString z ++ str) ∧
        (∀ q, q ≠ GET_REGISTER_A call i → s1.cell q = s.cell q) ∧
        s1.calls_ = s.calls_ ∧ s1.gc_ = s.gc_) := by
  have hD : dispatch host cl proto s i = (Concat host s (GET_REGISTER_A call i)
      (GET_REGISTER_B call i) (GET_REGISTER_C call i)).thenBreak := by
    simp only [dispatch, hcalls, hop]
  have hN := NumberToStr_int host z hlo hhi
  have hG := GetCStr_eq_self str hnul
  constructor
  · intro hb hc
    have hC : Concat host s (GET_REGISTER_A call i) (GET_REGISTER_B call i)
        (GET_REGISTER_C call i) = .ok ()
          (s.setCell (GET_REGISTER_A call i) (.string (str ++ toString z))) := by
      simp only [Concat, hb, hc, hN, hG]
    rw [hC] at hD
    refine ⟨_, hD, ?_, ?_, rfl, rfl⟩
    · simp [State.setCell, State.cell]
    · intro q hq
      simp [State.setCell, State.cell, hq]
  · intro hb hc
    have hC : Concat host s (GET_REGISTER_A call i) (GET_REGISTER_B call i)
        (GET_REGISTER_C call i) = .ok ()
          (s.setCell (GET_REGISTER_A call i) (.string (toString z ++ str))) := by
      simp only [Concat, hb, hc, hN, hG]
    rw [hC] at hD
    refine ⟨_, hD, ?_, ?_, rfl, rfl⟩
    · simp [State.setCell, State.cell]
    · intro q hq
      simp [State.setCell, State.cell, hq]

/-- The chain at a sample: from the empty string in register 0, `Concat 0 0 1`,
`Concat 0 0 2` and `Concat 0 0 3` with the numbers 1, 2, 3 in the registers 1 to
3 leave the string `123` in register 0. -/
theorem Concat_string_integer_witness :
    ∃ s1 s2 s3, dispatch Sample.host (some 0) Sample.emptyProto Sample.digitsState
        (Sample.insABC .Concat 0 0 1) = .ok false s1 ∧
      dispatch Sample.host (some 0) Sample.emptyProto s1 (Sample.insABC .Concat 0 0 2)
        = .ok false s2 ∧
      dispatch Sample.host (some 0) Sample.emptyProto s2 (Sample.insABC .Concat 0 0 3)
        = .ok false s3 ∧
      s3.cell 1 = .string "123" := by
  have c1 : (Value.number 1) = .number ((1 : Int) : ℚ) := by rw [Int.cast_one]
  have c2 : (Value.number 2) = .number ((2 : Int) : ℚ) := by rw [Int.cast_ofNat]
  have c3 : (Value.number 3) = .number ((3 : Int) : ℚ) := by rw [Int.cast_ofNat]
  obtain ⟨s1, h1, a1, o1, k1, _⟩ := (Concat_string_integer Sample.host (some 0)
    Sample.emptyProto Sample.digitsState Sample.callerFrame [] (Sample.insABC .Concat 0 0 1)
    "" 1 rfl rfl (by decide) (by decide) (by decide)).1 rfl c1
  obtain ⟨s2, h2, a2, o2, k2, _⟩ := (Concat_string_integer Sample.host (some 0)
    Sample.emptyProto s1 Sample.callerFrame [] (Sample.insABC .Concat 0 0 2)
    ("" ++ toString (1 : Int)) 2 rfl k1 (by decide) (by decide) (by decide)).1 a1
    ((o1 3 (by decide)).trans c2)
  obtain ⟨s3, h3, a3, _, _, _⟩ := (Concat_string_integer Sample.host (some 0)
    Sample.emptyProto s2 Sample.callerFrame [] (Sample.insABC .Concat 0 0 3)
    ("" ++ toString (1 : Int) ++ toString (2 : Int)) 3 rfl (k2.trans k1) (by decide)
    (by decide) (by decide)).1 a2
    (((o2 4 (by decide)).trans (o1 4 (by decide))).trans c3)
  exact ⟨s1, s2, s3, h1, h2, h3, a3⟩

/-! ## A closure that captures its own register -/

/-- C24: `Closure A Bx` in a frame of the closure `c`, for a destination other
than the function slot, in a state whose promoted registers refer to allocated
upvalues, with a descriptor number `k` of the child prototype that captures the
parent local in the destination register `a` itself.  Whatever `a` held before
the instruction, promoted or not: the upvalue number `k` of the new closure
holds the new closure, `a` ends up promoted to that upvalue, and the real value
of `a` is the new closure.  If no earlier descriptor names `a`, that upvalue is
allocated by this instruction; an upvalue `a` was promoted to before is another
one and keeps its value. -/
theorem Closure_self_capture (host : Host) (cl : Option Nat) (proto : Function) (s : State)
    (call : CallInfo) (rest : List CallInfo) (i : Instruction) (f : Int) (c p k : Nat)
    (d : UpvalueInfo)
    (hop : i.GetOpCode = .Closure) (hcalls : s.calls_ = call :: rest)
    (hfunc : call.func_ = some f) (hcl : s.cell f = .closure c)
    (hp : (s.gc_.closures_ c).prototype_ = some p)
    (hfa : f ≠ GET_REGISTER_A call i) (hc : c ≠ s.gc_.closure_count_)
    (hwf : ∀ d ∈ (childProto s p i).upvalues_, d.parent_local_ = false →
      d.register_index_ < (s.gc_.closures_ c).upvalues_.length)
    (hheap : ∀ q u, s.cell q = .upvalue u → u < s.gc_.upvalue_count_)
    (hk : (childProto s p i).GetUpvalue k = some d) (hpl : d.parent_local_ = true)
    (hself : call.register_ + d.register_index_ = GET_REGISTER_A call i) :
    ∃ s2 uk, dispatch host cl proto s i = .ok false s2 ∧
      (s2.gc_.closures_ s.gc_.closure_count_).GetUpvalue k = some uk ∧
      s2.upvalueCell uk = .closure s.gc_.closure_count_ ∧
      s2.cell (GET_REGISTER_A call i) = .upvalue uk ∧
      s2.read (GET_REAL_VALUE s2 (GET_REGISTER_A call i)) = .closure s.gc_.closure_count_ ∧
      (s2.gc_.closures_ s.gc_.closure_count_).prototype_
        = some ((s.gc_.functions_ p).GetChildFunction i.GetParamBx) ∧
      ((∀ d' ∈ (childProto s p i).upvalues_.take k, d'.parent_local_ = true →
          d'.register_index_ ≠ d.register_index_) →
        s.gc_.upvalue_count_ ≤ uk ∧
        ∀ u0, s.cell (GET_REGISTER_A call i) = .upvalue u0 →
          uk ≠ u0 ∧ s2.upvalueCell u0 = s.upvalueCell u0) := by
  set a := GET_REGISTER_A call i with ha
  set nc := s.gc_.closure_count_ with hnc
  set cp := (s.gc_.functions_ p).GetChildFunction i.GetParamBx with hcp
  set st := GenerateClosure.start s a cp with hst
  have hstc : st.gc_.closures_ c = s.gc_.closures_ c := by
    rw [hst, GenerateClosure.start_closures, if_neg hc]
  have hstn : st.gc_.closures_ nc = { prototype_ := some cp, upvalues_ := [] } := by
    rw [hst, GenerateClosure.start_closures, if_pos rfl]
  have hwfst : ∀ d ∈ (childProto s p i).upvalues_, d.parent_local_ = false →
      d.register_index_ < (st.gc_.closures_ c).upvalues_.length := by
    intro d hd hpl; rw [hstc]; exact hwf d hd hpl
  have hheapst : ∀ q u, st.cell q = .upvalue u → u < st.gc_.upvalue_count_ := by
    intro q u h
    rw [hst, GenerateClosure.start_cell] at h
    by_cases hq : q = a
    · rw [if_pos hq] at h; cases h
    · rw [if_neg hq] at h; exact hheap q u h
  have hsta : st.cell a = .closure nc := by
    rw [hst, GenerateClosure.start_cell, if_pos rfl]
  obtain ⟨s2, h2, hcnt2, hcells2, hheap2, hreal2, hk2⟩ :=
    GenerateClosure.prepare_rounds call c nc hc (childProto s p i).upvalues_ st hwfst hheapst
  obtain ⟨s2', added, h2', _, _, hpr2, _, _, _, _, _, _, _, _⟩ :=
    GenerateClosure.prepare_spec call c nc hc (childProto s p i).upvalues_ st hwfst
  obtain rfl : s2 = s2' := by
    rw [h2] at h2'; exact Option.some.inj h2'
  have hD : dispatch host cl proto s i = .ok false s2 := by
    have hG := GenerateClosure_eq s call rest f a i c p hcalls hfunc hcl hp hfa
    rw [← hnc, ← hcp, ← hst, h2] at hG
    simp only [dispatch, hcalls, hop, ← ha, hG, Outcome.thenBreak]
  rw [hstn] at hpr2
  have hreala : s2.read (GET_REAL_VALUE s2 a) = .closure nc := by
    rw [hreal2 a, read_real_plain st a (by intro u h; rw [hsta] at h; cases h), hsta]
  obtain ⟨sk, uk, e1, e2, e3, e4, e5, _⟩ := hk2 k d hk
  rw [hself] at e4 e5
  have hwfk : ∀ d' ∈ (childProto s p i).upvalues_.take k, d'.parent_local_ = false →
      d'.register_index_ < (st.gc_.closures_ c).upvalues_.length :=
    fun d' hd' => hwfst d' (List.mem_of_mem_take hd')
  obtain ⟨sk', _, f1, _, _, _, _, _, _, _, _, _, _, hsamek⟩ :=
    GenerateClosure.prepare_spec call c nc hc ((childProto s p i).upvalues_.take k) st hwfk
  obtain rfl : sk = sk' := by
    rw [e1] at f1; exact Option.some.inj f1
  have hget : (s2.gc_.closures_ nc).GetUpvalue k = some uk := by
    rw [hstn] at e3
    rw [Closure.GetUpvalue, ← e3]
    simp
  have hcella : s2.cell a = .upvalue uk := by
    by_cases hup : ∃ u', sk.cell a = .upvalue u'
    · obtain ⟨u', hu'⟩ := hup
      obtain ⟨g1, g2⟩ := e5 hpl u' hu'
      rw [g1]; exact g2
    · exact (e4 hpl (fun u' h => hup ⟨u', h⟩)).2.2
  have hcellu : s2.upvalueCell uk = .closure nc := by
    rw [← read_real_upvalue s2 a uk hcella, hreala]
  refine ⟨s2, uk, hD, hget, hcellu, hcella, hreala, hpr2, ?_⟩
  intro hfirst
  have hska : sk.cell a = .closure nc := by
    rw [hsamek a (fun d' hd' hpl' e => hfirst d' hd' hpl' (by omega)), hsta]
  obtain ⟨g1, _, _⟩ := e4 hpl (by intro u' h; rw [hska] at h; cases h)
  have hge : s.gc_.upvalue_count_ ≤ uk := by
    rw [g1]; exact e2
  refine ⟨hge, ?_⟩
  intro u0 hu0
  have hlt := hheap a u0 hu0
  exact ⟨by omega, hcells2 u0 hlt⟩

/-- C24 at a sample: `Closure 0` in the frame of `Sample.captureState`, whose
child prototype captures the register 0, the destination.  The register held
the number 5; afterwards it refers to an upvalue that holds the new closure,
which is the upvalue 0 of that closure. -/
theorem Closure_self_capture_witness :
    ∃ s2 uk, dispatch Sample.host (some 0) Sample.captureProto Sample.captureState
        (Sample.insAsBx .Closure 0 0) = .ok false s2 ∧
      Sample.captureState.cell 1 = .number 5 ∧
      (s2.gc_.closures_ 1).GetUpvalue 0 = some uk ∧
      s2.upvalueCell uk = .closure 1 ∧ s2.cell 1 = .upvalue uk ∧
      s2.read (GET_REAL_VALUE s2 1) = .closure 1 := by
  have hmem : ∀ d ∈ (childProto Sample.captureState 0 (Sample.insAsBx .Closure 0 0)).upvalues_,
      d = { name_ := "x", parent_local_ := true, register_index_ := 0 } := by
    intro d hd
    simpa [childProto, Sample.captureState, Sample.gc, Sample.captureProto] using hd
  obtain ⟨s2, uk, h1, h2, h3, h4, h5, _⟩ := Closure_self_capture Sample.host (some 0)
    Sample.captureProto Sample.captureState Sample.callerFrame [] (Sample.insAsBx .Closure 0 0)
    0 0 0 0 { name_ := "x", parent_local_ := true, register_index_ := 0 }
    rfl rfl rfl rfl rfl (by decide) (by decide)
    (by intro d hd hpl; rw [hmem d hd] at hpl; cases hpl)
    (by
      intro q u h
      unfold State.cell Sample.captureState at h
      simp only at h
      split_ifs at h)
    rfl rfl rfl
  exact ⟨s2, uk, h1, rfl, h2, h3, h4, h5⟩

/-! ## Arguments that are not supplied -/

/-- C25: `Call A B C` on a closure whose prototype has no varargs, with
`n = top - (a + 1)` supplied arguments, `top` being the stack top after the `B`
adjustment of `Call`, whatever `n` is and so also for `n < fixed`.  The call
writes no stack cell: the stack after it is
cell for cell the stack before it, so every parameter register
`register_base + j` with `n ≤ j < fixed` holds the value that cell held before
the call, and is `Nil` exactly if it was; the registers of the pushed frame
start at `a + 1` and the stack top is `register_base + fixed`. -/
theorem Call_under_supplied (host : Host) (cl : Option Nat) (proto : Function) (s : State)
    (call : CallInfo) (rest : List CallInfo) (i : Instruction) (c p : Nat)
    (hop : i.GetOpCode = .Call) (hcalls : s.calls_ = call :: rest)
    (hcl : s.cell (GET_REGISTER_A call i) = .closure c)
    (hp : (s.gc_.closures_ c).prototype_ = some p)
    (hva : (s.gc_.functions_ p).HasVararg = false) :
    ∃ s1 callee, dispatch host cl proto s i = .ok true s1 ∧
      s1.calls_ = callee :: s.calls_ ∧ callee.register_ = GET_REGISTER_A call i + 1 ∧
      s1.stack_.stack_ = s.stack_.stack_ ∧
      (∀ j : Int, Call.top s (GET_REGISTER_A call i) i - (GET_REGISTER_A call i + 1) ≤ j →
        j < (s.gc_.functions_ p).FixedArgCount →
        s1.cell (callee.register_ + j) = s.cell (GET_REGISTER_A call i + 1 + j) ∧
        (s1.cell (callee.register_ + j) = .nil ↔ s.cell (GET_REGISTER_A call i + 1 + j) = .nil)) ∧
      s1.stack_.top_ = callee.register_ + (s.gc_.functions_ p).FixedArgCount ∧
      s1.gc_ = s.gc_ := by
  set a := GET_REGISTER_A call i with ha
  have hD : dispatch host cl proto s i = Call host s a i := by
    simp only [dispatch, hcalls, hop, ha]
  have hCC := CallClosure_fixed (Call.adjust s a i) a ((i.GetParamC : Int) - 1) c p
    (by rw [Call.adjust_cell]; exact hcl) (by rw [Call.adjust_gc]; exact hp)
    (by rw [Call.adjust_gc]; exact hva)
  rw [Call_closure host s a i c hcl, hCC] at hD
  refine ⟨_, _, hD, congrArg (List.cons _) (Call.adjust_calls s a i), rfl,
    Call.adjust_cells s a i, ?_, ?_, Call.adjust_gc s a i⟩
  · intro j _ _
    have hcell : ∀ q, State.cell { Call.adjust s a i with
        stack_ := { (Call.adjust s a i).stack_ with
          top_ := a + 1 + ((Call.adjust s a i).gc_.functions_ p).FixedArgCount },
        calls_ := { register_ := a + 1, func_ := some a, instruction_ := 0,
                    end_ := ((Call.adjust s a i).gc_.functions_ p).OpCodeSize,
                    expect_result := (i.GetParamC : Int) - 1 } :: (Call.adjust s a i).calls_ } q
        = s.cell q := fun q => Call.adjust_cell s a i q
    exact ⟨hcell _, by rw [hcell]⟩
  · simp only [Call.adjust_gc]

/-- C25 at a sample: the closure of `Sample.fixedProto`, with two fixed
arguments, called with none (`Call 0 1 2`) over a stack whose slots 2 and 3
hold 10 and 20; after the call the two parameter registers hold 10 and 20, not
`Nil`, and the stack top is after them. -/
theorem Call_under_supplied_witness :
    ∃ s1 callee, dispatch Sample.host none Sample.emptyProto Sample.fixedCallState
        (Sample.insABC .Call 0 1 2) = .ok true s1 ∧
      s1.calls_ = [callee, Sample.callerFrame] ∧ callee.register_ = 2 ∧
      s1.cell 2 = .number 10 ∧ s1.cell 3 = .number 20 ∧ s1.stack_.top_ = 4 := by
  obtain ⟨s1, callee, h1, h2, h3, _, h5, h6, _⟩ := Call_under_supplied Sample.host none
    Sample.emptyProto Sample.fixedCallState Sample.callerFrame [] (Sample.insABC .Call 0 1 2)
    0 0 rfl rfl rfl rfl rfl
  have e0 := (h5 0 (by decide) (by decide)).1
  have e1 := (h5 1 (by decide) (by decide)).1
  rw [h3] at e0 e1 h6
  exact ⟨s1, callee, h1, h2, h3, e0, e1, h6⟩

end luna
